import Mathlib

/-!
# shmux: target registry, phase machine, output parsing and child finalization

A shallow embedding of `src/target.c` and `src/loop.c`.

* C strings are lists of characters (the bytes before the terminating NUL).
* The `targets` array is a list holding the entries `0 .. tmax`; `tmax` is the
  length minus one.  `main` adds at least one target before any other registry
  routine runs, and the first `target_add` resets `tmax` to `-1` before
  incrementing it, so `tmax + 1` is the number of entries from then on.
* `char`/`int` fields are integers; every value stored in `status` and `phase`
  lies in `-1 .. 4`, so no truncation occurs.
* A failed `assert` (or `abort()`) is the result `none`.
* `parse_child` works on the memory that holds its `buffer` argument: the
  pointers `start` and `nl` are indices, the stores `*nl = 0`, `*(nl-1) = 0`
  and `*(nl-1) = 13` update that memory, and `strcmp`/`strlen` read the C
  string found there at the time of the call.
* The byte in front of the read buffer, which `parse_child` reads and may
  rewrite when a chunk starts with a newline, is an input (`guard`);
  `parse_reads` hands it on from one read to the next.
* What leaves the engine (lines for the screen, bytes for the output files,
  file replays) is collected in a list of events; `write` is taken to succeed.
* Calls into the status module (`status_phase`, `status_spawned`) and the
  diagnostic printers (`eprint`, `iprint`, `dprint`) only update counters and
  the terminal; they are left out.
* The headers of the repository that are not among the sources (`target.h`,
  `loop.h`, `analyzer.h`, `byteset.h`, `term.h`) are modelled from the
  specification; the analyzers and byte sets are parameters (`Env`).
-/

namespace Shmux

/-! ## Constants -/

/-- Modelled from the spec: `target.h` is not among the sources; the verdict
codes are `failure = -2`, `timeout = -1`, `unknown = 0`, `success = 1`,
`error = 2`, which is also what the `switch` in `target_results` and the
comment on `struct target` in `target.c` spell out. -/
def CMD_FAILURE : Int := -2

/-- Modelled from the spec: verdict code `timeout = -1` (see `CMD_FAILURE`). -/
def CMD_TIMEOUT : Int := -1

/-- Modelled from the spec: verdict code `success = 1` (see `CMD_FAILURE`). -/
def CMD_SUCCESS : Int := 1

/-- Modelled from the spec: verdict code `error = 2` (see `CMD_FAILURE`). -/
def CMD_ERROR : Int := 2

/-! ## Target registry (`target.c`) -/

/-- The `struct target` of `target.c`. -/
structure Target where
  name : List Char
  type : Int
  status : Int
  phase : Int
  when : Int
  result : Int
  deriving DecidableEq

/-- The file-scope state of `target.c`: the `targets` array (entries
`0 .. tmax`), the default method `type` and the current target pointer
`tcur`. -/
structure Registry where
  targets : List Target
  type : Int
  tcur : Int
  deriving DecidableEq

/-- The variable `tmax`: index of the last target, once a target has been
added (before the first `target_add` the C variable is 0 and `targets` is
`NULL`; `main` adds a target before any other routine of the registry runs). -/
def tmax (r : Registry) : Int := (r.targets.length : Int) - 1

/-- The entry `targets[tcur]`, when `tcur >= 0 && tcur <= tmax`. -/
def current (r : Registry) : Option Target :=
  if 0 ≤ r.tcur then r.targets[r.tcur.toNat]? else none

/-- Store `t` into `targets[tcur]`. -/
def setcurrent (r : Registry) (t : Target) : Registry :=
  { r with targets := r.targets.set r.tcur.toNat t }

/-- The test `strncmp(pfx, name, strlen(pfx)) == 0`. -/
def hasPrefix (pfx name : List Char) : Bool :=
  name.take pfx.length == pfx

/-- The routine `target_add`: returns the new registry and `strlen` of the stored name. -/
def target_add (name : List Char) (r : Registry) : Registry × Int :=
  let nt : List Char × Int :=
    if hasPrefix ['s', 'h', ':'] name then (name.drop 3, 0)
    else if hasPrefix ['r', 's', 'h', ':'] name then (name.drop 4, 1)
    else if hasPrefix ['s', 's', 'h', '1', ':'] name then (name.drop 5, 2)
    else if hasPrefix ['s', 's', 'h', '2', ':'] name then (name.drop 5, 3)
    else if hasPrefix ['s', 's', 'h', ':'] name then (name.drop 4, 4)
    else (name, r.type)
  let t : Target :=
    { name := nt.1, type := nt.2, status := 0, phase := 0, when := 0, result := 0 }
  ({ r with targets := r.targets ++ [t] }, (nt.1.length : Int))

/-- The C library `tolower` on a byte (C locale). -/
def tolower (c : Char) : Char := c.toLower

/-- The test `strcasecmp(a, b) == 0`. -/
def strcasecmp_eq (a b : List Char) : Bool :=
  a.map tolower == b.map tolower

/-- The host part of a target name: what follows the first `@`
(`strchr(name, '@') + 1`), or the whole name when there is none. -/
def hname (name : List Char) : List Char :=
  match name.dropWhile (fun c => c != '@') with
  | [] => name
  | _ :: rest => rest

/-- The loop of `target_setbyname`, over the entries from `tcur` on. -/
def setbyname_scan (name : List Char) : List Target → Int → Int
  | [], tcur => tcur
  | t :: rest, tcur =>
    if strcasecmp_eq t.name name then tcur else setbyname_scan name rest (tcur + 1)

/-- The routine `target_setbyname`. -/
def target_setbyname (name : List Char) (r : Registry) : Registry × Int :=
  let tcur := setbyname_scan name r.targets 0
  ({ r with tcur := tcur }, if tcur > tmax r then -1 else 0)

/-- The loop of `target_setbyhname`, over the entries from `tcur` on. -/
def setbyhname_scan (name : List Char) : List Target → Int → Int
  | [], tcur => tcur
  | t :: rest, tcur =>
    if strcasecmp_eq (hname t.name) name then tcur
    else setbyhname_scan name rest (tcur + 1)

/-- The routine `target_setbyhname`. -/
def target_setbyhname (name : List Char) (r : Registry) : Registry × Int :=
  let tcur := setbyhname_scan name r.targets 0
  ({ r with tcur := tcur }, if tcur > tmax r then -1 else 0)

/-- The routine `target_setbynum`; `num` is a `u_int`, so `tmax` is converted
to unsigned for the comparison and `num` back to `int` for the store. -/
def target_setbynum (num : Nat) (r : Registry) : Registry × Int :=
  if (num : Int) > tmax r % 4294967296 then (r, -1)
  else ({ r with tcur := ((num : Int) + 2147483648) % 4294967296 - 2147483648 }, 0)

/-- The loop of `target_next`, over the entries from `tcur` on: the final
`tcur` and the return value. -/
def next_scan (phase : Int) : List Target → Int → Int × Int
  | [], tcur => (tcur, -1)
  | t :: rest, tcur =>
    if t.status = phase - 1 ∧ t.phase ≠ phase then (tcur, 0)
    else next_scan phase rest (tcur + 1)

/-- The routine `target_next`. -/
def target_next (phase : Int) (r : Registry) : Option (Registry × Int) :=
  if 0 < phase ∧ phase < 5 then
    let res := next_scan phase r.targets 0
    some ({ r with tcur := res.1 }, res.2)
  else none

/-- The routine `target_start`; `now` is the value of `time(NULL)`. -/
def target_start (now : Int) (r : Registry) : Option Registry :=
  match current r with
  | none => none
  | some t =>
    if t.status = t.phase ∧ 0 ≤ t.phase ∧ t.phase < 4 then
      some (setcurrent r { t with phase := t.phase + 1, when := now })
    else none

/-- The routine `target_result`. -/
def target_result (ok : Int) (r : Registry) : Option Registry :=
  match current r with
  | none => none
  | some t =>
    if -1 ≤ t.status ∧ t.status < 4 ∧ 0 < t.phase ∧ t.phase ≤ 4 then
      if ok = 1 then
        if t.result = CMD_ERROR then
          if 3 ≤ t.phase then some (setcurrent r { t with phase := 4, status := 4 })
          else none
        else some (setcurrent r { t with status := t.phase })
      else some (setcurrent r { t with status := -1, result := CMD_FAILURE })
    else none

/-- The loop of `target_pong`, over the entries from `tcur` on; `name = none`
is the call `target_pong(NULL)`. -/
def pong_scan (name : Option (List Char)) : List Target → Int → Int
  | [], tcur => tcur
  | t :: rest, tcur =>
    if t.phase ≠ 1 then pong_scan name rest (tcur + 1)
    else if t.status ≠ 0 then pong_scan name rest (tcur + 1)
    else
      match name with
      | none => tcur
      | some n =>
        if strcasecmp_eq (hname t.name) n then tcur
        else pong_scan name rest (tcur + 1)

/-- The routine `target_pong`. -/
def target_pong (name : Option (List Char)) (r : Registry) : Registry × Int :=
  let tcur := pong_scan name r.targets 0
  ({ r with tcur := tcur }, if tcur > tmax r then -1 else 0)

/-- The routine `target_cmdstatus`. -/
def target_cmdstatus (status : Int) (r : Registry) : Option Registry :=
  match current r with
  | none => none
  | some t =>
    if (t.phase = 3 ∨ t.phase = 4) ∧ -2 ≤ status ∧ status ≤ 2 then
      some (setcurrent r { t with result := status })
    else none

/-- A call of one of the registry routines that write to the registry. -/
inductive Op where
  | add (name : List Char)
  | next (phase : Int)
  | start (now : Int)
  | result (ok : Int)
  | cmdstatus (status : Int)
  | pong (name : Option (List Char))
  | setbyname (name : List Char)
  | setbyhname (name : List Char)
  | setbynum (num : Nat)
  deriving DecidableEq

/-- The registry after a call, `none` when one of its assertions fails. -/
def Op.run : Op → Registry → Option Registry
  | .add name, r => some (target_add name r).1
  | .next phase, r => (target_next phase r).map Prod.fst
  | .start now, r => target_start now r
  | .result ok, r => target_result ok r
  | .cmdstatus status, r => target_cmdstatus status r
  | .pong name, r => some (target_pong name r).1
  | .setbyname name, r => some (target_setbyname name r).1
  | .setbyhname name, r => some (target_setbyhname name r).1
  | .setbynum num, r => some (target_setbynum num r).1

/-- The registry after a sequence of calls. -/
def runOps : List Op → Registry → Option Registry
  | [], r => some r
  | op :: ops, r =>
    match op.run r with
    | none => none
    | some r1 => runOps ops r1

/-- The registry of `target.c` before the first `target_add`, for default method `type`. -/
def emptyRegistry (type : Int) : Registry := { targets := [], type := type, tcur := 0 }

/-! ## Engine state and children (`loop.c`) -/

/-- The spawn modes of `loop.c`. -/
def SPAWN_FATAL : Int := 0
/-- Spawn mode: stop at once. -/
def SPAWN_ABORT : Int := 1
/-- Spawn mode: no new children, drain the live ones. -/
def SPAWN_QUIT : Int := 2
/-- Spawn mode: no new children for now. -/
def SPAWN_PAUSE : Int := 3
/-- Spawn mode: spawn freely, switch to the failure mode on a failure. -/
def SPAWN_CHECK : Int := 4
/-- Spawn mode: wait for the verdict of the one command spawned. -/
def SPAWN_NONE : Int := 5
/-- Spawn mode: spawn one command. -/
def SPAWN_ONE : Int := 6
/-- Spawn mode: spawn freely. -/
def SPAWN_MORE : Int := 7

/-- Signal number of `SIGKILL` in `<signal.h>` (POSIX value). -/
def SIGKILL : Nat := 9
/-- Signal number of `SIGALRM` in `<signal.h>` (POSIX value). -/
def SIGALRM : Nat := 14
/-- Signal number of `SIGTERM` in `<signal.h>` (POSIX value). -/
def SIGTERM : Nat := 15

/-- Modelled from the spec: `loop.h` with the `OUT_*` bit values is not among
the sources; the output mode is a bit set over the distinct flags `MIXED`,
`ATEND`, `IFERR`, `COPY` and the sticky `ERR`, here one Boolean per flag. -/
structure OutMode where
  mixed : Bool
  atend : Bool
  iferr : Bool
  copy : Bool
  err : Bool
  deriving DecidableEq

/-- Modelled from the spec: `analyzer.h` is not among the sources; the analyzer
kinds that `loop.c` tells apart are none, the external script (`RUN`), the two
streaming line analyzers, and the remaining (batch) kinds. -/
inductive Analyze where
  | ANALYZE_NONE
  | ANALYZE_RUN
  | ANALYZE_LNRE
  | ANALYZE_LNPCRE
  | ANALYZE_BATCH (kind : Nat)
  deriving DecidableEq

open Analyze

/-- Modelled from the spec: `term.h` is not among the sources; the message
kinds that `parse_child` hands to `tprint`. -/
inductive MsgKind where
  | MSG_STDOUT
  | MSG_STDERR
  | MSG_STDOUTTRUNC
  | MSG_STDERRTRUNC
  deriving DecidableEq

open MsgKind

/-- The `struct child` of `loop.c`; a `NULL` buffer or file name is `none`. -/
structure Child where
  pid : Int
  num : Int
  test : Int
  passed : Int
  analyzer : Int
  output : OutMode
  execstate : Int
  timeout : Int
  timedout : Int
  obuf : Option (List Char)
  ebuf : Option (List Char)
  ofname : Option (List Char)
  efname : Option (List Char)
  ofile : Int
  efile : Int
  status : Int
  orphan : Int
  deriving DecidableEq

/-- What a child's output produces outside the engine state: a line handed to
`tprint`, bytes handed to `write` on a file descriptor, and a file replay by
`output_show`.  Writes are taken to succeed. -/
inductive Ev where
  | tprint (name : List Char) (kind : MsgKind) (text : List Char)
  | write (fd : Int) (bytes : List Char)
  | output_show (name : List Char) (fd : Int) (type : Int)
  deriving DecidableEq

/-- The collaborators of `loop.c` that are not among the sources, and the one
platform constant `parse_child` depends on. -/
structure Env where
  /-- The call `analyzer_lnrun(analyzer, stream, line)`; the stream is 1 or 2. -/
  analyzer_lnrun : Analyze → Int → List Char → Int
  /-- The call `analyzer_run(utest, ofile, ofname, efile, efname)`. -/
  analyzer_run : Analyze → Int → Option (List Char) → Int → Option (List Char) → Int
  /-- The call `byteset_test(BSET_ERROR, code)`. -/
  bset_error : Nat → Int
  /-- The call `byteset_test(BSET_SHOW, code)`. -/
  bset_show : Nat → Int
  /-- The value of `sizeof(char *)`. -/
  ptrsize : Nat

/-- The file-scope state of `loop.c` together with the registry. -/
structure Engine where
  spawn_mode : Int
  failure_mode : Int
  reg : Registry
  deriving DecidableEq

/-- The routine `set_cmdstatus`. -/
def set_cmdstatus (result : Int) (e : Engine) : Option Engine :=
  if e.spawn_mode = SPAWN_ONE then none
  else
    let mode :=
      if result = CMD_SUCCESS then
        (if e.spawn_mode = SPAWN_NONE then SPAWN_CHECK else e.spawn_mode)
      else
        (if e.spawn_mode = SPAWN_NONE ∨ e.spawn_mode = SPAWN_CHECK then e.failure_mode
         else e.spawn_mode)
    match target_cmdstatus result e.reg with
    | none => none
    | some reg => some { e with spawn_mode := mode, reg := reg }

/-- The routine `target_getnum`. -/
def target_getnum (r : Registry) : Option Int :=
  match current r with
  | none => none
  | some _ => some r.tcur

/-- The routine `init_child` for a newly spawned child; the output mode is `OUT_MIXED`. -/
def init_child (r : Registry) (kid : Child) : Option Child :=
  match target_getnum r with
  | none => none
  | some num =>
    some { kid with
      num := num, test := 0, passed := 0, analyzer := 0,
      output := { mixed := true, atend := false, iferr := false, copy := false, err := false },
      execstate := 0, timeout := 0, timedout := 0, obuf := none, ebuf := none,
      ofname := none, efname := none, ofile := -1, efile := -1, status := -1, orphan := 0 }

/-! ## Output parsing (`parse_child`, `parse_fping`) -/

/-- The NUL byte. -/
def NUL : Char := Char.ofNat 0

/-- The sentinel a test child prints. -/
def SHMUX_DOT : List Char := ['S', 'H', 'M', 'U', 'X', '.']

/-- The line the spawn wrapper prints when `execve` failed. -/
def SHMUCK : List Char := ['S', 'H', 'M', 'U', 'C', 'K', '!']

/-- The text `is alive` of a ping answer. -/
def IS_ALIVE : List Char := ['i', 's', ' ', 'a', 'l', 'i', 'v', 'e']

/-- The byte `mem[i]`. -/
def peek (mem : List Char) (i : Nat) : Char := mem.getD i NUL

/-- The C string that starts at `mem + i`. -/
def cstr (mem : List Char) (i : Nat) : List Char :=
  (mem.drop i).takeWhile (fun c => c != NUL)

/-- The routine `parse_fping` on the C string `line`. -/
def parse_fping (line : List Char) (reg : Registry) : Option Registry :=
  match line.dropWhile (fun c => c != ' ') with
  | [] => some reg
  | _ :: remainder =>
    let host := line.takeWhile (fun c => c != ' ')
    let r1 := target_pong (some host) reg
    let r2 := if r1.2 ≠ 0 then target_setbyhname host r1.1 else r1
    if r1.2 ≠ 0 ∧ r2.2 ≠ 0 then some r2.1
    else if remainder = IS_ALIVE then target_result 1 r2.1
    else target_result 0 r2.1

/-- The machine state while `parse_child` runs: the memory that holds `buffer`
(`mem[0]` is the byte stored just before `buffer`, which `*(nl-1)` reads when
the chunk starts with a newline; `buffer[k]` is `mem[k+1]`), the pointers
`start` and `nl` as indices into it, the child, the registry and the output
produced so far. -/
structure Parse where
  mem : List Char
  start : Nat
  nl : Nat
  kid : Child
  reg : Registry
  out : List Ev
  deriving DecidableEq

/-- The residue `*left` of the stream `std`. -/
def left_get (kid : Child) (std : Int) : Option (List Char) :=
  if std = 1 then kid.obuf else kid.ebuf

/-- The assignment to `*left` for the stream `std`. -/
def left_set (kid : Child) (std : Int) (v : Option (List Char)) : Child :=
  if std = 1 then { kid with obuf := v } else { kid with ebuf := v }

/-- The descriptor `(std == 1) ? kid->ofile : kid->efile`. -/
def file_of (kid : Child) (std : Int) : Int := if std = 1 then kid.ofile else kid.efile

/-- The message kind `(std == 1) ? MSG_STDOUT : MSG_STDERR`. -/
def msg_kind (std : Int) : MsgKind := if std = 1 then MSG_STDOUT else MSG_STDERR

/-- The message kind `(std == 1) ? MSG_STDOUTTRUNC : MSG_STDERRTRUNC`. -/
def msg_trunc (std : Int) : MsgKind := if std = 1 then MSG_STDOUTTRUNC else MSG_STDERRTRUNC

/-- The end of one pass of the line loop: `start = nl += 1`, and the residue
is freed when `left` was set. -/
def next_line (std : Int) (clear : Bool) (s : Parse) : Parse :=
  { s with start := s.nl + 1, nl := s.nl + 1,
           kid := if clear then left_set s.kid std none else s.kid }

/-- The switch case 0 of `parse_child` for a child that is not a test and not
the ping helper: line analyzer, screen and file. -/
def parse_output (env : Env) (name : List Char) (analyzer : Analyze) (std : Int)
    (s : Parse) : Option Parse :=
  let kid := s.kid
  let line := cstr s.mem s.start
  let str := (left_get kid std).getD [] ++ line
  let flip : OutMode := { kid.output with iferr := false, err := true }
  let shows : List Ev :=
    [Ev.output_show name kid.ofile std, Ev.output_show name kid.efile std]
  let analysed : Option (OutMode × List Ev) :=
    if kid.output.err = false ∧ (analyzer = ANALYZE_LNRE ∨ analyzer = ANALYZE_LNPCRE) then
      if env.analyzer_lnrun analyzer std str ≠ 0 then
        if kid.output.iferr = true ∧ kid.output.mixed = true then
          if kid.output.copy = true then some (flip, s.out ++ shows) else none
        else some (flip, s.out)
      else some (kid.output, s.out)
    else some (kid.output, s.out)
  match analysed with
  | none => none
  | some (output, out1) =>
    let out2 :=
      if output.mixed = true ∧ output.iferr = false then
        out1 ++ [Ev.tprint name (msg_kind std) str]
      else out1
    if kid.ofile ≠ -1 then
      let mem2 := if peek s.mem (s.nl - 1) = NUL then s.mem.set (s.nl - 1) '\r' else s.mem
      let out3 :=
        (match left_get kid std with
          | some l => out2 ++ [Ev.write (file_of kid std) l]
          | none => out2) ++
          [Ev.write (file_of kid std) (cstr mem2 s.start), Ev.write (file_of kid std) ['\n']]
      some { s with mem := mem2, kid := { kid with output := output }, out := out3 }
    else
      some { s with kid := { kid with output := output }, out := out2 }

/-- The switch case 0 of `parse_child`: a line of output read from the child. -/
def parse_general (env : Env) (name : List Char) (isfping : Int) (analyzer : Analyze)
    (std : Int) (s : Parse) : Option Parse :=
  if isfping = 0 then
    if s.kid.test = 1 then
      let passed : Int :=
        if cstr s.mem s.start = SHMUX_DOT ∧ s.kid.passed = 0 ∧ std = 1 then 1 else -1
      some { s with kid := { s.kid with passed := passed } }
    else parse_output env name analyzer std s
  else
    (parse_fping (cstr s.mem s.start) s.reg).map (fun reg => { s with reg := reg })

/-- One pass of the line loop of `parse_child` with `*nl == '\n'`. -/
def parse_line (env : Env) (name : List Char) (isfping : Int) (analyzer : Analyze)
    (std : Int) (s : Parse) : Option Parse :=
  let mem1 :=
    if peek s.mem (s.nl - 1) = '\r' then s.mem.set (s.nl - 1) NUL else s.mem.set s.nl NUL
  let s1 : Parse := { s with mem := mem1 }
  if s.kid.execstate = 2 then some (next_line std false s1)
  else if s.kid.execstate = 1 ∧ cstr mem1 s.start = SHMUCK then
    some (next_line std false { s1 with kid := { s.kid with execstate := 2 } })
  else if s.kid.execstate = 1 ∨ s.kid.execstate = 0 then
    (parse_general env name isfping analyzer std
      { s1 with kid := { s.kid with execstate := 0 } }).map (next_line std true)
  else none

/-- The line loop `while (*nl != '\0')` of `parse_child`; each pass moves `nl`
one byte forward, `fuel` is the number of times the loop condition may be
tested (`none` when that does not suffice). -/
def parse_lines (env : Env) (name : List Char) (isfping : Int) (analyzer : Analyze)
    (std : Int) : Nat → Parse → Option Parse
  | 0, _ => none
  | fuel + 1, s =>
    if peek s.mem s.nl = NUL then some s
    else if peek s.mem s.nl ≠ '\n' then
      parse_lines env name isfping analyzer std fuel { s with nl := s.nl + 1 }
    else
      match parse_line env name isfping analyzer std s with
      | none => none
      | some s1 => parse_lines env name isfping analyzer std fuel s1

/-- The tail of `parse_child`: leftover data not terminated by a newline. -/
def parse_rest (env : Env) (name : List Char) (isfping : Int) (analyzer : Analyze)
    (std : Int) (s : Parse) : Option Parse :=
  if s.start ≠ s.nl then
    if ¬ s.start < s.nl then none
    else if isfping = 0 then
      let kid := s.kid
      let frag := cstr s.mem s.start
      match left_get kid std with
      | none => some { s with kid := left_set kid std (some frag) }
      | some l =>
        if l.length > 1024 then
          let out1 :=
            if kid.ofile ≠ -1 then s.out ++ [Ev.write (file_of kid std) l] else s.out
          let lineana : Bool :=
            kid.output.iferr && (analyzer == ANALYZE_LNRE || analyzer == ANALYZE_LNPCRE)
          let out2 :=
            if lineana = true ∧ kid.output.mixed = true then
              out1 ++ [Ev.output_show name kid.ofile std, Ev.output_show name kid.efile std]
            else out1
          let output : OutMode :=
            if lineana = true then { kid.output with iferr := false, err := true }
            else kid.output
          let out3 :=
            if output.mixed = true ∧ output.iferr = false then
              out2 ++ [Ev.tprint name (msg_trunc std) l]
            else out2
          some { s with kid := left_set { kid with output := output } std (some frag),
                        out := out3 }
        else
          some { s with kid := left_set kid std (some (l ++ frag.take (env.ptrsize - 1))) }
    else if isfping = 1 then some s
    else none
  else some s

/-- The routine `parse_child` on the C string `buffer` read from stream `std`;
`guard` is the byte stored just before `buffer`.  After `sz` bytes were read
the caller stores a NUL at `buffer[sz]`. -/
def parse_child (env : Env) (guard : Char) (name : List Char) (isfping verbose_tests : Int)
    (analyzer : Analyze) (kid : Child) (std : Int) (buffer : List Char)
    (reg : Registry) (out : List Ev) : Option (Child × Registry × List Ev) :=
  if std = 1 ∨ std = 2 then
    let s0 : Parse :=
      { mem := guard :: buffer ++ [NUL], start := 1, nl := 1, kid := kid, reg := reg,
        out := out }
    match parse_lines env name isfping analyzer std (buffer.length + 1) s0 with
    | none => none
    | some s1 =>
      (parse_rest env name isfping analyzer std s1).map (fun s => (s.kid, s.reg, s.out))
  else none

/-- The chunks read from one child, in order: the stream (1 or 2) and the bytes. -/
abbrev Chunks := List (Int × List Char)

/-- Successive calls of `parse_child` for one child, one per chunk read, each
of which finds the byte `guard` in front of the buffer (see `parse_reads` for
the reads into the one buffer of `loop`). -/
def parse_chunks (env : Env) (guard : Char) (name : List Char) (isfping verbose_tests : Int)
    (analyzer : Analyze) : Chunks → Child → Registry → List Ev →
      Option (Child × Registry × List Ev)
  | [], kid, reg, out => some (kid, reg, out)
  | (std, buffer) :: rest, kid, reg, out =>
    match parse_child env guard name isfping verbose_tests analyzer kid std buffer reg out with
    | none => none
    | some (kid1, reg1, out1) =>
      parse_chunks env guard name isfping verbose_tests analyzer rest kid1 reg1 out1

/-- The routine `parse_child` as above, together with the byte that it leaves
in front of `buffer` (it reads `buffer[-1]` and may store to it when the chunk
starts with a newline). -/
def parse_child_mem (env : Env) (guard : Char) (name : List Char)
    (isfping verbose_tests : Int) (analyzer : Analyze) (kid : Child) (std : Int)
    (buffer : List Char) (reg : Registry) (out : List Ev) :
    Option ((Child × Registry × List Ev) × Char) :=
  if std = 1 ∨ std = 2 then
    let s0 : Parse :=
      { mem := guard :: buffer ++ [NUL], start := 1, nl := 1, kid := kid, reg := reg,
        out := out }
    match parse_lines env name isfping analyzer std (buffer.length + 1) s0 with
    | none => none
    | some s1 =>
      (parse_rest env name isfping analyzer std s1).map
        (fun s => ((s.kid, s.reg, s.out), peek s.mem 0))
  else none

/-- Successive reads into the one buffer of `loop`, each handed to
`parse_child`: the byte in front of the buffer is `guard` at the first read and
afterwards what the previous call has left there. -/
def parse_reads (env : Env) (name : List Char) (isfping verbose_tests : Int)
    (analyzer : Analyze) : Chunks → Char → Child → Registry → List Ev →
      Option ((Child × Registry × List Ev) × Char)
  | [], guard, kid, reg, out => some ((kid, reg, out), guard)
  | (std, buffer) :: rest, guard, kid, reg, out =>
    match parse_child_mem env guard name isfping verbose_tests analyzer kid std buffer reg
        out with
    | none => none
    | some ((kid1, reg1, out1), guard1) =>
      parse_reads env name isfping verbose_tests analyzer rest guard1 kid1 reg1 out1

/-! ## Finalization of a reaped child (`loop`) -/

/-- The status `waitpid` reported for a child that is not stopped: it exited
with a code, or a signal killed it (with or without a core dump). -/
inductive WStatus where
  | exited (code : Nat)
  | signaled (sig : Nat) (core : Bool)
  deriving DecidableEq

/-- The report of the exit status in `loop` (`if (WIFEXITED(status) != 0) ... else ...`)
for the child in slot `idx`, with the arguments `outmode`, `odir` and `utest`
of `loop`: the argument of the call of `set_cmdstatus`, if there is one, the
child (whose `passed` becomes -2 when a test timed out) and the file replays;
`none` when an assertion fails.  The `.exit` file written in copy mode is not
part of the result. -/
def exit_verdict (env : Env) (name : List Char) (outmode : OutMode)
    (odir : Option (List Char)) (utest : Analyze) (idx : Nat) (kid : Child)
    (status : WStatus) : Option (Option Int × Child × List Ev) :=
  let shows : List Ev :=
    if kid.output.iferr = true then
      [Ev.output_show name kid.ofile 1, Ev.output_show name kid.efile 2]
    else []
  match status with
  | .exited code =>
    if kid.test = 1 then some (none, kid, [])
    else if kid.analyzer = 1 then
      if code = 0 then some (some CMD_SUCCESS, kid, []) else some (some CMD_ERROR, kid, [])
    else if idx = 0 then some (none, kid, [])
    else if kid.execstate = 0 then
      if outmode.copy = true ∧ odir = none then none
      else if env.bset_error code = 0 then some (some CMD_ERROR, kid, shows)
      else if utest = ANALYZE_NONE ∨ utest = ANALYZE_RUN then some (some CMD_SUCCESS, kid, [])
      else if utest = ANALYZE_LNRE ∨ utest = ANALYZE_LNPCRE then
        if kid.output.err = false then some (some CMD_SUCCESS, kid, [])
        else some (some CMD_ERROR, kid, [])
      else if env.analyzer_run utest kid.ofile kid.ofname kid.efile kid.efname = 0 then
        some (some CMD_SUCCESS, kid, [])
      else some (some CMD_ERROR, kid, shows)
    else some (some CMD_FAILURE, kid, [])
  | .signaled sig _ =>
    if sig = 0 then none
    else if sig = SIGALRM ∨ (kid.timedout > 0 ∧ (sig = SIGTERM ∨ sig = SIGKILL)) then
      if kid.test = 0 then
        if idx > 0 then some (some CMD_TIMEOUT, kid, []) else some (none, kid, [])
      else if sig = SIGALRM then some (none, { kid with passed := -2 }, [])
      else none
    else if idx > 0 ∧ kid.test = 0 then some (some CMD_ERROR, kid, [])
    else some (none, kid, [])

/-- The argument of the call of `target_result` that ends the finalization of
a target child (slot `idx > 0`). -/
def result_arg (kid : Child) : Int :=
  if kid.execstate ≠ 0 ∨ (kid.test = 1 ∧ kid.passed ≠ 1) then -1 else 1

/-! ## The main loop: interrupts, console keys, deadlines, end of file (`loop`, `parse_user`) -/

/-- The handler `shmux_sigint`: one more SIGINT is counted in `got_sigint`. -/
def shmux_sigint (got_sigint : Int) : Int := got_sigint + 1

/-- The signal number of `SIGINT`. -/
def SIGINT : Nat := 2

/-- The `switch (got_sigint)` at the head of a loop iteration, `children` being
the slot table: the new value of `got_sigint`, the new spawn mode, and the
calls `kill(-pid, SIGINT)` made, one for each slot with `pid > 0` (the process
group signalled and the signal). -/
def sigint_switch (got_sigint spawn_mode : Int) (children : List Child) :
    Int × Int × List (Int × Nat) :=
  if got_sigint = 0 then (got_sigint, spawn_mode, [])
  else if got_sigint = 1 then
    (got_sigint + 1, SPAWN_QUIT,
      (children.filter (fun k => decide (k.pid > 0))).map (fun k => (-k.pid, SIGINT)))
  else if got_sigint = 2 then (got_sigint, SPAWN_QUIT, [])
  else (got_sigint, SPAWN_ABORT, [])

/-- The effect of `parse_user(c, ...)` on `spawn_mode` and `failure_mode`.
The messages, the status listings and the kill prompt of key `k` (which moves
`tcur` and sends a signal) leave the two modes alone. -/
def parse_user (c : Char) (spawn_mode failure_mode : Int) : Int × Int :=
  if c = Char.ofNat 27 ∨ c = 'q' then (SPAWN_QUIT, failure_mode)
  else if c = 'Q' then (SPAWN_ABORT, failure_mode)
  else if c = ' ' then (SPAWN_PAUSE, failure_mode)
  else if c = '1' then
    (if spawn_mode ≠ SPAWN_NONE then SPAWN_ONE else spawn_mode, failure_mode)
  else if c = '\n' ∨ c = '-' then (SPAWN_CHECK, failure_mode)
  else if c = '+' then (SPAWN_MORE, failure_mode)
  else if c = 'F' then
    (spawn_mode, if failure_mode = SPAWN_PAUSE then SPAWN_QUIT else SPAWN_PAUSE)
  else (spawn_mode, failure_mode)

/-- A run of key presses handled by `parse_user`, one per wakeup. -/
def parse_keys : List Char → Int × Int → Int × Int
  | [], st => st
  | c :: rest, st => parse_keys rest (parse_user c st.1 st.2)

/-- The deadline test of `loop` for a child that is alive or still has open
descriptors: `now` is the value of `time(NULL)` in the comparison, `now2` its
value in the assignment.  The result is the child and the signals sent to its
process group; `none` when the assertion on `timedout` fails. -/
def timeout_check (now now2 : Int) (kid : Child) : Option (Child × List Nat) :=
  if kid.timeout ≠ 0 ∧ now > kid.timeout then
    if kid.timedout = 0 ∨ kid.timedout = 1 then
      if kid.timedout = 0 then
        some ({ kid with timeout := now2 + 5, timedout := kid.timedout + 1 }, [SIGTERM])
      else
        some ({ kid with timeout := 0, timedout := kid.timedout + 1 }, [SIGKILL])
    else none
  else some (kid, [])

/-- The cleanup of `loop` when `read` on the stream `std` of a child returns
no data: the residue, if there is one, goes to the screen as a truncated line
and is freed. -/
def read_eof (name : List Char) (std : Int) (kid : Child) (out : List Ev) :
    Child × List Ev :=
  match left_get kid std with
  | none => (kid, out)
  | some l => (left_set kid std none, out ++ [Ev.tprint name (msg_trunc std) l])

/-- What `loop` does to the slot of a live child between its spawn and its
finalization: the deadline test, a chunk handed to `parse_child`, the end of a
stream, a stop on `SIGTSTP` (`execstate = 1`), the saving of the reaped status
and the orphan wait (with the two values of `time(NULL)` it reads). -/
inductive SlotStep where
  | check (now now2 : Int)
  | chunk (guard : Char) (std : Int) (buffer : List Char)
  | eof (std : Int)
  | stopped
  | save (status : Int)
  | orphan (status now now2 : Int)
  deriving DecidableEq

/-- The state of one slot and what it has produced: the child, the registry,
the output events and the signals sent by the deadline test. -/
structure Slot where
  kid : Child
  reg : Registry
  out : List Ev
  sent : List Nat
  deriving DecidableEq

/-- One step of a slot; `none` when an assertion fails. -/
def SlotStep.run (env : Env) (name : List Char) (isfping verbose_tests : Int)
    (analyzer : Analyze) : SlotStep → Slot → Option Slot
  | .check now now2, s =>
    (timeout_check now now2 s.kid).map
      (fun r => { s with kid := r.1, sent := s.sent ++ r.2 })
  | .chunk guard std buffer, s =>
    (parse_child env guard name isfping verbose_tests analyzer s.kid std buffer s.reg
      s.out).map (fun r => { s with kid := r.1, reg := r.2.1, out := r.2.2 })
  | .eof std, s =>
    some { s with kid := (read_eof name std s.kid s.out).1,
                  out := (read_eof name std s.kid s.out).2 }
  | .stopped, s => some { s with kid := { s.kid with execstate := 1 } }
  | .save status, s => some { s with kid := { s.kid with status := status } }
  | .orphan status now now2, s =>
    if now - s.kid.orphan > 15 then
      some { s with kid :=
        { s.kid with status := if s.kid.orphan = 0 then status else s.kid.status,
                     orphan := now2 } }
    else some s

/-- The steps of a slot, in order; `none` when an assertion fails on the way. -/
def slot_steps (env : Env) (name : List Char) (isfping verbose_tests : Int)
    (analyzer : Analyze) : List SlotStep → Slot → Option Slot
  | [], s => some s
  | st :: rest, s =>
    match st.run env name isfping verbose_tests analyzer s with
    | none => none
    | some s1 => slot_steps env name isfping verbose_tests analyzer rest s1

/-! ## Command vectors (`split_argv`, `target_getcmd`) -/

/-- The C library `isspace` on a byte (C locale). -/
def isspace (c : Char) : Bool :=
  c == ' ' || c == '\t' || c == '\n' || c == '\x0b' || c == '\x0c' || c == '\r'

/-- The byte `*s` of a C string held as the list of its bytes: NUL at its end. -/
def deref (s : List Char) : Char := s.headD NUL

/-- The length `strlen(s)` of a C string held as the list of its bytes. -/
def strlen (s : List Char) : Nat := (s.takeWhile (fun c => c != NUL)).length

/-- The inner loop of `split_argv` that copies the current argument: `q` is
the open quote (NUL when there is none), `opts` the rest of the string and
`buf` the bytes stored so far (`p` points behind them); it gives the rest of
the string and the bytes stored when the loop is left.  `fuel` bounds the
number of times the loop condition is tested. -/
def copy_arg : Nat → Char → List Char → List Char → Option (List Char × List Char)
  | 0, _, _, _ => none
  | fuel + 1, q, opts, buf =>
    if deref opts ≠ NUL ∧ (q ≠ NUL ∨ isspace (deref opts) = false) then
      if q ≠ NUL then
        if q = deref opts then
          if q ≠ deref opts.tail then copy_arg fuel NUL opts.tail buf
          else copy_arg fuel q opts.tail.tail (buf ++ [deref opts.tail])
        else copy_arg fuel q opts.tail (buf ++ [deref opts])
      else if deref opts = '"' ∨ deref opts = '\\' then
        copy_arg fuel (deref opts) opts.tail buf
      else copy_arg fuel q opts.tail (buf ++ [deref opts])
    else some (opts, buf)

/-- What a call of `split_argv` leaves: the value returned, the entries stored
into `args` (each the offset into `buf` at which its argument starts) and the
bytes stored into `buf`, in order. -/
structure Split where
  ret : Int
  args : List Nat
  buf : List Char
  deriving DecidableEq

/-- The outer loop `while (*opts)` of `split_argv`; `i` is the number of
entries of `args`.  `fuel` bounds the number of passes. -/
def split_loop (maxargs : Int) : Nat → List Char → List Char → List Nat → Option Split
  | 0, _, _, _ => none
  | fuel + 1, opts, buf, args =>
    if deref opts = NUL then some ⟨(args.length : Int), args, buf⟩
    else if (args.length : Int) ≥ maxargs then some ⟨-1, args, buf⟩
    else
      let opts1 := opts.dropWhile (fun c => c != NUL && isspace c)
      if deref opts1 = NUL then some ⟨(args.length : Int), args, buf⟩
      else
        match copy_arg (opts1.length + 1) NUL opts1 buf with
        | none => none
        | some (opts2, buf2) =>
          split_loop maxargs fuel opts2 (buf2 ++ [NUL]) (args ++ [buf.length])

/-- The routine `split_argv(opts, maxargs, args)`; `opts = none` is `NULL`.
`none` when the assertion `maxargs > 0` fails.  The buffer is allocated with
`strlen(opts)` bytes; the bytes stored are recorded whether or not they fit. -/
def split_argv (opts : Option (List Char)) (maxargs : Int) : Option Split :=
  if maxargs > 0 then
    match opts with
    | none => some ⟨0, [], []⟩
    | some s =>
      if deref s = NUL then some ⟨0, [], []⟩
      else split_loop maxargs (s.length + 1) s [] []
  else none

/-- The arguments a call of `split_argv` stored, as C strings. -/
def arg_strings (r : Split) : List (List Char) := r.args.map (cstr r.buf)

/-- The descriptors `setup_fdlimit` counts for `max` children:
`(max + 3) * fdfactor + 10`. -/
def fd_budget (fdfactor max : Int) : Int := (max + 3) * fdfactor + 10

/-- The routine `setup_fdlimit(fdfactor, max)` with soft limit `cur` and hard
limit `hard`, `setrlimit` and `getrlimit` succeeding: the soft limit
afterwards and the final value of the routine's own variable `max` (the one
its message prints).  The routine returns `void`.  The arithmetic is that of
the code for limits from 10 on that fit an `int` (the code subtracts in the
unsigned type `rlim_t`, which wraps around below 10). -/
def setup_fdlimit (fdfactor max cur hard : Int) : Int × Int :=
  if cur < fd_budget fdfactor max then
    let cur1 := if fd_budget fdfactor max > hard then hard else fd_budget fdfactor max
    if cur1 < fd_budget fdfactor max then (cur1, Int.tdiv (cur1 - 10) fdfactor - 3)
    else (cur1, max)
  else (cur, max)

/-- The start of `loop`: `setup_fdlimit` is called with the value of `max`,
then the slot table is allocated for `max + 1` children, which is also the
bound of the spawn scan (`while (idx < max+1)`).  The number of slots. -/
def loop_slots (odir : Option (List Char)) (max cur hard : Int) : Int :=
  let _limit := setup_fdlimit (if odir = none then 3 else 5) max cur hard
  max + 1

/-- The conversion `%u`: the decimal digits of `v`. -/
def fmt_u (v : Nat) : List Char := Nat.toDigits 10 v

/-- The C string that `snprintf(buf, size, "%u", v)` leaves in `buf`: at most
`size - 1` bytes of the conversion. -/
def snprintf_u (size v : Nat) : List Char := (fmt_u v).take (size - 1)

/-- The bytes written to the `.exit` file for the exit status `code`
(`char buf[4]`, then `write(fd, buf, strlen(buf))`). -/
def exit_text (code : Nat) : List Char := snprintf_u 4 code

/-- The number a string of decimal digits denotes. -/
def parse_decimal (s : List Char) : Nat :=
  s.foldl (fun n d => 10 * n + (d.toNat - '0'.toNat)) 0

/-! ## The spawn mode in the main loop -/

/-- The branch `/* Spawn phase 3 ready */` of the scan at a free slot
`idx > 0` (no target being ready for phase 4, output files and `exec`
succeeding): a run child is spawned unless the mode is `NONE` or `PAUSE` or no
target is ready; in mode `ONE` the mode becomes `NONE`. -/
def spawn_run (now : Int) (e : Engine) : Option Engine :=
  if e.spawn_mode ≠ SPAWN_NONE then
    match target_next 3 e.reg with
    | none => none
    | some (reg, rc) =>
      if rc = 0 then
        if e.spawn_mode = SPAWN_PAUSE then some { e with reg := reg }
        else
          match target_start now reg with
          | none => none
          | some reg1 =>
            some { e with reg := reg1,
                          spawn_mode := if e.spawn_mode = SPAWN_ONE then SPAWN_NONE
                                        else e.spawn_mode }
      else some { e with reg := reg }
  else some e

/-- The output mode that the spawn of a run child stores in its slot
(`children[idx].output = outmode`, and in spawn mode `ONE` a mode `ATEND`
without `IFERR` becomes `MIXED` instead). -/
def spawn_output (outmode : OutMode) (spawn_mode : Int) : OutMode :=
  if spawn_mode = SPAWN_ONE ∧ outmode.atend = true ∧ outmode.iferr = false then
    { outmode with atend := false, mixed := true }
  else outmode

/-- What the main loop does between two tests of the spawn mode that matter
here: a key read from the console, the scan at a free slot, and the scan at
the slot of a run child of target `num` that has exited with its streams
closed, `verdict` being the argument of its call of `set_cmdstatus`. -/
inductive LoopStep where
  | key (c : Char)
  | free_slot (now : Int)
  | reap (num : Nat) (verdict : Int)
  deriving DecidableEq

/-- One step of the main loop; `none` when an assertion fails. -/
def LoopStep.run : LoopStep → Engine → Option Engine
  | .key c, e =>
    some { e with spawn_mode := (parse_user c e.spawn_mode e.failure_mode).1,
                  failure_mode := (parse_user c e.spawn_mode e.failure_mode).2 }
  | .free_slot now, e =>
    if e.spawn_mode = SPAWN_QUIT then some e else spawn_run now e
  | .reap num verdict, e =>
    if (target_setbynum num e.reg).2 ≠ 0 then none
    else set_cmdstatus verdict { e with reg := (target_setbynum num e.reg).1 }

/-- The steps of the main loop, in order. -/
def loop_steps : List LoopStep → Engine → Option Engine
  | [], e => some e
  | st :: rest, e =>
    match st.run e with
    | none => none
    | some e1 => loop_steps rest e1

/-! ## Interrupts in the main loop -/

/-- What happens in the main loop as far as `got_sigint` and the spawn mode
go: the delivery of a SIGINT (the handler runs), the head of an iteration when
there is no console (`tty_fd() < 0`: the mode `PAUSE` becomes the failure
mode), the `switch (got_sigint)` with the slot table of that moment, and the
steps that write the spawn mode later in an iteration (a key handled by
`parse_user`, the scan at a free slot, the finalization of a child).  An error
of `poll` (mode `FATAL`) ends the loop and is not a step. -/
inductive SigStep where
  | sigint
  | notty
  | switch (children : List Child)
  | loop (s : LoopStep)
  deriving DecidableEq

/-- The counter `got_sigint`, the engine, and the calls of `kill` made by the
switch so far. -/
structure SigState where
  got_sigint : Int
  engine : Engine
  killed : List (Int × Nat)
  deriving DecidableEq

/-- One step; `none` when an assertion fails. -/
def SigStep.run : SigStep → SigState → Option SigState
  | .sigint, s => some { s with got_sigint := shmux_sigint s.got_sigint }
  | .notty, s =>
    some { s with engine :=
      if s.engine.spawn_mode = SPAWN_PAUSE then
        { s.engine with spawn_mode := s.engine.failure_mode }
      else s.engine }
  | .switch children, s =>
    some { got_sigint := (sigint_switch s.got_sigint s.engine.spawn_mode children).1,
           engine := { s.engine with
             spawn_mode := (sigint_switch s.got_sigint s.engine.spawn_mode children).2.1 },
           killed := s.killed ++
             (sigint_switch s.got_sigint s.engine.spawn_mode children).2.2 }
  | .loop st, s => (st.run s.engine).map (fun e => { s with engine := e })

/-- The steps, in order. -/
def sig_steps : List SigStep → SigState → Option SigState
  | [], s => some s
  | st :: rest, s =>
    match st.run s with
    | none => none
    | some s1 => sig_steps rest s1

/-- A step other than the delivery of a SIGINT. -/
def SigStep.quiet : SigStep → Bool
  | .sigint => false
  | _ => true

/-- A step that is neither the delivery of a SIGINT nor the switch. -/
def SigStep.inner : SigStep → Bool
  | .sigint => false
  | .switch _ => false
  | _ => true

/-! ## Lines of a stream, as the specification counts them -/

/-- A line with one trailing `\r` removed. -/
def stripCR (l : List Char) : List Char :=
  if l.getLast? = some '\r' then l.dropLast else l

/-- The lines completed by the C string `buf`, when `cur` holds the bytes of
the line under way: each newline ends a line, which loses one trailing `\r`. -/
def chunk_lines : List Char → List Char → List (List Char)
  | _, [] => []
  | cur, c :: rest =>
    if c = NUL then []
    else if c = '\n' then stripCR cur :: chunk_lines [] rest
    else chunk_lines (cur ++ [c]) rest

/-- The bytes of the line still under way after the C string `buf`. -/
def chunk_rest : List Char → List Char → List Char
  | cur, [] => cur
  | cur, c :: rest =>
    if c = NUL then cur
    else if c = '\n' then chunk_rest [] rest
    else chunk_rest (cur ++ [c]) rest

/-- The complete (newline-terminated) lines of the two streams of a child, in
the order in which the reads complete them: a line that is spread over several
reads is put together from the unterminated rests `ro` (stdout) and `re`
(stderr) of the earlier reads. -/
def stream_lines : List Char → List Char → Chunks → List (Int × List Char)
  | _, _, [] => []
  | ro, re, (std, buf) :: cs =>
    if std = 1 then
      (chunk_lines ro buf).map (fun l => (std, l)) ++ stream_lines (chunk_rest ro buf) re cs
    else
      (chunk_lines re buf).map (fun l => (std, l)) ++ stream_lines ro (chunk_rest re buf) cs

/-- The reads deliver whole lines only: no read ends inside a line. -/
def WholeLines (cs : Chunks) : Prop := ∀ c ∈ cs, chunk_rest [] c.2 = []

instance (cs : Chunks) : Decidable (WholeLines cs) := by
  unfold WholeLines; infer_instance

/-- The test on one complete line in a test child: the new value of `passed`
for the line `l` completed on stream `std`. -/
def passed_step (p : Int) (x : Int × List Char) : Int :=
  if x.2 = SHMUX_DOT ∧ p = 0 ∧ x.1 = 1 then 1 else -1

/-- The parts of the complete lines that arrive in the read that carries their newline. -/
def read_lines : Chunks → List (Int × List Char)
  | [] => []
  | (std, buf) :: cs => (chunk_lines [] buf).map (fun l => (std, l)) ++ read_lines cs

/-! ## Output parsing, line by line -/

/-- An event that reaches the screen (everything but a write to a file). -/
def Ev.on_screen : Ev → Bool
  | Ev.write _ _ => false
  | _ => true

/-- The events of `out` that reach the screen, in order. -/
def screen (out : List Ev) : List Ev := out.filter Ev.on_screen

/-- What `parse_child` does with one complete line `line` of a child that is
neither a test nor the ping helper, seen from the slot and the screen: the
slot afterwards (the residue is used up) and the events for the screen;
`none` when the assertion on `OUT_COPY` fails. -/
def line_effect (env : Env) (name : List Char) (analyzer : Analyze) (std : Int)
    (line : List Char) (kid : Child) : Option (Child × List Ev) :=
  let str := (left_get kid std).getD [] ++ line
  let flip : OutMode := { kid.output with iferr := false, err := true }
  let shows : List Ev :=
    [Ev.output_show name kid.ofile std, Ev.output_show name kid.efile std]
  let analysed : Option (OutMode × List Ev) :=
    if kid.output.err = false ∧ (analyzer = ANALYZE_LNRE ∨ analyzer = ANALYZE_LNPCRE) then
      if env.analyzer_lnrun analyzer std str ≠ 0 then
        if kid.output.iferr = true ∧ kid.output.mixed = true then
          if kid.output.copy = true then some (flip, shows) else none
        else some (flip, [])
      else some (kid.output, [])
    else some (kid.output, [])
  match analysed with
  | none => none
  | some (output, evs) =>
    some (left_set { kid with output := output } std none,
      if output.mixed = true ∧ output.iferr = false then
        evs ++ [Ev.tprint name (msg_kind std) str]
      else evs)

/-- The effect of a run of complete lines, one after the other. -/
def lines_effect (env : Env) (name : List Char) (analyzer : Analyze) (std : Int) :
    List (List Char) → Child → Option (Child × List Ev)
  | [], kid => some (kid, [])
  | l :: ls, kid =>
    match line_effect env name analyzer std l kid with
    | none => none
    | some (k, evs) =>
      match lines_effect env name analyzer std ls k with
      | none => none
      | some (k2, evs2) => some (k2, evs ++ evs2)

/-- What `parse_child` does with the unterminated rest `frag` of a chunk, seen
from the slot and the screen. -/
def rest_effect (env : Env) (name : List Char) (analyzer : Analyze) (std : Int)
    (frag : List Char) (kid : Child) : Child × List Ev :=
  if frag = [] then (kid, [])
  else
    match left_get kid std with
    | none => (left_set kid std (some frag), [])
    | some l =>
      if l.length > 1024 then
        let lineana : Bool :=
          kid.output.iferr && (analyzer == ANALYZE_LNRE || analyzer == ANALYZE_LNPCRE)
        let output : OutMode :=
          if lineana = true then { kid.output with iferr := false, err := true }
          else kid.output
        (left_set { kid with output := output } std (some frag),
          (if lineana = true ∧ kid.output.mixed = true then
            [Ev.output_show name kid.ofile std, Ev.output_show name kid.efile std]
           else []) ++
          (if output.mixed = true ∧ output.iferr = false then
            [Ev.tprint name (msg_trunc std) l]
           else []))
      else (left_set kid std (some (l ++ frag.take (env.ptrsize - 1))), [])

/-- What `parse_child` does with the chunk `buffer`, seen from the slot and the
screen: its complete lines, then its unterminated rest. -/
def chunk_effect (env : Env) (name : List Char) (analyzer : Analyze) (std : Int)
    (buffer : List Char) (kid : Child) : Option (Child × List Ev) :=
  match lines_effect env name analyzer std (chunk_lines [] buffer) kid with
  | none => none
  | some (k, evs) =>
    some ((rest_effect env name analyzer std (chunk_rest [] buffer) k).1,
      evs ++ (rest_effect env name analyzer std (chunk_rest [] buffer) k).2)

/-- The lines `ls` completed by a chunk as `parse_child` hands them on: the
first one is joined to the residue `r` of the stream. -/
def with_residue (r : List Char) : List (List Char) → List (List Char)
  | [] => []
  | l :: ls => (r ++ l) :: ls

/-- No line is spread over more than two reads: a read that ends inside a line
is followed by a read that completes a line. -/
def TwoReads : List (List Char) → Prop
  | c :: c' :: cs => (chunk_rest [] c = [] ∨ chunk_lines [] c' ≠ []) ∧ TwoReads (c' :: cs)
  | _ => True

instance decTwoReads : (cs : List (List Char)) → Decidable (TwoReads cs)
  | [] => isTrue (by simp [TwoReads])
  | [_] => isTrue (by simp [TwoReads])
  | c :: c' :: cs =>
    have := decTwoReads (c' :: cs)
    decidable_of_iff
      ((chunk_rest [] c = [] ∨ chunk_lines [] c' ≠ []) ∧ TwoReads (c' :: cs))
      (by simp [TwoReads])

/-- No line end `\r\n` is split between two reads: when the unterminated rest
of a read ends in `\r`, the next read does not start with `\n`. -/
def WholeCRLF : List (List Char) → Prop
  | c :: c' :: cs =>
    ¬ ((chunk_rest [] c).getLast? = some '\r' ∧ c'.head? = some '\n') ∧ WholeCRLF (c' :: cs)
  | _ => True

instance decWholeCRLF : (cs : List (List Char)) → Decidable (WholeCRLF cs)
  | [] => isTrue (by simp [WholeCRLF])
  | [_] => isTrue (by simp [WholeCRLF])
  | c :: c' :: cs =>
    have := decWholeCRLF (c' :: cs)
    decidable_of_iff
      (¬ ((chunk_rest [] c).getLast? = some '\r' ∧ c'.head? = some '\n') ∧
        WholeCRLF (c' :: cs))
      (by simp [WholeCRLF])

/-! ## Sample data -/

/-- A registry with one target, in its run phase. -/
def sampleReg : Registry := { targets := [⟨['a'], 4, 2, 3, 9, 0⟩], type := 4, tcur := 0 }

/-- A slot as `init_child` leaves it for target 0, with process id 5. -/
def sampleKid : Child :=
  { pid := 5, num := 0, test := 0, passed := 0, analyzer := 0,
    output := { mixed := true, atend := false, iferr := false, copy := false, err := false },
    execstate := 0, timeout := 0, timedout := 0, obuf := none, ebuf := none,
    ofname := none, efname := none, ofile := -1, efile := -1, status := -1, orphan := 0 }

/-- The slot of a test child (`test = 1`). -/
def sampleTest : Child := { sampleKid with test := 1 }

/-- An environment: exit code 2 is in `BSET_ERROR`, the line analyzer flags
the line `bad`, the batch analyzer accepts everything. -/
def sampleEnv : Env :=
  { analyzer_lnrun := fun _ _ l => if l = ['b', 'a', 'd'] then 1 else 0,
    analyzer_run := fun _ _ _ _ _ => 0,
    bset_error := fun c => if c = 2 then 0 else 1,
    bset_show := fun _ => 1,
    ptrsize := 8 }

/-- The fields of a slot that output parsing never writes. -/
def slot_fields (k : Child) :
    Int × Int × Int × Int × Int × Int × Option (List Char) × Option (List Char) ×
      Int × Int × Int × Int :=
  (k.pid, k.num, k.test, k.analyzer, k.timeout, k.timedout, k.ofname, k.efname,
    k.ofile, k.efile, k.status, k.orphan)

/-- The escalation state of a slot agrees with the signals sent so far. -/
def Escalation (s : Slot) : Prop :=
  (s.kid.timedout = 0 ∧ s.sent = []) ∨
  (s.kid.timedout = 1 ∧ s.sent = [SIGTERM]) ∨
  (s.kid.timedout = 2 ∧ s.kid.timeout = 0 ∧ s.sent = [SIGTERM, SIGKILL])

/-- A target that is being pinged (phase 1, status 0) and whose host part
equals `host` without regard to case. -/
def PongMatch (host : List Char) (t : Target) : Prop :=
  t.phase = 1 ∧ t.status = 0 ∧ strcasecmp_eq (hname t.name) host = true

instance (host : List Char) (t : Target) : Decidable (PongMatch host t) := by
  unfold PongMatch; infer_instance

/-- Index `i` holds the target `t`, the lowest-indexed one that is being
pinged under the host name `host`. -/
def LeastPinged (reg : Registry) (host : List Char) (i : Nat) (t : Target) : Prop :=
  reg.targets[i]? = some t ∧ PongMatch host t ∧
    ∀ j : Nat, j < i → ∀ u, reg.targets[j]? = some u → ¬ PongMatch host u

/-- A target whose host part equals `host` without regard to case, whatever
its phase and status. -/
def HostMatch (host : List Char) (t : Target) : Prop :=
  strcasecmp_eq (hname t.name) host = true

instance (host : List Char) (t : Target) : Decidable (HostMatch host t) := by
  unfold HostMatch; infer_instance

/-- Index `i` holds the target `t`, the lowest-indexed one whose host part is
`host`. -/
def LeastHost (reg : Registry) (host : List Char) (i : Nat) (t : Target) : Prop :=
  reg.targets[i]? = some t ∧ HostMatch host t ∧
    ∀ j : Nat, j < i → ∀ u, reg.targets[j]? = some u → ¬ HostMatch host u

/-- A registry in which the target `h` has answered its ping (phase 1,
status 1) and the target `b` is still being pinged. -/
def sampleAlive : Registry :=
  { targets := [⟨['h'], 4, 1, 1, 0, 0⟩, ⟨['b'], 4, 0, 1, 0, 0⟩], type := 4, tcur := 0 }

/-- The text `is unreachable` of a ping answer. -/
def IS_UNREACHABLE : List Char :=
  ['i', 's', ' ', 'u', 'n', 'r', 'e', 'a', 'c', 'h', 'a', 'b', 'l', 'e']

/-- A registry with two targets that are being pinged. -/
def samplePing : Registry :=
  { targets := [⟨['u', '@', 'H', 'o', 's', 't'], 4, 0, 1, 0, 0⟩, ⟨['b'], 4, 0, 1, 0, 0⟩],
    type := 4, tcur := 0 }

/-- The bytes that the write events of `out` append to the descriptor `fd`. -/
def file_bytes (fd : Int) : List Ev → List Char
  | [] => []
  | Ev.write fd' bytes :: rest =>
    if fd' = fd then bytes ++ file_bytes fd rest else file_bytes fd rest
  | _ :: rest => file_bytes fd rest

/-- A run child's slot in copy mode, with its output files open on the descriptors 7 and 8. -/
def sampleFiles : Child :=
  { sampleKid with
    output := { sampleKid.output with copy := true },
    ofname := some ['o'], efname := some ['e'], ofile := 7, efile := 8 }

/-- A run child's slot in the mode that shows output only when an error is
found (`IFERR`, `MIXED` and `COPY`), with its output files open. -/
def sampleIferr : Child :=
  { sampleFiles with
    output := { mixed := true, atend := false, iferr := true, copy := true, err := false } }

/-- A run child's slot in the mode `MIXED` whose stdout residue holds 1025 bytes. -/
def sampleLongMixed : Child := { sampleKid with obuf := some (List.replicate 1025 'a') }

/-- A registry with two targets whose test has passed (ready for their run). -/
def sampleReady : Registry :=
  { targets := [⟨['a'], 4, 2, 2, 0, 0⟩, ⟨['b'], 4, 2, 2, 0, 0⟩], type := 4, tcur := 0 }

/-- An engine in spawn mode `CHECK` over the two ready targets. -/
def sampleEngine : Engine :=
  { spawn_mode := SPAWN_CHECK, failure_mode := SPAWN_PAUSE, reg := sampleReady }

/-- A target that phase `p` may pick: `status == p-1 && phase != p`. -/
def Ready (p : Int) (t : Target) : Prop := t.status = p - 1 ∧ t.phase ≠ p

instance (p : Int) (t : Target) : Decidable (Ready p t) := by
  unfold Ready; infer_instance

/-- Index `i` holds a target ready for phase `p` and no lower index does. -/
def LeastReady (r : Registry) (p : Int) (i : Nat) : Prop :=
  (∃ t, r.targets[i]? = some t ∧ Ready p t) ∧
    ∀ j, j < i → ∀ u, r.targets[j]? = some u → ¬ Ready p u

/-- The range invariant `-1 <= status <= phase <= 4`. -/
def Inv (t : Target) : Prop := -1 ≤ t.status ∧ t.status ≤ t.phase ∧ t.phase ≤ 4

instance (t : Target) : Decidable (Inv t) := by
  unfold Inv; infer_instance

/-- A target is dead, or idle (`phase = status`), or in a phase (`phase = status + 1`). -/
def Step01 (t : Target) : Prop :=
  t.status = -1 ∨ t.phase - t.status = 0 ∨ t.phase - t.status = 1

instance (t : Target) : Decidable (Step01 t) := by
  unfold Step01; infer_instance

/-- What one update of the current target can be: `t` before, `t'` after. -/
def Upd (op : Op) (t t' : Target) : Prop :=
  (∃ now, op = .start now ∧ t.status = t.phase ∧ 0 ≤ t.phase ∧ t.phase < 4 ∧
      t' = { t with phase := t.phase + 1, when := now }) ∨
  (op = .result 1 ∧ t.status < 4 ∧ t.result = CMD_ERROR ∧ 3 ≤ t.phase ∧ t.phase ≤ 4 ∧
      t' = { t with phase := 4, status := 4 }) ∨
  (op = .result 1 ∧ t.status < 4 ∧ t.result ≠ CMD_ERROR ∧ 0 < t.phase ∧ t.phase ≤ 4 ∧
      t' = { t with status := t.phase }) ∨
  (∃ ok, op = .result ok ∧ ok ≠ 1 ∧ 0 < t.phase ∧ t.phase ≤ 4 ∧
      t' = { t with status := -1, result := CMD_FAILURE }) ∨
  (∃ v, op = .cmdstatus v ∧ t' = { t with result := v })

/-! ## Theorems: target registry -/

theorem next_scan_spec (p : Int) (ts : List Target) (k : Int) :
    ((next_scan p ts k).2 = 0 ∧ ∃ (i : Nat) (t : Target),
        (next_scan p ts k).1 = k + (i : Int) ∧ ts[i]? = some t ∧ Ready p t ∧
        ∀ j : Nat, j < i → ∀ u, ts[j]? = some u → ¬ Ready p u) ∨
    ((next_scan p ts k).2 = -1 ∧ (next_scan p ts k).1 = k + (ts.length : Int) ∧
        ∀ u ∈ ts, ¬ Ready p u) := by
  induction ts generalizing k with
  | nil => right; simp [next_scan]
  | cons t rest ih =>
    by_cases h : t.status = p - 1 ∧ t.phase ≠ p
    · left
      refine ⟨by simp [next_scan, h], 0, t, by simp [next_scan, h], by simp, h, ?_⟩
      intro j hj; omega
    · have e : next_scan p (t :: rest) k = next_scan p rest (k + 1) := by
        simp only [next_scan, if_neg h]
      rw [e]
      rcases ih (k + 1) with ⟨h0, i, u, hi, hu, hr, hl⟩ | ⟨h1, hlen, hall⟩
      · left
        refine ⟨h0, i + 1, u, ?_, by simpa using hu, hr, ?_⟩
        · rw [hi]; push_cast; ring
        · intro j hj v hv
          cases j with
          | zero => simp at hv; subst hv; exact h
          | succ j => exact hl j (by omega) v (by simpa using hv)
      · right
        refine ⟨h1, ?_, ?_⟩
        · rw [hlen]; simp only [List.length_cons]; push_cast; ring
        · intro v hv
          rcases List.mem_cons.mp hv with rfl | hv
          · exact h
          · exact hall v hv

theorem leastReady_unique (r : Registry) (p : Int) (i j : Nat)
    (hi : LeastReady r p i) (hj : LeastReady r p j) : i = j := by
  rcases hi with ⟨⟨t, ht, hrt⟩, hli⟩
  rcases hj with ⟨⟨u, hu, hru⟩, hlj⟩
  rcases Nat.lt_trichotomy i j with h | h | h
  · exact absurd hrt (hlj i h t ht)
  · exact h
  · exact absurd hru (hli j h u hu)

/-- C1: for `p` in `1..4`, `target_next(p)` returns 0 with `tcur` at the least
index whose target has `status == p-1` and `phase != p`, returns -1 when no
target is in that state, and leaves the `targets` array untouched. -/
theorem target_next_spec (r : Registry) (p : Int) (hp : 1 ≤ p ∧ p ≤ 4) :
    ∃ r' rc, target_next p r = some (r', rc) ∧
      r'.targets = r.targets ∧
      (∀ i : Nat, LeastReady r p i → rc = 0 ∧ r'.tcur = (i : Int)) ∧
      ((∀ t ∈ r.targets, ¬ Ready p t) → rc = -1) := by
  have hp' : 0 < p ∧ p < 5 := ⟨by omega, by omega⟩
  refine ⟨{ r with tcur := (next_scan p r.targets 0).1 }, (next_scan p r.targets 0).2,
    by simp [target_next, hp'], rfl, ?_, ?_⟩
  · intro i hi
    rcases next_scan_spec p r.targets 0 with ⟨h0, k, t, hk, ht, hr, hl⟩ | ⟨_, _, hall⟩
    · have : LeastReady r p k := ⟨⟨t, ht, hr⟩, hl⟩
      have e := leastReady_unique r p i k hi this
      subst e
      exact ⟨h0, by simpa using hk⟩
    · rcases hi with ⟨⟨t, ht, hrt⟩, _⟩
      exact absurd hrt (hall t (List.mem_iff_getElem?.mpr ⟨i, ht⟩))
  · intro hnone
    rcases next_scan_spec p r.targets 0 with ⟨_, k, t, _, ht, hr, _⟩ | ⟨h1, _, _⟩
    · exact absurd hr (hnone t (List.mem_iff_getElem?.mpr ⟨k, ht⟩))
    · exact h1

/-- C1 at a concrete registry: the first target is already in phase 3, the second is picked. -/
theorem target_next_spec_witness :
    (1 ≤ (3 : Int) ∧ (3 : Int) ≤ 4) ∧
    ∃ r' rc, target_next 3
        { targets := [⟨['a'], 4, 2, 3, 0, 0⟩, ⟨['b'], 4, 2, 2, 0, 0⟩], type := 4, tcur := 0 }
          = some (r', rc) ∧
      r'.targets = [⟨['a'], 4, 2, 3, 0, 0⟩, ⟨['b'], 4, 2, 2, 0, 0⟩] ∧
      (∀ i : Nat, LeastReady
        { targets := [⟨['a'], 4, 2, 3, 0, 0⟩, ⟨['b'], 4, 2, 2, 0, 0⟩], type := 4, tcur := 0 } 3 i →
          rc = 0 ∧ r'.tcur = (i : Int)) ∧
      ((∀ t ∈ [(⟨['a'], 4, 2, 3, 0, 0⟩ : Target), ⟨['b'], 4, 2, 2, 0, 0⟩], ¬ Ready 3 t) → rc = -1) :=
  ⟨by decide, target_next_spec _ 3 (by decide)⟩

theorem current_lt (r : Registry) (t : Target) (h : current r = some t) :
    0 ≤ r.tcur ∧ r.tcur.toNat < r.targets.length ∧ r.targets[r.tcur.toNat]? = some t := by
  unfold current at h
  split at h
  · rename_i h0
    exact ⟨h0, (List.getElem?_eq_some.mp h).1, h⟩
  · cases h

theorem current_setcurrent (r : Registry) (t t' : Target) (h : current r = some t) :
    current (setcurrent r t') = some t' := by
  rcases current_lt r t h with ⟨h0, hlt, _⟩
  simp [current, setcurrent, h0, List.getElem?_set_self hlt]

theorem setcurrent_other (r : Registry) (t' : Target) (j : Nat) (h : (j : Int) ≠ r.tcur)
    (h0 : 0 ≤ r.tcur) : (setcurrent r t').targets[j]? = r.targets[j]? := by
  have : r.tcur.toNat ≠ j := by omega
  simp [setcurrent, List.getElem?_set_ne this]

theorem setcurrent_length (r : Registry) (t' : Target) :
    (setcurrent r t').targets.length = r.targets.length := by
  simp [setcurrent]

theorem setcurrent_tcur (r : Registry) (t' : Target) : (setcurrent r t').tcur = r.tcur := rfl

theorem mem_setcurrent (r : Registry) (t' u : Target) (h : u ∈ (setcurrent r t').targets) :
    u ∈ r.targets ∨ u = t' :=
  List.mem_or_eq_of_mem_set h

/-- C2: when the assertions of `target_result` hold and the current target's
result is not `error`, `target_result(1)` raises `status` to `phase` and leaves
`phase` and `result`; any other argument sets `status = -1` and
`result = failure` and leaves `phase`; no other target changes. -/
theorem target_result_spec (r : Registry) (t : Target) (ok : Int)
    (hcur : current r = some t)
    (hassert : -1 ≤ t.status ∧ t.status < 4 ∧ 0 < t.phase ∧ t.phase ≤ 4)
    (hres : t.result ≠ CMD_ERROR) :
    ∃ r' t', target_result ok r = some r' ∧ current r' = some t' ∧
      r'.tcur = r.tcur ∧ r'.targets.length = r.targets.length ∧
      t'.phase = t.phase ∧
      (ok = 1 → t'.status = t.phase ∧ t'.result = t.result) ∧
      (ok ≠ 1 → t'.status = -1 ∧ t'.result = CMD_FAILURE) ∧
      (∀ j : Nat, (j : Int) ≠ r.tcur → r'.targets[j]? = r.targets[j]?) := by
  have h0 := (current_lt r t hcur).1
  by_cases hok : ok = 1
  · refine ⟨setcurrent r { t with status := t.phase }, { t with status := t.phase },
      by simp [target_result, hcur, hassert, hok, hres], current_setcurrent r t _ hcur,
      rfl, setcurrent_length _ _, rfl, fun _ => ⟨rfl, rfl⟩, fun h => absurd hok h,
      fun j hj => setcurrent_other r _ j hj h0⟩
  · refine ⟨setcurrent r { t with status := -1, result := CMD_FAILURE },
      { t with status := -1, result := CMD_FAILURE },
      by simp [target_result, hcur, hassert, hok], current_setcurrent r t _ hcur,
      rfl, setcurrent_length _ _, rfl, fun h => absurd h hok, fun _ => ⟨rfl, rfl⟩,
      fun j hj => setcurrent_other r _ j hj h0⟩

/-- C2 at a concrete registry: a failed test (phase 2) of the second of two targets. -/
theorem target_result_spec_witness :
    ∃ r' t', target_result 0
        { targets := [⟨['a'], 4, 1, 1, 0, 0⟩, ⟨['b'], 4, 1, 2, 7, 0⟩], type := 4, tcur := 1 }
          = some r' ∧ current r' = some t' ∧
      r'.tcur = 1 ∧ r'.targets.length = 2 ∧
      t'.phase = 2 ∧
      ((0 : Int) = 1 → t'.status = 2 ∧ t'.result = 0) ∧
      ((0 : Int) ≠ 1 → t'.status = -1 ∧ t'.result = CMD_FAILURE) ∧
      (∀ j : Nat, (j : Int) ≠ 1 → r'.targets[j]? =
        [(⟨['a'], 4, 1, 1, 0, 0⟩ : Target), ⟨['b'], 4, 1, 2, 7, 0⟩][j]?) :=
  target_result_spec
    { targets := [⟨['a'], 4, 1, 1, 0, 0⟩, ⟨['b'], 4, 1, 2, 7, 0⟩], type := 4, tcur := 1 }
    ⟨['b'], 4, 1, 2, 7, 0⟩ 0 (by decide) (by decide) (by decide)

theorem run_shape (op : Op) (r r' : Registry) (h : op.run r = some r') :
    r'.targets = r.targets ∨
    (∃ name, op = .add name ∧ r' = (target_add name r).1) ∨
    (∃ t t', current r = some t ∧ r' = setcurrent r t' ∧ Upd op t t') := by
  cases op with
  | add name => right; left; exact ⟨name, rfl, by simpa [Op.run] using h.symm⟩
  | next phase =>
    left
    simp only [Op.run, target_next] at h
    split at h
    · simp at h; rw [← h]
    · simp at h
  | start now =>
    right; right
    simp only [Op.run, target_start] at h
    split at h
    · cases h
    · rename_i t hc
      split at h
      · rename_i ha
        simp at h
        exact ⟨t, _, hc, h.symm, Or.inl ⟨now, rfl, ha.1, ha.2.1, ha.2.2, rfl⟩⟩
      · cases h
  | result ok =>
    right; right
    simp only [Op.run, target_result] at h
    split at h
    · cases h
    · rename_i t hc
      split at h
      · rename_i ha
        split at h
        · rename_i hok
          subst hok
          split at h
          · rename_i he
            split at h
            · rename_i h3
              simp at h
              exact ⟨t, _, hc, h.symm, Or.inr (Or.inl ⟨rfl, ha.2.1, he, h3, ha.2.2.2, rfl⟩)⟩
            · cases h
          · rename_i he
            simp at h
            exact ⟨t, _, hc, h.symm,
              Or.inr (Or.inr (Or.inl ⟨rfl, ha.2.1, he, ha.2.2.1, ha.2.2.2, rfl⟩))⟩
        · rename_i hok
          simp at h
          exact ⟨t, _, hc, h.symm,
            Or.inr (Or.inr (Or.inr (Or.inl ⟨ok, rfl, hok, ha.2.2.1, ha.2.2.2, rfl⟩)))⟩
      · cases h
  | cmdstatus v =>
    right; right
    simp only [Op.run, target_cmdstatus] at h
    split at h
    · cases h
    · rename_i t hc
      split at h
      · simp at h
        exact ⟨t, _, hc, h.symm, Or.inr (Or.inr (Or.inr (Or.inr ⟨v, rfl, rfl⟩)))⟩
      · cases h
  | pong name => left; simp [Op.run, target_pong] at h; rw [← h]
  | setbyname name => left; simp [Op.run, target_setbyname] at h; rw [← h]
  | setbyhname name => left; simp [Op.run, target_setbyhname] at h; rw [← h]
  | setbynum num =>
    left
    simp only [Op.run, target_setbynum] at h
    split at h <;> (simp at h; rw [← h])

theorem current_mem (r : Registry) (t : Target) (h : current r = some t) : t ∈ r.targets :=
  List.mem_iff_getElem?.mpr ⟨_, (current_lt r t h).2.2⟩

theorem target_add_targets (name : List Char) (r : Registry) :
    ∃ n ty, (target_add name r).1.targets =
      r.targets ++ [{ name := n, type := ty, status := 0, phase := 0, when := 0, result := 0 }] :=
  ⟨_, _, rfl⟩

theorem upd_inv (op : Op) (t t' : Target) (h : Upd op t t') (hi : Inv t) : Inv t' := by
  unfold Inv at *
  rcases h with ⟨_, _, h1, h2, h3, rfl⟩ | ⟨_, h1, _, h3, _, rfl⟩ | ⟨_, h1, _, h3, h4, rfl⟩ |
    ⟨_, _, _, h3, h4, rfl⟩ | ⟨_, _, rfl⟩ <;> simp <;> omega

/-- C3: the range invariant `-1 <= status <= phase <= 4` holds for every target
after `target_add`, and every registry routine whose assertions hold (`run`
returns a registry) preserves it for every target. -/
theorem inv_preserved (op : Op) (r r' : Registry)
    (hinv : ∀ t ∈ r.targets, Inv t) (hrun : op.run r = some r') :
    (∀ t ∈ r'.targets, Inv t) ∧
      ∀ name, ∀ t ∈ (target_add name r).1.targets, Inv t := by
  have hadd : ∀ name, ∀ t ∈ (target_add name r).1.targets, Inv t := by
    intro name t ht
    rcases target_add_targets name r with ⟨n, ty, e⟩
    rw [e] at ht
    rcases List.mem_append.mp ht with h | h
    · exact hinv t h
    · simp at h; subst h; simp [Inv]
  refine ⟨?_, hadd⟩
  rcases run_shape op r r' hrun with h | ⟨name, _, rfl⟩ | ⟨t, t', hc, rfl, hu⟩
  · rw [h]; exact hinv
  · exact hadd name
  · intro u hu'
    rcases mem_setcurrent r t' u hu' with h | rfl
    · exact hinv u h
    · exact upd_inv op t u hu (hinv t (current_mem r t hc))

/-- C3 at a concrete registry: `target_start` on an idle target in phase 2. -/
theorem inv_preserved_witness :
    (∀ t ∈ [(⟨['a'], 4, 2, 3, 5, 0⟩ : Target), ⟨['b'], 4, 2, 2, 0, 0⟩], Inv t) ∧
      ∀ name, ∀ t ∈ (target_add name
        { targets := [⟨['a'], 4, 2, 2, 0, 0⟩, ⟨['b'], 4, 2, 2, 0, 0⟩], type := 4, tcur := 0 }
          ).1.targets, Inv t :=
  inv_preserved (.start 5)
    { targets := [⟨['a'], 4, 2, 2, 0, 0⟩, ⟨['b'], 4, 2, 2, 0, 0⟩], type := 4, tcur := 0 }
    { targets := [⟨['a'], 4, 2, 3, 5, 0⟩, ⟨['b'], 4, 2, 2, 0, 0⟩], type := 4, tcur := 0 }
    (by decide) (by decide)

/-- C4 as stated fails: after `target_add`, `target_start` and a failed
`target_result(0)` the target has `status = -1`, `phase = 1`, so
`phase - status = 2`. -/
theorem phase_gap_counterexample :
    runOps [.add ['a'], .start 0, .result 0] (emptyRegistry 4) =
        some { targets := [⟨['a'], 4, -1, 1, 0, CMD_FAILURE⟩], type := 4, tcur := 0 } ∧
      ∃ t ∈ [(⟨['a'], 4, -1, 1, 0, CMD_FAILURE⟩ : Target)],
        ¬ (t.phase - t.status = 0 ∨ t.phase - t.status = 1) := by
  decide

theorem upd_step01 (op : Op) (t t' : Target) (h : Upd op t t') (hi : Step01 t) :
    Step01 t' := by
  unfold Step01 at *
  rcases h with ⟨_, _, h1, h2, h3, rfl⟩ | ⟨_, h1, _, h3, _, rfl⟩ | ⟨_, h1, _, h3, h4, rfl⟩ |
    ⟨_, _, _, h3, h4, rfl⟩ | ⟨_, _, rfl⟩ <;> simp <;> omega

theorem run_step01 (op : Op) (r r' : Registry)
    (hinv : ∀ t ∈ r.targets, Step01 t) (hrun : op.run r = some r') :
    ∀ t ∈ r'.targets, Step01 t := by
  rcases run_shape op r r' hrun with h | ⟨name, _, rfl⟩ | ⟨t, t', hc, rfl, hu⟩
  · rw [h]; exact hinv
  · intro t ht
    rcases target_add_targets name r with ⟨n, ty, e⟩
    rw [e] at ht
    rcases List.mem_append.mp ht with h | h
    · exact hinv t h
    · simp at h; subst h; simp [Step01]
  · intro u hu'
    rcases mem_setcurrent r t' u hu' with h | rfl
    · exact hinv u h
    · exact upd_step01 op t u hu (hinv t (current_mem r t hc))

theorem runOps_step01 (ops : List Op) (r r' : Registry)
    (hinv : ∀ t ∈ r.targets, Step01 t) (hrun : runOps ops r = some r') :
    ∀ t ∈ r'.targets, Step01 t := by
  induction ops generalizing r with
  | nil => simp [runOps] at hrun; rw [← hrun]; exact hinv
  | cons op ops ih =>
    simp only [runOps] at hrun
    split at hrun
    · cases hrun
    · rename_i r1 h1
      exact ih r1 (run_step01 op r r1 hinv h1) hrun

/-- C4, amended: in every registry reached from the empty one by registry calls
whose assertions hold (`target_add`, `target_start`, `target_result` with any
argument, `target_cmdstatus`, and the routines that move `tcur`), every target
is dead (`status = -1`) or has `phase - status` in `{0, 1}`. -/
theorem step01_reachable (ops : List Op) (ty : Int) (r : Registry)
    (hrun : runOps ops (emptyRegistry ty) = some r) :
    ∀ t ∈ r.targets, t.status = -1 ∨ t.phase - t.status = 0 ∨ t.phase - t.status = 1 :=
  runOps_step01 ops (emptyRegistry ty) r (by simp [emptyRegistry]) hrun

/-- C4 amended, at the run of the counterexample: the failed target is dead. -/
theorem step01_reachable_witness :
    runOps [.add ['a'], .start 0, .result 0] (emptyRegistry 4) =
        some { targets := [⟨['a'], 4, -1, 1, 0, CMD_FAILURE⟩], type := 4, tcur := 0 } ∧
      ((⟨['a'], 4, -1, 1, 0, CMD_FAILURE⟩ : Target).status = -1 ∨
        (⟨['a'], 4, -1, 1, 0, CMD_FAILURE⟩ : Target).phase -
          (⟨['a'], 4, -1, 1, 0, CMD_FAILURE⟩ : Target).status = 0 ∨
        (⟨['a'], 4, -1, 1, 0, CMD_FAILURE⟩ : Target).phase -
          (⟨['a'], 4, -1, 1, 0, CMD_FAILURE⟩ : Target).status = 1) :=
  ⟨by decide,
    step01_reachable [.add ['a'], .start 0, .result 0] 4
      { targets := [⟨['a'], 4, -1, 1, 0, CMD_FAILURE⟩], type := 4, tcur := 0 } (by decide)
      ⟨['a'], 4, -1, 1, 0, CMD_FAILURE⟩ (by simp)⟩

/-- C5 as stated fails: a target that died in phase 1 (`status = -1`) is the
current target, the assertions of `target_result` hold, and `target_result(1)`
sets its status to 1. -/
theorem dead_revived_counterexample :
    runOps [.add ['a'], .start 0, .result 0] (emptyRegistry 4) =
        some { targets := [⟨['a'], 4, -1, 1, 0, CMD_FAILURE⟩], type := 4, tcur := 0 } ∧
      Op.run (.result 1)
          { targets := [⟨['a'], 4, -1, 1, 0, CMD_FAILURE⟩], type := 4, tcur := 0 } =
        some { targets := [⟨['a'], 4, 1, 1, 0, CMD_FAILURE⟩], type := 4, tcur := 0 } := by
  decide

/-- C5, amended: a dead target (`status = -1`) stays dead under every registry
call whose assertions hold, except `target_result(1)` made while it is the
current target. -/
theorem dead_stays_dead (op : Op) (r r' : Registry) (i : Nat) (t : Target)
    (hi : r.targets[i]? = some t) (hdead : t.status = -1)
    (hrun : op.run r = some r')
    (hop : op ≠ .result 1 ∨ r.tcur ≠ (i : Int)) :
    ∃ t', r'.targets[i]? = some t' ∧ t'.status = -1 := by
  have hlt : i < r.targets.length := (List.getElem?_eq_some.mp hi).1
  rcases run_shape op r r' hrun with h | ⟨name, _, rfl⟩ | ⟨u, u', hc, rfl, hu⟩
  · exact ⟨t, by rw [h]; exact hi, hdead⟩
  · rcases target_add_targets name r with ⟨n, ty, e⟩
    exact ⟨t, by rw [e, List.getElem?_append_left hlt]; exact hi, hdead⟩
  · rcases current_lt r u hc with ⟨h0, hlt', hget⟩
    by_cases hcur : r.tcur = (i : Int)
    · have hidx : r.tcur.toNat = i := by omega
      rw [hidx, hi] at hget
      cases hget
      refine ⟨u', by simp [setcurrent, hidx, List.getElem?_set_self hlt], ?_⟩
      rcases hu with ⟨_, _, h1, h2, _, rfl⟩ | ⟨h1, _, _, _, _, rfl⟩ | ⟨h1, _, _, _, _, rfl⟩ |
        ⟨_, _, _, _, _, rfl⟩ | ⟨_, _, rfl⟩
      · omega
      · rcases hop with h | h
        · exact absurd h1 h
        · exact absurd hcur h
      · rcases hop with h | h
        · exact absurd h1 h
        · exact absurd hcur h
      · rfl
      · exact hdead
    · exact ⟨t, by rw [setcurrent_other r u' i (Ne.symm hcur) h0]; exact hi, hdead⟩

/-- C5 amended, at a concrete registry: a second failure report on a dead target. -/
theorem dead_stays_dead_witness :
    ∃ t', ({ targets := [⟨['a'], 4, -1, 1, 0, CMD_FAILURE⟩], type := 4, tcur := 0 } :
        Registry).targets[0]? = some t' ∧ t'.status = -1 :=
  dead_stays_dead (.result 0)
    { targets := [⟨['a'], 4, -1, 1, 0, CMD_FAILURE⟩], type := 4, tcur := 0 }
    { targets := [⟨['a'], 4, -1, 1, 0, CMD_FAILURE⟩], type := 4, tcur := 0 }
    0 ⟨['a'], 4, -1, 1, 0, CMD_FAILURE⟩ (by decide) (by decide) (by decide)
    (Or.inl (by decide))

/-- C6: for a current target whose result is `error` and whose phase is 3 or 4
(and whose status satisfies the assertion `-1 <= status < 4` of
`target_result`), `target_result(1)` sets `phase` and `status` to 4 and leaves
`result` equal to `error`. -/
theorem target_result_error (r : Registry) (t : Target)
    (hcur : current r = some t) (herr : t.result = CMD_ERROR)
    (hph : t.phase = 3 ∨ t.phase = 4) (hst : -1 ≤ t.status ∧ t.status < 4) :
    ∃ r' t', target_result 1 r = some r' ∧ current r' = some t' ∧
      t'.phase = 4 ∧ t'.status = 4 ∧ t'.result = CMD_ERROR ∧
      r'.tcur = r.tcur ∧
      (∀ j : Nat, (j : Int) ≠ r.tcur → r'.targets[j]? = r.targets[j]?) := by
  have h0 := (current_lt r t hcur).1
  have ha : -1 ≤ t.status ∧ t.status < 4 ∧ 0 < t.phase ∧ t.phase ≤ 4 :=
    ⟨hst.1, hst.2, by omega, by omega⟩
  have h3 : 3 ≤ t.phase := by omega
  exact ⟨setcurrent r { t with phase := 4, status := 4 }, { t with phase := 4, status := 4 },
    by simp [target_result, hcur, ha, herr, h3], current_setcurrent r t _ hcur,
    rfl, rfl, herr, rfl, fun j hj => setcurrent_other r _ j hj h0⟩

/-- C6 at a concrete registry: the run phase ended with verdict `error`. -/
theorem target_result_error_witness :
    ∃ r' t', target_result 1
        { targets := [⟨['a'], 4, 2, 3, 9, CMD_ERROR⟩], type := 4, tcur := 0 } = some r' ∧
      current r' = some t' ∧
      t'.phase = 4 ∧ t'.status = 4 ∧ t'.result = CMD_ERROR ∧
      r'.tcur = 0 ∧
      (∀ j : Nat, (j : Int) ≠ 0 → r'.targets[j]? =
        [(⟨['a'], 4, 2, 3, 9, CMD_ERROR⟩ : Target)][j]?) :=
  target_result_error
    { targets := [⟨['a'], 4, 2, 3, 9, CMD_ERROR⟩], type := 4, tcur := 0 }
    ⟨['a'], 4, 2, 3, 9, CMD_ERROR⟩ (by decide) (by decide) (by decide) (by decide)

/-! ## Theorems: verdicts -/

/-- C7: for a spawn mode `m` other than `ONE` (and a current target in phase 3
or 4, a verdict in `-2 .. 2`: the assertions of `target_cmdstatus`),
`set_cmdstatus(v)` leaves the spawn mode at `CHECK` if `v` is success and `m`
is `NONE`, at the failure mode if `v` is not success and `m` is `NONE` or
`CHECK`, and at `m` otherwise; `MORE`, `PAUSE`, `QUIT`, `ABORT`, `FATAL` never
change and `CHECK` is unchanged by a success; `v` becomes the result of the
current target, whose status and phase do not change. -/
theorem set_cmdstatus_spec (e : Engine) (v : Int) (t : Target)
    (hm : e.spawn_mode ≠ SPAWN_ONE) (hcur : current e.reg = some t)
    (hph : t.phase = 3 ∨ t.phase = 4) (hv : -2 ≤ v ∧ v ≤ 2) :
    ∃ e' t', set_cmdstatus v e = some e' ∧
      e'.spawn_mode =
        (if v = CMD_SUCCESS ∧ e.spawn_mode = SPAWN_NONE then SPAWN_CHECK
         else if v ≠ CMD_SUCCESS ∧ (e.spawn_mode = SPAWN_NONE ∨ e.spawn_mode = SPAWN_CHECK)
           then e.failure_mode
         else e.spawn_mode) ∧
      ((e.spawn_mode = SPAWN_MORE ∨ e.spawn_mode = SPAWN_PAUSE ∨ e.spawn_mode = SPAWN_QUIT ∨
          e.spawn_mode = SPAWN_ABORT ∨ e.spawn_mode = SPAWN_FATAL) →
        e'.spawn_mode = e.spawn_mode) ∧
      (e.spawn_mode = SPAWN_CHECK → v = CMD_SUCCESS → e'.spawn_mode = SPAWN_CHECK) ∧
      e'.failure_mode = e.failure_mode ∧
      current e'.reg = some t' ∧ e'.reg.tcur = e.reg.tcur ∧
      t'.result = v ∧ t'.status = t.status ∧ t'.phase = t.phase ∧
      (∀ j : Nat, (j : Int) ≠ e.reg.tcur → e'.reg.targets[j]? = e.reg.targets[j]?) := by
  have h0 := (current_lt e.reg t hcur).1
  have hc : target_cmdstatus v e.reg = some (setcurrent e.reg { t with result := v }) := by
    simp [target_cmdstatus, hcur, hph, hv]
  refine ⟨{ e with
      spawn_mode :=
        if v = CMD_SUCCESS then
          (if e.spawn_mode = SPAWN_NONE then SPAWN_CHECK else e.spawn_mode)
        else
          (if e.spawn_mode = SPAWN_NONE ∨ e.spawn_mode = SPAWN_CHECK then e.failure_mode
           else e.spawn_mode),
      reg := setcurrent e.reg { t with result := v } }, { t with result := v },
    by simp only [set_cmdstatus, if_neg hm, hc], ?_, ?_, ?_,
    rfl, current_setcurrent e.reg t _ hcur, rfl, rfl, rfl, rfl,
    fun j hj => setcurrent_other e.reg _ j hj h0⟩
  · show (if v = CMD_SUCCESS then
          (if e.spawn_mode = SPAWN_NONE then SPAWN_CHECK else e.spawn_mode)
        else
          (if e.spawn_mode = SPAWN_NONE ∨ e.spawn_mode = SPAWN_CHECK then e.failure_mode
           else e.spawn_mode)) = _
    split_ifs <;> first | rfl | (exfalso; tauto)
  · intro hmode
    have hn : e.spawn_mode ≠ SPAWN_NONE := by
      rcases hmode with h | h | h | h | h <;> rw [h] <;> decide
    have hk : e.spawn_mode ≠ SPAWN_CHECK := by
      rcases hmode with h | h | h | h | h <;> rw [h] <;> decide
    show (if v = CMD_SUCCESS then
          (if e.spawn_mode = SPAWN_NONE then SPAWN_CHECK else e.spawn_mode)
        else
          (if e.spawn_mode = SPAWN_NONE ∨ e.spawn_mode = SPAWN_CHECK then e.failure_mode
           else e.spawn_mode)) = _
    split_ifs <;> first | rfl | (exfalso; tauto)
  · intro hk hs
    have hn : e.spawn_mode ≠ SPAWN_NONE := by rw [hk]; decide
    show (if v = CMD_SUCCESS then
          (if e.spawn_mode = SPAWN_NONE then SPAWN_CHECK else e.spawn_mode)
        else
          (if e.spawn_mode = SPAWN_NONE ∨ e.spawn_mode = SPAWN_CHECK then e.failure_mode
           else e.spawn_mode)) = _
    rw [if_pos hs, if_neg hn, hk]

/-- C7 at a concrete engine: an error verdict in mode `CHECK` with failure mode `PAUSE`. -/
theorem set_cmdstatus_spec_witness :
    ∃ e' t', set_cmdstatus CMD_ERROR
        { spawn_mode := SPAWN_CHECK, failure_mode := SPAWN_PAUSE,
          reg := { targets := [⟨['a'], 4, 2, 3, 9, 0⟩], type := 4, tcur := 0 } } = some e' ∧
      e'.spawn_mode =
        (if CMD_ERROR = CMD_SUCCESS ∧ SPAWN_CHECK = SPAWN_NONE then SPAWN_CHECK
         else if CMD_ERROR ≠ CMD_SUCCESS ∧ (SPAWN_CHECK = SPAWN_NONE ∨ SPAWN_CHECK = SPAWN_CHECK)
           then SPAWN_PAUSE
         else SPAWN_CHECK) ∧
      ((SPAWN_CHECK = SPAWN_MORE ∨ SPAWN_CHECK = SPAWN_PAUSE ∨ SPAWN_CHECK = SPAWN_QUIT ∨
          SPAWN_CHECK = SPAWN_ABORT ∨ SPAWN_CHECK = SPAWN_FATAL) →
        e'.spawn_mode = SPAWN_CHECK) ∧
      (SPAWN_CHECK = SPAWN_CHECK → CMD_ERROR = CMD_SUCCESS → e'.spawn_mode = SPAWN_CHECK) ∧
      e'.failure_mode = SPAWN_PAUSE ∧
      current e'.reg = some t' ∧ e'.reg.tcur = 0 ∧
      t'.result = CMD_ERROR ∧ t'.status = 2 ∧ t'.phase = 3 ∧
      (∀ j : Nat, (j : Int) ≠ 0 → e'.reg.targets[j]? =
        [(⟨['a'], 4, 2, 3, 9, 0⟩ : Target)][j]?) :=
  set_cmdstatus_spec
    { spawn_mode := SPAWN_CHECK, failure_mode := SPAWN_PAUSE,
      reg := { targets := [⟨['a'], 4, 2, 3, 9, 0⟩], type := 4, tcur := 0 } }
    CMD_ERROR ⟨['a'], 4, 2, 3, 9, 0⟩ (by decide) (by decide) (by decide) (by decide)

/-- The verdict of `loop` for a run child that exited, branch by branch of
the code: without an analyzer or with the external script the `ERR` flag is
not read. -/
theorem exit_verdict_exited (env : Env) (name : List Char) (outmode : OutMode)
    (odir : Option (List Char)) (utest : Analyze) (idx : Nat) (kid : Child) (c : Nat)
    (hidx : 1 ≤ idx) (htest : kid.test ≠ 1) (hana : kid.analyzer ≠ 1)
    (hdir : outmode.copy = true → odir ≠ none) :
    ∃ evs, exit_verdict env name outmode odir utest idx kid (.exited c) =
      some (some
        (if kid.execstate = 0 then
          (if env.bset_error c = 0 then CMD_ERROR
           else if utest = ANALYZE_NONE ∨ utest = ANALYZE_RUN then CMD_SUCCESS
           else if utest = ANALYZE_LNRE ∨ utest = ANALYZE_LNPCRE then
             (if kid.output.err = false then CMD_SUCCESS else CMD_ERROR)
           else if env.analyzer_run utest kid.ofile kid.ofname kid.efile kid.efname = 0
             then CMD_SUCCESS
           else CMD_ERROR)
         else CMD_FAILURE), kid, evs) := by
  have hi : idx ≠ 0 := by omega
  have hd : ¬ (outmode.copy = true ∧ odir = none) := fun h => hdir h.1 h.2
  simp only [exit_verdict, if_neg htest, if_neg hana, if_neg hi, if_neg hd]
  by_cases h1 : kid.execstate = 0
  · simp only [if_pos h1]
    by_cases h2 : env.bset_error c = 0
    · simp only [if_pos h2]; exact ⟨_, rfl⟩
    · simp only [if_neg h2]
      by_cases h3 : utest = ANALYZE_NONE ∨ utest = ANALYZE_RUN
      · simp only [if_pos h3]; exact ⟨_, rfl⟩
      · simp only [if_neg h3]
        by_cases h4 : utest = ANALYZE_LNRE ∨ utest = ANALYZE_LNPCRE
        · simp only [if_pos h4]
          by_cases h5 : kid.output.err = false
          · simp only [if_pos h5]; exact ⟨_, rfl⟩
          · simp only [if_neg h5]; exact ⟨_, rfl⟩
        · simp only [if_neg h4]
          by_cases h6 : env.analyzer_run utest kid.ofile kid.ofname kid.efile kid.efname = 0
          · simp only [if_pos h6]; exact ⟨_, rfl⟩
          · simp only [if_neg h6]; exact ⟨_, rfl⟩
  · simp only [if_neg h1]; exact ⟨_, rfl⟩

/-- C10: for a run or analyzer child (slot `idx >= 1`, not a test) killed by
signal `s`, the verdict handed to `set_cmdstatus` is timeout if `s` is
`SIGALRM`, or if the escalation step `timedout` is positive and `s` is
`SIGTERM` or `SIGKILL`, and error for every other signal, whether or not a
core was dumped. -/
theorem exit_verdict_signaled (env : Env) (name : List Char) (outmode : OutMode)
    (odir : Option (List Char)) (utest : Analyze) (idx : Nat) (kid : Child) (s : Nat)
    (core : Bool) (hidx : 1 ≤ idx) (htest : kid.test = 0) (hs : s ≠ 0) :
    exit_verdict env name outmode odir utest idx kid (.signaled s core) =
      some (some
        (if s = SIGALRM ∨ (kid.timedout > 0 ∧ (s = SIGTERM ∨ s = SIGKILL)) then CMD_TIMEOUT
         else CMD_ERROR), kid, []) := by
  have hi : idx > 0 := by omega
  simp only [exit_verdict, if_neg hs, htest, hi]
  by_cases h : s = SIGALRM ∨ (kid.timedout > 0 ∧ (s = SIGTERM ∨ s = SIGKILL))
  · simp [h]
  · simp [h]

/-- C10 at a concrete slot: `SIGKILL` after the escalation has started, core dumped. -/
theorem exit_verdict_signaled_witness :
    exit_verdict sampleEnv ['a'] sampleKid.output none ANALYZE_NONE 1
        { sampleKid with timedout := 2 } (.signaled SIGKILL true) =
      some (some
        (if SIGKILL = SIGALRM ∨
            (({ sampleKid with timedout := 2 } : Child).timedout > 0 ∧
              (SIGKILL = SIGTERM ∨ SIGKILL = SIGKILL)) then CMD_TIMEOUT
         else CMD_ERROR), { sampleKid with timedout := 2 }, []) :=
  exit_verdict_signaled sampleEnv ['a'] sampleKid.output none ANALYZE_NONE 1
    { sampleKid with timedout := 2 } SIGKILL true (by decide) (by decide) (by decide)

/-! ## Theorems: the test sentinel -/

theorem peek_drop (mem : List Char) (start : Nat) (cur rest : List Char)
    (h : mem.drop start = cur ++ rest) :
    peek mem (start + cur.length) = rest.headD NUL := by
  unfold peek
  rw [List.getD_eq_getElem?_getD, ← List.getElem?_drop, h,
    List.getElem?_append_right (le_refl _)]
  cases rest <;> simp

theorem takeWhile_nul (cur x : List Char) (h : NUL ∉ cur) :
    List.takeWhile (fun c => c != NUL) (cur ++ NUL :: x) = cur := by
  induction cur with
  | nil => simp
  | cons a l ih =>
    have ha : a ≠ NUL := fun e => h (by simp [e])
    have hl : NUL ∉ l := fun e => h (by simp [e])
    have hb : (a != NUL) = true := by simpa using ha
    simp [List.takeWhile, hb, ih hl]

theorem stripCR_concat (L : List Char) (b : Char) :
    stripCR (L ++ [b]) = if b = '\r' then L else L ++ [b] := by
  unfold stripCR
  rw [List.getLast?_concat, List.dropLast_concat]
  by_cases hb : b = '\r' <;> simp [hb]

theorem trim_cstr (mem : List Char) (start : Nat) (cur rest : List Char)
    (hmem : mem.drop start = cur ++ '\n' :: rest) (hnul : NUL ∉ cur) :
    ((cstr (if peek mem (start + cur.length - 1) = '\r'
          then mem.set (start + cur.length - 1) NUL
          else mem.set (start + cur.length) NUL) start = SHMUX_DOT) ↔
        stripCR cur = SHMUX_DOT) ∧
      (if peek mem (start + cur.length - 1) = '\r'
          then mem.set (start + cur.length - 1) NUL
          else mem.set (start + cur.length) NUL).drop (start + cur.length + 1) = rest := by
  have hrest : mem.drop (start + cur.length + 1) = rest := by
    have := congrArg (List.drop (cur.length + 1)) hmem
    rw [List.drop_drop] at this
    rw [← Nat.add_assoc] at this
    rw [this]
    have e : cur ++ '\n' :: rest = (cur ++ ['\n']) ++ rest := by simp
    rw [e]
    have : cur.length + 1 = (cur ++ ['\n']).length := by simp
    rw [this, List.drop_left]
  constructor
  · rcases List.eq_nil_or_concat cur with rfl | ⟨L, b, rfl⟩
    · -- empty line
      simp only [List.length_nil, Nat.add_zero, List.nil_append] at *
      have hs : stripCR [] ≠ SHMUX_DOT := by decide
      simp only [hs, iff_false]
      split
      · rename_i hcr
        have hpos : 0 < start := by
          rcases Nat.eq_zero_or_pos start with h0 | h0
          · subst h0
            have : peek mem 0 = '\n' := by
              have := peek_drop mem 0 [] ('\n' :: rest) (by simpa using hmem)
              simpa using this
            simp [this] at hcr
          · exact h0
        unfold cstr
        rw [List.drop_set_of_lt _ _ (by omega), hmem]
        simp [List.takeWhile, NUL, SHMUX_DOT]
      · unfold cstr
        rw [List.drop_set, if_neg (by omega), hmem]
        simp [List.takeWhile, SHMUX_DOT]
    · -- line with a last byte b
      rw [List.concat_eq_append] at *
      have hL : NUL ∉ L := fun e => hnul (by simp [e])
      have hb : b ≠ NUL := fun e => hnul (by simp [e])
      have hlen : start + (L ++ [b]).length - 1 = start + L.length := by simp
      have hpk : peek mem (start + L.length) = b := by
        have := peek_drop mem start L (b :: '\n' :: rest) (by simpa using hmem)
        simpa using this
      rw [hlen, hpk, stripCR_concat]
      by_cases hcr : b = '\r'
      · simp only [if_pos hcr]
        unfold cstr
        rw [List.drop_set, if_neg (by omega), hmem]
        have : (L ++ [b] ++ '\n' :: rest).set (start + L.length - start) NUL
            = L ++ NUL :: '\n' :: rest := by
          rw [Nat.add_sub_cancel_left, List.append_assoc, List.set_append_right _ _ (le_refl _)]
          simp
        rw [this, takeWhile_nul L _ hL]
      · simp only [if_neg hcr]
        unfold cstr
        rw [List.drop_set, if_neg (by omega), hmem]
        have : (L ++ [b] ++ '\n' :: rest).set (start + (L ++ [b]).length - start) NUL
            = (L ++ [b]) ++ NUL :: rest := by
          rw [Nat.add_sub_cancel_left, List.set_append_right _ _ (le_refl _)]
          simp
        rw [this, takeWhile_nul (L ++ [b]) _ hnul]
  · split
    · rw [List.drop_set_of_lt _ _ (by omega)]; exact hrest
    · rw [List.drop_set_of_lt _ _ (by omega)]; exact hrest

theorem left_set_passed (k : Child) (std : Int) (v : Option (List Char)) :
    (left_set k std v).passed = k.passed := by
  unfold left_set; split <;> rfl

theorem left_set_test (k : Child) (std : Int) (v : Option (List Char)) :
    (left_set k std v).test = k.test := by
  unfold left_set; split <;> rfl

theorem left_set_execstate (k : Child) (std : Int) (v : Option (List Char)) :
    (left_set k std v).execstate = k.execstate := by
  unfold left_set; split <;> rfl

theorem parse_line_test (env : Env) (name : List Char) (analyzer : Analyze) (std : Int)
    (s : Parse) (cur rest : List Char)
    (hmem : s.mem.drop s.start = cur ++ '\n' :: rest) (hnl : s.nl = s.start + cur.length)
    (hnul : NUL ∉ cur) (ht : s.kid.test = 1) (he : s.kid.execstate = 0) :
    ∃ s1, parse_line env name 0 analyzer std s = some s1 ∧
      s1.mem.drop s1.start = rest ∧ s1.nl = s1.start ∧
      s1.kid.test = 1 ∧ s1.kid.execstate = 0 ∧
      s1.kid.passed = passed_step s.kid.passed (std, stripCR cur) ∧ s1.reg = s.reg := by
  have h2 : s.kid.execstate ≠ 2 := by rw [he]; decide
  have h1 : ¬ (s.kid.execstate = 1 ∧
      cstr (if peek s.mem (s.nl - 1) = '\r' then s.mem.set (s.nl - 1) NUL
        else s.mem.set s.nl NUL) s.start = SHMUCK) := by
    rw [he]; simp
  have h0 : s.kid.execstate = 1 ∨ s.kid.execstate = 0 := Or.inr he
  rcases trim_cstr s.mem s.start cur rest hmem hnul with ⟨hiff, hdrop⟩
  rw [← hnl] at hiff hdrop
  simp only [parse_line, if_neg h2, if_neg h1, if_pos h0, parse_general, if_true, ht,
    Option.map_some']
  refine ⟨_, rfl, ?_, rfl, ?_, ?_, ?_, rfl⟩
  · simpa [next_line] using hdrop
  · simp [next_line, left_set_test, ht]
  · simp [next_line, left_set_execstate]
  · simp only [next_line, left_set_passed, passed_step, if_true]
    by_cases hc : stripCR cur = SHMUX_DOT
    · simp [hc, hiff.mpr hc]
    · have : ¬ cstr (if peek s.mem (s.nl - 1) = '\r' then s.mem.set (s.nl - 1) NUL
        else s.mem.set s.nl NUL) s.start = SHMUX_DOT := fun h => hc (hiff.mp h)
      simp [hc, this]

theorem parse_lines_test (env : Env) (name : List Char) (analyzer : Analyze) (std : Int)
    (rest : List Char) :
    ∀ (cur : List Char) (s : Parse) (fuel : Nat),
      s.mem.drop s.start = cur ++ rest → s.nl = s.start + cur.length → NUL ∉ cur →
      s.kid.test = 1 → s.kid.execstate = 0 → NUL ∈ rest → rest.length ≤ fuel →
      ∃ s', parse_lines env name 0 analyzer std fuel s = some s' ∧ s'.start ≤ s'.nl ∧
        s'.kid.test = 1 ∧ s'.kid.execstate = 0 ∧ s'.reg = s.reg ∧
        s'.kid.passed =
          ((chunk_lines cur rest).map (fun l => (std, l))).foldl passed_step s.kid.passed := by
  induction rest with
  | nil =>
    intro cur s fuel _ _ _ _ _ hmem
    simp at hmem
  | cons c rest ih =>
    intro cur s fuel hmem hnl hnul ht he hin hfuel
    have hp : peek s.mem s.nl = c := by
      rw [hnl, peek_drop s.mem s.start cur (c :: rest) hmem]; rfl
    cases fuel with
    | zero => simp at hfuel
    | succ f =>
      have hf : rest.length ≤ f := by simpa using hfuel
      by_cases hc0 : c = NUL
      · exact ⟨s, by simp [parse_lines, hp, hc0], by omega, ht, he, rfl,
          by simp [chunk_lines, hc0]⟩
      · have hin' : NUL ∈ rest := by
          rcases List.mem_cons.mp hin with h | h
          · exact absurd h.symm hc0
          · exact h
        by_cases hcn : c = '\n'
        · subst hcn
          rcases parse_line_test env name analyzer std s cur rest hmem hnl hnul ht he with
            ⟨s1, hs1, hm1, hn1, ht1, he1, hp1, hr1⟩
          rcases ih [] s1 f (by simpa using hm1) (by simpa using hn1) (by simp) ht1 he1
              hin' hf with ⟨s', hs', hle, ht', he', hr', hp'⟩
          refine ⟨s', ?_, hle, ht', he', hr'.trans hr1, ?_⟩
          · simp only [parse_lines, hp, if_neg hc0, hs1]
            simpa using hs'
          · rw [hp', hp1]
            simp [chunk_lines, hc0]
        · have hI : ({ s with nl := s.nl + 1 } : Parse).mem.drop
              ({ s with nl := s.nl + 1 } : Parse).start = (cur ++ [c]) ++ rest := by
            simpa using hmem
          have hnul' : NUL ∉ cur ++ [c] := by
            intro h
            rcases List.mem_append.mp h with h | h
            · exact hnul h
            · simp at h; exact hc0 h.symm
          rcases ih (cur ++ [c]) { s with nl := s.nl + 1 } f hI
              (by simp [hnl]; omega) hnul' ht he hin' hf with
            ⟨s', hs', hle, ht', he', hr', hp'⟩
          refine ⟨s', ?_, hle, ht', he', hr', ?_⟩
          · simp only [parse_lines, hp, if_neg hc0]
            simpa [hcn] using hs'
          · rw [hp']
            simp [chunk_lines, hc0, hcn]

theorem parse_rest_test (env : Env) (name : List Char) (analyzer : Analyze) (std : Int)
    (s : Parse) (hle : s.start ≤ s.nl) :
    ∃ s', parse_rest env name 0 analyzer std s = some s' ∧ s'.kid.test = s.kid.test ∧
      s'.kid.execstate = s.kid.execstate ∧ s'.kid.passed = s.kid.passed ∧ s'.reg = s.reg := by
  unfold parse_rest
  by_cases h : s.start ≠ s.nl
  · have hlt : s.start < s.nl := by omega
    simp only [if_pos h, not_not, hlt, not_true_eq_false, if_false, if_true]
    cases hl : left_get s.kid std with
    | none =>
      exact ⟨_, rfl, by simp [left_set_test], by simp [left_set_execstate],
        by simp [left_set_passed], rfl⟩
    | some l =>
      by_cases hlen : l.length > 1024
      · simp only [if_pos hlen]
        exact ⟨_, rfl, by simp [left_set_test], by simp [left_set_execstate],
          by simp [left_set_passed], rfl⟩
      · simp only [if_neg hlen]
        exact ⟨_, rfl, by simp [left_set_test], by simp [left_set_execstate],
          by simp [left_set_passed], rfl⟩
  · simp only [if_neg h]
    exact ⟨s, rfl, rfl, rfl, rfl, rfl⟩

theorem chunk_lines_nul (buf : List Char) :
    ∀ cur, chunk_lines cur (buf ++ [NUL]) = chunk_lines cur buf := by
  induction buf with
  | nil => intro cur; simp [chunk_lines]
  | cons c rest ih =>
    intro cur
    show chunk_lines cur (c :: (rest ++ [NUL])) = chunk_lines cur (c :: rest)
    simp only [chunk_lines, ih]

theorem parse_child_test (env : Env) (guard : Char) (name : List Char) (verbose_tests : Int)
    (analyzer : Analyze) (kid : Child) (std : Int) (buffer : List Char)
    (reg : Registry) (out : List Ev)
    (hstd : std = 1 ∨ std = 2) (ht : kid.test = 1) (he : kid.execstate = 0) :
    ∃ kid' out', parse_child env guard name 0 verbose_tests analyzer kid std buffer reg out =
        some (kid', reg, out') ∧
      kid'.test = 1 ∧ kid'.execstate = 0 ∧
      kid'.passed =
        ((chunk_lines [] buffer).map (fun l => (std, l))).foldl passed_step kid.passed := by
  rcases parse_lines_test env name analyzer std (buffer ++ [NUL]) []
      { mem := guard :: buffer ++ [NUL], start := 1, nl := 1, kid := kid, reg := reg,
        out := out } (buffer.length + 1) (by simp) (by simp) (by simp) ht he (by simp)
      (by simp) with
    ⟨s1, hs1, hle, ht1, he1, hr1, hp1⟩
  rcases parse_rest_test env name analyzer std s1 hle with ⟨s2, hs2, ht2, he2, hp2, hr2⟩
  refine ⟨s2.kid, s2.out, ?_, ht2.trans ht1, he2.trans he1, ?_⟩
  · simp only [parse_child, if_pos hstd, hs1, hs2, Option.map_some']
    rw [hr2, hr1]
  · rw [hp2, hp1, chunk_lines_nul]

theorem parse_chunks_test (env : Env) (guard : Char) (name : List Char) (verbose_tests : Int)
    (analyzer : Analyze) (cs : Chunks) :
    ∀ (kid : Child) (reg : Registry) (out : List Ev),
      (∀ c ∈ cs, c.1 = 1 ∨ c.1 = 2) → kid.test = 1 → kid.execstate = 0 →
      ∃ kid' out', parse_chunks env guard name 0 verbose_tests analyzer cs kid reg out =
          some (kid', reg, out') ∧
        kid'.test = 1 ∧ kid'.execstate = 0 ∧
        kid'.passed = (read_lines cs).foldl passed_step kid.passed := by
  induction cs with
  | nil =>
    intro kid reg out _ ht he
    exact ⟨kid, out, rfl, ht, he, rfl⟩
  | cons c cs ih =>
    intro kid reg out hstd ht he
    obtain ⟨std, buffer⟩ := c
    rcases parse_child_test env guard name verbose_tests analyzer kid std buffer reg out
        (hstd (std, buffer) (by simp)) ht he with ⟨k1, o1, h1, ht1, he1, hp1⟩
    rcases ih k1 reg o1 (fun c hc => hstd c (by simp [hc])) ht1 he1 with
      ⟨k2, o2, h2, ht2, he2, hp2⟩
    refine ⟨k2, o2, ?_, ht2, he2, ?_⟩
    · simp only [parse_chunks, h1, h2]
    · rw [hp2, hp1, read_lines, List.foldl_append]

theorem passed_step_ne_zero (p : Int) (x : Int × List Char) : passed_step p x ≠ 0 := by
  unfold passed_step; split <;> decide

theorem passed_step_of_ne_zero (p : Int) (x : Int × List Char) (h : p ≠ 0) :
    passed_step p x = -1 := by
  unfold passed_step
  rw [if_neg (fun hc => h hc.2.1)]

theorem foldl_passed_dead (ls : List (Int × List Char)) :
    ls.foldl passed_step (-1) = -1 := by
  induction ls with
  | nil => rfl
  | cons x ls ih =>
    rw [List.foldl_cons, passed_step_of_ne_zero (-1) x (by decide), ih]

theorem foldl_passed_two (x y : Int × List Char) (ls : List (Int × List Char)) :
    (x :: y :: ls).foldl passed_step 0 = -1 := by
  rw [List.foldl_cons, List.foldl_cons,
    passed_step_of_ne_zero _ y (passed_step_ne_zero 0 x), foldl_passed_dead]

theorem passed_step_zero (x : Int × List Char) :
    (passed_step 0 x = 1 ↔ x = (1, SHMUX_DOT)) ∧ (passed_step 0 x = 1 ∨ passed_step 0 x = -1) := by
  obtain ⟨std, l⟩ := x
  by_cases h : l = SHMUX_DOT ∧ (0 : Int) = 0 ∧ std = 1
  · have e : passed_step 0 (std, l) = 1 := by unfold passed_step; exact if_pos h
    rw [e]
    exact ⟨⟨fun _ => by rw [h.1, h.2.2], fun _ => rfl⟩, Or.inl rfl⟩
  · have e : passed_step 0 (std, l) = -1 := by unfold passed_step; exact if_neg h
    rw [e]
    refine ⟨⟨fun hc => absurd hc (by decide), fun hc => ?_⟩, Or.inr rfl⟩
    simp only [Prod.mk.injEq] at hc
    exact absurd ⟨hc.2, rfl, hc.1⟩ h

theorem foldl_passed_zero (ls : List (Int × List Char)) :
    (ls.foldl passed_step 0 = 1 ↔ ls = [(1, SHMUX_DOT)]) ∧
      (ls.foldl passed_step 0 = 0 ↔ ls = []) ∧
      (ls.foldl passed_step 0 = 1 ∨ ls.foldl passed_step 0 = 0 ∨
        ls.foldl passed_step 0 = -1) := by
  match ls with
  | [] => simp
  | [x] =>
    rcases passed_step_zero x with ⟨hiff, hor⟩
    refine ⟨by simpa using hiff, by simpa using passed_step_ne_zero 0 x, ?_⟩
    rcases hor with h | h
    · left; simpa using h
    · right; right; simpa using h
  | x :: y :: ls =>
    rw [foldl_passed_two]
    simp

theorem stream_lines_whole (cs : Chunks) (h : WholeLines cs) :
    stream_lines [] [] cs = read_lines cs := by
  induction cs with
  | nil => rfl
  | cons c cs ih =>
    obtain ⟨std, buf⟩ := c
    have hc : chunk_rest [] buf = [] := h (std, buf) (by simp)
    have hcs : WholeLines cs := fun c hc => h c (by simp [hc])
    simp only [stream_lines, read_lines, hc, ih hcs, ite_self]

/-- C8 as stated fails: the reads `SHM` and `UX.\n` on stdout complete exactly
one line over both streams, it is on stdout and equals `SHMUX.`, yet `passed`
is -1. -/
theorem test_passed_counterexample :
    sampleTest.test = 1 ∧ sampleTest.execstate = 0 ∧ sampleTest.passed = 0 ∧
    stream_lines [] [] [(1, ['S', 'H', 'M']), (1, ['U', 'X', '.', '\n'])] =
        [(1, SHMUX_DOT)] ∧
      (parse_chunks sampleEnv 'x' ['a'] 0 0 ANALYZE_NONE
          [(1, ['S', 'H', 'M']), (1, ['U', 'X', '.', '\n'])] sampleTest sampleReg []).map
        (fun r => r.1.passed) = some (-1) := by
  decide

theorem split_sentinel (a b : List Char) (ha : a ≠ []) (hab : a ++ b = SHMUX_DOT) :
    (read_lines [(1, a), (1, b ++ ['\n'])]).foldl passed_step 0 = -1 := by
  have hlen : a.length + b.length = 6 := by
    have := congrArg List.length hab
    simpa [SHMUX_DOT] using this
  have h1 : a = SHMUX_DOT.take a.length := by rw [← hab]; simp
  have h2 : b = SHMUX_DOT.drop a.length := by rw [← hab]; simp
  have hpos : 0 < a.length := List.length_pos.mpr ha
  have hle : a.length ≤ 6 := by omega
  generalize a.length = n at h1 h2 hpos hle
  subst h1 h2
  interval_cases n <;> decide

/-- C8, amended: for a test child whose exec state is ok, fed any sequence of
chunks on stdout and stderr, `parse_child` returns and
* once `passed` is -1 it stays -1;
* when every read delivers whole lines (no read ends inside a line), starting
  from `passed == 0`: `passed == 1` iff exactly one complete line has been
  processed over both streams, on stdout, equal to `SHMUX.` after removal of
  one trailing `\r`; `passed == 0` iff no line was completed; in every other
  case `passed == -1`;
* the sentinel split over two reads is rejected (`passed == -1`);
* the single chunk `SHMUX.\n` on stdout gives `passed == 1`, and the
  finalization then calls `target_result(1)`. -/
theorem test_passed_spec (env : Env) (guard : Char) (name : List Char) (verbose_tests : Int)
    (analyzer : Analyze) (kid : Child) (cs : Chunks) (reg : Registry) (out : List Ev)
    (hstd : ∀ c ∈ cs, c.1 = 1 ∨ c.1 = 2) (ht : kid.test = 1) (he : kid.execstate = 0) :
    ∃ kid' out', parse_chunks env guard name 0 verbose_tests analyzer cs kid reg out =
        some (kid', reg, out') ∧
      (kid.passed = -1 → kid'.passed = -1) ∧
      (kid.passed = 0 → WholeLines cs →
        (kid'.passed = 1 ↔ stream_lines [] [] cs = [(1, SHMUX_DOT)]) ∧
        (kid'.passed = 0 ↔ stream_lines [] [] cs = []) ∧
        (kid'.passed = 1 ∨ kid'.passed = 0 ∨ kid'.passed = -1)) ∧
      (kid.passed = 0 → ∀ a b : List Char, a ≠ [] → a ++ b = SHMUX_DOT →
        cs = [(1, a), (1, b ++ ['\n'])] → kid'.passed = -1) ∧
      (kid.passed = 0 → cs = [(1, SHMUX_DOT ++ ['\n'])] →
        kid'.passed = 1 ∧ result_arg kid' = 1) := by
  rcases parse_chunks_test env guard name verbose_tests analyzer cs kid reg out hstd ht he with
    ⟨kid', out', hrun, ht', he', hp⟩
  refine ⟨kid', out', hrun, ?_, ?_, ?_, ?_⟩
  · intro h
    rw [hp, h, foldl_passed_dead]
  · intro h hw
    rw [hp, h, stream_lines_whole cs hw]
    exact foldl_passed_zero (read_lines cs)
  · intro h a b ha hab hcs
    rw [hp, h, hcs]
    exact split_sentinel a b ha hab
  · intro h hcs
    have h1 : kid'.passed = 1 := by
      rw [hp, h, hcs]; decide
    refine ⟨h1, ?_⟩
    unfold result_arg
    rw [if_neg]
    rintro (hx | ⟨_, hx⟩)
    · exact hx he'
    · exact hx h1

/-- C8 amended, at a concrete child: the single chunk `SHMUX.\n` on stdout. -/
theorem test_passed_spec_witness :
    ∃ kid' out', parse_chunks sampleEnv 'x' ['a'] 0 0 ANALYZE_NONE
        [(1, SHMUX_DOT ++ ['\n'])] sampleTest sampleReg [] = some (kid', sampleReg, out') ∧
      kid'.passed = 1 ∧ result_arg kid' = 1 := by
  obtain ⟨kid', out', hrun, _, _, _, h4⟩ :=
    test_passed_spec sampleEnv 'x' ['a'] 0 ANALYZE_NONE sampleTest
      [(1, SHMUX_DOT ++ ['\n'])] sampleReg [] (by decide) (by decide) (by decide)
  exact ⟨kid', out', hrun, h4 (by decide) rfl⟩

/-! ## Theorems: interrupts and console keys -/

theorem sig_steps_append (a b : List SigStep) :
    ∀ s : SigState, sig_steps (a ++ b) s = (sig_steps a s).bind (sig_steps b) := by
  induction a with
  | nil => intro s; rfl
  | cons st rest ih =>
    intro s
    show sig_steps (st :: (rest ++ b)) s = _
    simp only [sig_steps]
    cases st.run s with
    | none => rfl
    | some s1 => exact ih s1

theorem sig_step_quiet (st : SigStep) (s s1 : SigState) (hq : st.quiet = true)
    (h02 : s.got_sigint = 0 ∨ s.got_sigint = 2) (h : st.run s = some s1) :
    s1.got_sigint = s.got_sigint := by
  cases st with
  | sigint => cases hq
  | notty =>
    simp only [SigStep.run, Option.some.injEq] at h
    rw [← h]
  | switch children =>
    simp only [SigStep.run, Option.some.injEq] at h
    rw [← h]
    rcases h02 with e | e <;> simp [sigint_switch, e]
  | loop x =>
    simp only [SigStep.run, Option.map_eq_some'] at h
    obtain ⟨e, -, h⟩ := h
    rw [← h]

theorem sig_steps_quiet (steps : List SigStep) :
    ∀ s s1 : SigState, steps.all SigStep.quiet = true →
      s.got_sigint = 0 ∨ s.got_sigint = 2 → sig_steps steps s = some s1 →
      s1.got_sigint = s.got_sigint := by
  induction steps with
  | nil =>
    intro s s1 _ _ h
    simp only [sig_steps, Option.some.injEq] at h
    rw [h]
  | cons st rest ih =>
    intro s s1 hq h02 h
    simp only [List.all_cons, Bool.and_eq_true] at hq
    simp only [sig_steps] at h
    cases hr : st.run s with
    | none => simp [hr] at h
    | some s' =>
      simp only [hr] at h
      have e := sig_step_quiet st s s' hq.1 h02 hr
      rw [ih s' s1 hq.2 (by rw [e]; exact h02) h, e]

theorem sig_steps_inner (steps : List SigStep) :
    ∀ s s1 : SigState, steps.all SigStep.inner = true → sig_steps steps s = some s1 →
      s1.got_sigint = s.got_sigint := by
  induction steps with
  | nil =>
    intro s s1 _ h
    simp only [sig_steps, Option.some.injEq] at h
    rw [h]
  | cons st rest ih =>
    intro s s1 hq h
    simp only [List.all_cons, Bool.and_eq_true] at hq
    simp only [sig_steps] at h
    cases hr : st.run s with
    | none => simp [hr] at h
    | some s' =>
      simp only [hr] at h
      have e : s'.got_sigint = s.got_sigint := by
        cases st with
        | sigint => exact absurd hq.1 (by decide)
        | notty =>
          simp only [SigStep.run, Option.some.injEq] at hr
          rw [← hr]
        | switch children => exact absurd hq.1 (by simp [SigStep.inner])
        | loop x =>
          simp only [SigStep.run, Option.map_eq_some'] at hr
          obtain ⟨e, -, hr⟩ := hr
          rw [← hr]
      rw [ih s' s1 hq.2 h, e]

theorem sigint_seen (xs xs' : List SigStep) (kids : List Child) (s s1 : SigState) (g : Int)
    (hg : s.got_sigint = g) (h02 : g = 0 ∨ g = 2)
    (hx : xs.all SigStep.quiet = true) (hx' : xs'.all SigStep.inner = true)
    (h : sig_steps (xs ++ (SigStep.sigint :: xs' ++ [SigStep.switch kids])) s = some s1) :
    s1.got_sigint = (sigint_switch (g + 1) SPAWN_MORE kids).1 ∧
      s1.engine.spawn_mode = (sigint_switch (g + 1) SPAWN_MORE kids).2.1 := by
  rw [sig_steps_append] at h
  cases ha : sig_steps xs s with
  | none => simp [ha] at h
  | some sa =>
    simp only [ha, Option.some_bind] at h
    have ea := sig_steps_quiet xs s sa hx (by rw [hg]; exact h02) ha
    have hcons : sig_steps (SigStep.sigint :: xs' ++ [SigStep.switch kids]) sa =
        sig_steps (xs' ++ [SigStep.switch kids])
          { sa with got_sigint := shmux_sigint sa.got_sigint } := rfl
    rw [hcons, sig_steps_append] at h
    cases hb : sig_steps xs' { sa with got_sigint := shmux_sigint sa.got_sigint } with
    | none => simp [hb] at h
    | some sb =>
      simp only [hb, Option.some_bind] at h
      have eb := sig_steps_inner xs' _ sb hx' hb
      simp only [shmux_sigint, ea, hg] at eb
      simp only [sig_steps, SigStep.run, Option.some.injEq] at h
      rw [← h]
      simp only [eb]
      rcases h02 with e | e <;> subst e <;> simp [sigint_switch]

/-- C17 as stated fails: from `got_sigint == 0`, the switch that sees the first
SIGINT leaves the counter at 2 and the spawn mode at `QUIT`, and the switch
that sees the second SIGINT already puts the engine in `ABORT`. -/
theorem sigint_counterexample :
    (sig_steps [SigStep.sigint, SigStep.switch []] ⟨0, sampleEngine, []⟩).map
        (fun s => (s.got_sigint, s.engine.spawn_mode)) = some (2, SPAWN_QUIT) ∧
      (sig_steps [SigStep.sigint, SigStep.switch [], SigStep.sigint, SigStep.switch []]
        ⟨0, sampleEngine, []⟩).map
        (fun s => (s.got_sigint, s.engine.spawn_mode)) = some (3, SPAWN_ABORT) ∧
      SPAWN_ABORT ≠ SPAWN_QUIT := by
  decide

/-- C17, amended: from `got_sigint == 0`, with SIGINTs delivered one at a time
(each seen by the switch of a separate loop iteration), whatever key presses,
spawns and finalizations the loop goes through before, between and after them
(`xs`, `ys`: steps without a SIGINT; `xs'`, `ys'`: steps between the delivery
and the switch that sees it), the switch that sees the first SIGINT puts the
engine in spawn mode `QUIT` and the switch that sees the second SIGINT puts it
in `ABORT`. -/
theorem sigint_two_steps (xs xs' ys ys' : List SigStep) (kids1 kids2 : List Child)
    (s0 s1 s2 : SigState) (h0 : s0.got_sigint = 0)
    (hx : xs.all SigStep.quiet = true) (hx' : xs'.all SigStep.inner = true)
    (hy : ys.all SigStep.quiet = true) (hy' : ys'.all SigStep.inner = true)
    (h1 : sig_steps (xs ++ (SigStep.sigint :: xs' ++ [SigStep.switch kids1])) s0 = some s1)
    (h2 : sig_steps (ys ++ (SigStep.sigint :: ys' ++ [SigStep.switch kids2])) s1 = some s2) :
    s1.engine.spawn_mode = SPAWN_QUIT ∧ s2.engine.spawn_mode = SPAWN_ABORT := by
  have e1 := sigint_seen xs xs' kids1 s0 s1 0 h0 (Or.inl rfl) hx hx' h1
  have hc1 : s1.got_sigint = 2 := by
    rw [e1.1]; simp [sigint_switch]
  have e2 := sigint_seen ys ys' kids2 s1 s2 2 hc1 (Or.inr rfl) hy hy' h2
  refine ⟨?_, ?_⟩
  · rw [e1.2]; simp [sigint_switch]
  · rw [e2.2]; simp [sigint_switch]

/-- C17 amended, at a concrete run: the first SIGINT is seen while the child
with process id 5 is alive, the operator then presses the space bar (mode
`PAUSE`), and the second SIGINT is seen. -/
theorem sigint_two_steps_witness :
    sig_steps ([] ++ (SigStep.sigint :: [] ++ [SigStep.switch [sampleKid]]))
        ⟨0, sampleEngine, []⟩ =
      some ⟨2, { sampleEngine with spawn_mode := SPAWN_QUIT }, [(-5, SIGINT)]⟩ ∧
    sig_steps ([SigStep.loop (LoopStep.key ' ')] ++
        (SigStep.sigint :: [] ++ [SigStep.switch [sampleKid]]))
        ⟨2, { sampleEngine with spawn_mode := SPAWN_QUIT }, [(-5, SIGINT)]⟩ =
      some ⟨3, { sampleEngine with spawn_mode := SPAWN_ABORT }, [(-5, SIGINT)]⟩ ∧
    ({ sampleEngine with spawn_mode := SPAWN_QUIT } : Engine).spawn_mode = SPAWN_QUIT ∧
    ({ sampleEngine with spawn_mode := SPAWN_ABORT } : Engine).spawn_mode = SPAWN_ABORT :=
  have h1 : sig_steps ([] ++ (SigStep.sigint :: [] ++ [SigStep.switch [sampleKid]]))
      ⟨0, sampleEngine, []⟩ =
      some ⟨2, { sampleEngine with spawn_mode := SPAWN_QUIT }, [(-5, SIGINT)]⟩ := by decide
  have h2 : sig_steps ([SigStep.loop (LoopStep.key ' ')] ++
      (SigStep.sigint :: [] ++ [SigStep.switch [sampleKid]]))
      ⟨2, { sampleEngine with spawn_mode := SPAWN_QUIT }, [(-5, SIGINT)]⟩ =
      some ⟨3, { sampleEngine with spawn_mode := SPAWN_ABORT }, [(-5, SIGINT)]⟩ := by decide
  have h := sigint_two_steps [] [] [SigStep.loop (LoopStep.key ' ')] [] [sampleKid] [sampleKid]
    ⟨0, sampleEngine, []⟩ _ _ rfl (by decide) (by decide) (by decide) (by decide) h1 h2
  ⟨h1, h2, h.1, h.2⟩

/-- C19 as stated fails: in spawn mode `NONE` the key `1` leaves the mode at `NONE`. -/
theorem key_one_counterexample :
    parse_user '1' SPAWN_NONE SPAWN_PAUSE = (SPAWN_NONE, SPAWN_PAUSE) ∧
      SPAWN_NONE ≠ SPAWN_ONE := by
  decide

/-- C19, amended: for every prior spawn mode other than `NONE`, handling the
console key `1` leaves the spawn mode equal to `ONE`; in mode `NONE` the mode
stays `NONE`; the failure mode is unchanged in both cases. -/
theorem key_one_spec (mode fail : Int) :
    (mode ≠ SPAWN_NONE → parse_user '1' mode fail = (SPAWN_ONE, fail)) ∧
      (mode = SPAWN_NONE → parse_user '1' mode fail = (SPAWN_NONE, fail)) := by
  have h : parse_user '1' mode fail =
      (if mode ≠ SPAWN_NONE then SPAWN_ONE else mode, fail) := by
    unfold parse_user
    rw [if_neg (by decide), if_neg (by decide), if_neg (by decide), if_pos rfl]
  constructor
  · intro hm; rw [h, if_pos hm]
  · intro hm; rw [h, if_neg (by simpa using hm), hm]

/-- C19 amended, at concrete modes: the key `1` pressed in mode `CHECK`. -/
theorem key_one_spec_witness :
    parse_user '1' SPAWN_CHECK SPAWN_QUIT = (SPAWN_ONE, SPAWN_QUIT) :=
  (key_one_spec SPAWN_CHECK SPAWN_QUIT).1 (by decide)

theorem key_F (mode fail : Int) :
    parse_user 'F' mode fail =
      (mode, if fail = SPAWN_PAUSE then SPAWN_QUIT else SPAWN_PAUSE) := by
  unfold parse_user
  rw [if_neg (by decide), if_neg (by decide), if_neg (by decide), if_neg (by decide),
    if_neg (by decide), if_neg (by decide), if_pos rfl]

theorem key_F_twice (n : Nat) (mode fail : Int)
    (hf : fail = SPAWN_PAUSE ∨ fail = SPAWN_QUIT) :
    parse_keys (List.replicate (2 * n) 'F') (mode, fail) = (mode, fail) := by
  induction n with
  | zero => rfl
  | succ n ih =>
    have e : 2 * (n + 1) = (2 * n + 1) + 1 := by ring
    rw [e, List.replicate_succ, List.replicate_succ]
    simp only [parse_keys, key_F]
    rcases hf with h | h
    · subst h
      have : (if (if SPAWN_PAUSE = SPAWN_PAUSE then SPAWN_QUIT else SPAWN_PAUSE) = SPAWN_PAUSE
          then SPAWN_QUIT else SPAWN_PAUSE) = SPAWN_PAUSE := by decide
      rw [this]; exact ih
    · subst h
      have : (if (if SPAWN_QUIT = SPAWN_PAUSE then SPAWN_QUIT else SPAWN_PAUSE) = SPAWN_PAUSE
          then SPAWN_QUIT else SPAWN_PAUSE) = SPAWN_QUIT := by decide
      rw [this]; exact ih

/-- C20: for a failure mode in `{PAUSE, QUIT}`, the console key `F` maps
`PAUSE` to `QUIT` and `QUIT` to `PAUSE` and leaves the spawn mode alone; any
even number of `F` presses restores the failure mode (and the spawn mode) it
started from. -/
theorem key_F_toggle (mode fail : Int) (n : Nat)
    (hf : fail = SPAWN_PAUSE ∨ fail = SPAWN_QUIT) :
    (parse_user 'F' mode fail).1 = mode ∧
      (fail = SPAWN_PAUSE → (parse_user 'F' mode fail).2 = SPAWN_QUIT) ∧
      (fail = SPAWN_QUIT → (parse_user 'F' mode fail).2 = SPAWN_PAUSE) ∧
      parse_keys (List.replicate (2 * n) 'F') (mode, fail) = (mode, fail) := by
  refine ⟨by rw [key_F], ?_, ?_, key_F_twice n mode fail hf⟩
  · intro h
    rw [key_F, h]
    show (if SPAWN_PAUSE = SPAWN_PAUSE then SPAWN_QUIT else SPAWN_PAUSE) = SPAWN_QUIT
    decide
  · intro h
    rw [key_F, h]
    show (if SPAWN_QUIT = SPAWN_PAUSE then SPAWN_QUIT else SPAWN_PAUSE) = SPAWN_PAUSE
    decide

/-- C20 at concrete modes: four presses of `F` in mode `CHECK` with failure mode `QUIT`. -/
theorem key_F_toggle_witness :
    (parse_user 'F' SPAWN_CHECK SPAWN_QUIT).1 = SPAWN_CHECK ∧
      (SPAWN_QUIT = SPAWN_PAUSE → (parse_user 'F' SPAWN_CHECK SPAWN_QUIT).2 = SPAWN_QUIT) ∧
      (SPAWN_QUIT = SPAWN_QUIT → (parse_user 'F' SPAWN_CHECK SPAWN_QUIT).2 = SPAWN_PAUSE) ∧
      parse_keys (List.replicate (2 * 2) 'F') (SPAWN_CHECK, SPAWN_QUIT) =
        (SPAWN_CHECK, SPAWN_QUIT) :=
  key_F_toggle SPAWN_CHECK SPAWN_QUIT 2 (Or.inr rfl)

/-! ## Theorems: what output parsing leaves alone -/

theorem slot_fields_left_set (k : Child) (std : Int) (v : Option (List Char)) :
    slot_fields (left_set k std v) = slot_fields k := by
  unfold left_set; split <;> rfl

theorem parse_output_frame (env : Env) (name : List Char) (analyzer : Analyze) (std : Int)
    (s s2 : Parse) (h : parse_output env name analyzer std s = some s2) :
    slot_fields s2.kid = slot_fields s.kid := by
  unfold parse_output at h
  simp only at h
  split at h
  · cases h
  · split at h <;> (simp at h; rw [← h]; rfl)

theorem parse_general_frame (env : Env) (name : List Char) (isfping : Int)
    (analyzer : Analyze) (std : Int) (s s2 : Parse)
    (h : parse_general env name isfping analyzer std s = some s2) :
    slot_fields s2.kid = slot_fields s.kid := by
  unfold parse_general at h
  split at h
  · split at h
    · simp at h; rw [← h]; rfl
    · exact parse_output_frame env name analyzer std s s2 h
  · cases hp : parse_fping (cstr s.mem s.start) s.reg with
    | none => simp [hp] at h
    | some r => simp [hp] at h; rw [← h]

theorem parse_line_frame (env : Env) (name : List Char) (isfping : Int)
    (analyzer : Analyze) (std : Int) (s s2 : Parse)
    (h : parse_line env name isfping analyzer std s = some s2) :
    slot_fields s2.kid = slot_fields s.kid := by
  unfold parse_line at h
  simp only at h
  generalize (if peek s.mem (s.nl - 1) = '\r' then s.mem.set (s.nl - 1) NUL
    else s.mem.set s.nl NUL) = mem1 at h
  by_cases h2 : s.kid.execstate = 2
  · rw [if_pos h2] at h
    simp at h; rw [← h]; rfl
  · rw [if_neg h2] at h
    by_cases h1 : s.kid.execstate = 1 ∧ cstr mem1 s.start = SHMUCK
    · rw [if_pos h1] at h
      simp at h; rw [← h]; rfl
    · rw [if_neg h1] at h
      by_cases h0 : s.kid.execstate = 1 ∨ s.kid.execstate = 0
      · rw [if_pos h0, Option.map_eq_some'] at h
        obtain ⟨s1, h3, h4⟩ := h
        have := parse_general_frame env name isfping analyzer std _ s1 h3
        rw [← h4]
        simp only [next_line, if_true, slot_fields_left_set]
        rw [this]; rfl
      · rw [if_neg h0] at h
        cases h

theorem parse_lines_frame (env : Env) (name : List Char) (isfping : Int)
    (analyzer : Analyze) (std : Int) (fuel : Nat) :
    ∀ (s s2 : Parse), parse_lines env name isfping analyzer std fuel s = some s2 →
      slot_fields s2.kid = slot_fields s.kid := by
  induction fuel with
  | zero => intro s s2 h; simp [parse_lines] at h
  | succ f ih =>
    intro s s2 h
    simp only [parse_lines] at h
    by_cases hz : peek s.mem s.nl = NUL
    · rw [if_pos hz] at h
      simp at h; rw [h]
    · rw [if_neg hz] at h
      by_cases hn : peek s.mem s.nl ≠ '\n'
      · rw [if_pos hn] at h
        exact ih { s with nl := s.nl + 1 } s2 h
      · rw [if_neg hn] at h
        cases h1 : parse_line env name isfping analyzer std s with
        | none => simp [h1] at h
        | some s1 =>
          simp only [h1] at h
          rw [ih _ _ h, parse_line_frame env name isfping analyzer std s s1 h1]

theorem parse_rest_frame (env : Env) (name : List Char) (isfping : Int)
    (analyzer : Analyze) (std : Int) (s s2 : Parse)
    (h : parse_rest env name isfping analyzer std s = some s2) :
    slot_fields s2.kid = slot_fields s.kid := by
  unfold parse_rest at h
  split at h
  · split at h
    · cases h
    · split at h
      · simp only at h
        split at h
        · simp at h; rw [← h]; exact slot_fields_left_set _ _ _
        · split at h
          · simp at h; rw [← h]
            simp only [slot_fields_left_set]
            rfl
          · simp at h; rw [← h]; exact slot_fields_left_set _ _ _
      · split at h
        · simp at h; rw [h]
        · cases h
  · simp at h; rw [h]

theorem parse_child_frame (env : Env) (guard : Char) (name : List Char)
    (isfping verbose_tests : Int) (analyzer : Analyze) (kid : Child) (std : Int)
    (buffer : List Char) (reg : Registry) (out : List Ev)
    (r : Child × Registry × List Ev)
    (h : parse_child env guard name isfping verbose_tests analyzer kid std buffer reg out =
      some r) :
    slot_fields r.1 = slot_fields kid := by
  unfold parse_child at h
  split at h
  · simp only at h
    split at h
    · cases h
    · rename_i s1 h1
      rw [Option.map_eq_some'] at h
      obtain ⟨s2, h2, h3⟩ := h
      rw [← h3]
      rw [parse_rest_frame env name isfping analyzer std s1 s2 h2,
        parse_lines_frame env name isfping analyzer std _ _ s1 h1]
  · cases h

/-! ## Theorems: timeout escalation -/

theorem slot_fields_timeout (k k' : Child) (h : slot_fields k' = slot_fields k) :
    k'.timeout = k.timeout ∧ k'.timedout = k.timedout := by
  unfold slot_fields at h
  simp only [Prod.mk.injEq] at h
  exact ⟨h.2.2.2.2.1, h.2.2.2.2.2.1⟩

theorem timeout_check_escalation (now now2 : Int) (s : Slot) (r : Child × List Nat)
    (hs : Escalation s) (h : timeout_check now now2 s.kid = some r) :
    Escalation { s with kid := r.1, sent := s.sent ++ r.2 } := by
  unfold timeout_check at h
  by_cases hc : s.kid.timeout ≠ 0 ∧ now > s.kid.timeout
  · rw [if_pos hc] at h
    rcases hs with ⟨h0, hsent⟩ | ⟨h1, hsent⟩ | ⟨_, h2, _⟩
    · rw [if_pos (Or.inl h0), if_pos h0] at h
      simp at h; rw [← h]
      right; left
      exact ⟨by simp [h0], by simp [hsent]⟩
    · have hne : s.kid.timedout ≠ 0 := by rw [h1]; decide
      rw [if_pos (Or.inr h1), if_neg hne] at h
      simp at h; rw [← h]
      right; right
      exact ⟨by simp [h1], rfl, by simp [hsent]⟩
    · exact absurd h2 hc.1
  · rw [if_neg hc] at h
    simp at h; rw [← h]
    simpa using hs

theorem escalation_of_fields (s : Slot) (k : Child) (reg : Registry) (out : List Ev)
    (hs : Escalation s) (hk : k.timeout = s.kid.timeout ∧ k.timedout = s.kid.timedout) :
    Escalation { s with kid := k, reg := reg, out := out } := by
  rcases hk with ⟨h1, h2⟩
  unfold Escalation at *
  simp only [h1, h2]
  exact hs

theorem slot_step_escalation (env : Env) (name : List Char) (isfping verbose_tests : Int)
    (analyzer : Analyze) (st : SlotStep) (s s' : Slot) (hs : Escalation s)
    (h : st.run env name isfping verbose_tests analyzer s = some s') : Escalation s' := by
  cases st with
  | check now now2 =>
    simp only [SlotStep.run, Option.map_eq_some'] at h
    obtain ⟨r, hr, he⟩ := h
    rw [← he]
    exact timeout_check_escalation now now2 s r hs hr
  | chunk guard std buffer =>
    simp only [SlotStep.run, Option.map_eq_some'] at h
    obtain ⟨r, hr, he⟩ := h
    rw [← he]
    exact escalation_of_fields s r.1 r.2.1 r.2.2 hs
      (slot_fields_timeout _ _
        (parse_child_frame env guard name isfping verbose_tests analyzer s.kid std buffer
          s.reg s.out r hr))
  | eof std =>
    simp only [SlotStep.run, Option.some.injEq] at h
    rw [← h]
    have hk : slot_fields (read_eof name std s.kid s.out).1 = slot_fields s.kid := by
      unfold read_eof
      split
      · rfl
      · exact slot_fields_left_set _ _ _
    have := escalation_of_fields s (read_eof name std s.kid s.out).1 s.reg
      (read_eof name std s.kid s.out).2 hs (slot_fields_timeout _ _ hk)
    simpa using this
  | stopped =>
    simp only [SlotStep.run, Option.some.injEq] at h
    rw [← h]
    exact escalation_of_fields s _ s.reg s.out hs ⟨rfl, rfl⟩
  | save status =>
    simp only [SlotStep.run, Option.some.injEq] at h
    rw [← h]
    exact escalation_of_fields s _ s.reg s.out hs ⟨rfl, rfl⟩
  | orphan status now now2 =>
    simp only [SlotStep.run] at h
    split at h
    · simp only [Option.some.injEq] at h
      rw [← h]
      exact escalation_of_fields s _ s.reg s.out hs ⟨rfl, rfl⟩
    · simp only [Option.some.injEq] at h
      rw [← h]; exact hs

theorem slot_steps_escalation (env : Env) (name : List Char) (isfping verbose_tests : Int)
    (analyzer : Analyze) (steps : List SlotStep) :
    ∀ (s s' : Slot), Escalation s →
      slot_steps env name isfping verbose_tests analyzer steps s = some s' →
      Escalation s' := by
  induction steps with
  | nil => intro s s' hs h; simp [slot_steps] at h; rw [← h]; exact hs
  | cons st rest ih =>
    intro s s' hs h
    simp only [slot_steps] at h
    cases h1 : st.run env name isfping verbose_tests analyzer s with
    | none => simp [h1] at h
    | some s1 =>
      simp only [h1] at h
      exact ih s1 s' (slot_step_escalation env name isfping verbose_tests analyzer st s s1
        hs h1) h

/-- C16: the deadline test is a two-step machine on `(timeout, timedout)`: with
the deadline set and `now > deadline`, step 0 sends `SIGTERM`, sets the
deadline to the current time plus 5 and the step to 1, and step 1 sends
`SIGKILL`, clears the deadline and sets the step to 2.  In every slot state
reached from a child whose step is 0 (as `init_child` leaves it) the step is
0, 1 or 2, the signals sent are none, `SIGTERM`, or `SIGTERM` then `SIGKILL`,
and the assertion of the deadline test holds whatever the clock shows. -/
theorem timeout_escalation (env : Env) (name : List Char) (isfping verbose_tests : Int)
    (analyzer : Analyze) (kid : Child) (reg : Registry) (out : List Ev)
    (steps : List SlotStep) (s : Slot) (h0 : kid.timedout = 0)
    (hrun : slot_steps env name isfping verbose_tests analyzer steps
      { kid := kid, reg := reg, out := out, sent := [] } = some s) :
    (s.kid.timedout = 0 ∨ s.kid.timedout = 1 ∨ s.kid.timedout = 2) ∧
      (s.sent = [] ∨ s.sent = [SIGTERM] ∨ s.sent = [SIGTERM, SIGKILL]) ∧
      (∀ now now2 : Int, timeout_check now now2 s.kid ≠ none) ∧
      (∀ now now2 : Int, s.kid.timeout ≠ 0 → now > s.kid.timeout →
        (s.kid.timedout = 0 → timeout_check now now2 s.kid =
          some ({ s.kid with timeout := now2 + 5, timedout := 1 }, [SIGTERM])) ∧
        (s.kid.timedout = 1 → timeout_check now now2 s.kid =
          some ({ s.kid with timeout := 0, timedout := 2 }, [SIGKILL]))) ∧
      (∀ (r : Registry) (k k' : Child), init_child r k = some k' →
        k'.timedout = 0 ∧ k'.timeout = 0) := by
  have hs : Escalation s :=
    slot_steps_escalation env name isfping verbose_tests analyzer steps _ s
      (Or.inl ⟨h0, rfl⟩) hrun
  refine ⟨?_, ?_, ?_, ?_, ?_⟩
  · rcases hs with ⟨h, _⟩ | ⟨h, _⟩ | ⟨h, _, _⟩
    · exact Or.inl h
    · exact Or.inr (Or.inl h)
    · exact Or.inr (Or.inr h)
  · rcases hs with ⟨_, h⟩ | ⟨_, h⟩ | ⟨_, _, h⟩
    · exact Or.inl h
    · exact Or.inr (Or.inl h)
    · exact Or.inr (Or.inr h)
  · intro now now2
    unfold timeout_check
    by_cases hc : s.kid.timeout ≠ 0 ∧ now > s.kid.timeout
    · rw [if_pos hc]
      rcases hs with ⟨h, _⟩ | ⟨h, _⟩ | ⟨_, h, _⟩
      · rw [if_pos (Or.inl h), if_pos h]; simp
      · rw [if_pos (Or.inr h), if_neg (by rw [h]; decide)]; simp
      · exact absurd h hc.1
    · rw [if_neg hc]; simp
  · intro now now2 hne hgt
    have hc : s.kid.timeout ≠ 0 ∧ now > s.kid.timeout := ⟨hne, hgt⟩
    constructor
    · intro h
      unfold timeout_check
      rw [if_pos hc, if_pos (Or.inl h), if_pos h, h]
      rfl
    · intro h
      unfold timeout_check
      rw [if_pos hc, if_pos (Or.inr h), if_neg (by rw [h]; decide), h]
      rfl
  · intro r k k' h
    unfold init_child at h
    split at h
    · cases h
    · simp at h; rw [← h]; exact ⟨rfl, rfl⟩

/-- C16 at a concrete slot: a run child with deadline 100; the clock passes it
twice, with a chunk of output in between. -/
theorem timeout_escalation_witness :
    slot_steps sampleEnv ['a'] 0 0 ANALYZE_NONE
        [.check 90 90, .check 101 101, .chunk 'x' 1 ['h', 'i', '\n'], .check 107 107,
          .check 200 200]
        { kid := { sampleKid with timeout := 100 }, reg := sampleReg, out := [], sent := [] } =
      some { kid := { sampleKid with timeout := 0, timedout := 2 }, reg := sampleReg,
             out := [Ev.tprint ['a'] MSG_STDOUT ['h', 'i']], sent := [SIGTERM, SIGKILL] } ∧
    ((2 : Int) = 0 ∨ (2 : Int) = 1 ∨ (2 : Int) = 2) :=
  ⟨by decide,
    (timeout_escalation sampleEnv ['a'] 0 0 ANALYZE_NONE { sampleKid with timeout := 100 }
      sampleReg []
      [.check 90 90, .check 101 101, .chunk 'x' 1 ['h', 'i', '\n'], .check 107 107,
        .check 200 200]
      { kid := { sampleKid with timeout := 0, timedout := 2 }, reg := sampleReg,
        out := [Ev.tprint ['a'] MSG_STDOUT ['h', 'i']], sent := [SIGTERM, SIGKILL] }
      (by decide) (by decide)).1⟩

/-! ## Theorems: ping answers -/

theorem pong_scan_spec (host : List Char) (ts : List Target) (k : Int) :
    (∃ (i : Nat) (t : Target), pong_scan (some host) ts k = k + (i : Int) ∧
        ts[i]? = some t ∧ PongMatch host t ∧
        ∀ j : Nat, j < i → ∀ u, ts[j]? = some u → ¬ PongMatch host u) ∨
    (pong_scan (some host) ts k = k + (ts.length : Int) ∧ ∀ u ∈ ts, ¬ PongMatch host u) := by
  induction ts generalizing k with
  | nil => right; simp [pong_scan]
  | cons t rest ih =>
    by_cases h : PongMatch host t
    · left
      refine ⟨0, t, ?_, by simp, h, fun j hj => by omega⟩
      have h1 : ¬ t.phase ≠ 1 := by simp [h.1]
      have h2 : ¬ t.status ≠ 0 := by simp [h.2.1]
      simp only [pong_scan, if_neg h1, if_neg h2, h.2.2, if_true]
      simp
    · have e : pong_scan (some host) (t :: rest) k = pong_scan (some host) rest (k + 1) := by
        simp only [pong_scan]
        by_cases h1 : t.phase ≠ 1
        · rw [if_pos h1]
        · rw [if_neg h1]
          by_cases h2 : t.status ≠ 0
          · rw [if_pos h2]
          · rw [if_neg h2]
            have h3 : ¬ strcasecmp_eq (hname t.name) host = true := fun h3 =>
              h ⟨by simpa using h1, by simpa using h2, h3⟩
            simp [h3]
      rw [e]
      rcases ih (k + 1) with ⟨i, u, hi, hu, hm, hl⟩ | ⟨hlen, hall⟩
      · left
        refine ⟨i + 1, u, ?_, by simpa using hu, hm, ?_⟩
        · rw [hi]; push_cast; ring
        · intro j hj v hv
          cases j with
          | zero => simp at hv; subst hv; exact h
          | succ j => exact hl j (by omega) v (by simpa using hv)
      · right
        refine ⟨?_, ?_⟩
        · rw [hlen]; simp only [List.length_cons]; push_cast; ring
        · intro v hv
          rcases List.mem_cons.mp hv with rfl | hv
          · exact h
          · exact hall v hv

theorem setbyhname_scan_none (host : List Char) (ts : List Target) (k : Int)
    (h : ∀ t ∈ ts, strcasecmp_eq (hname t.name) host = false) :
    setbyhname_scan host ts k = k + (ts.length : Int) := by
  induction ts generalizing k with
  | nil => simp [setbyhname_scan]
  | cons t rest ih =>
    have ht : strcasecmp_eq (hname t.name) host = false := h t (by simp)
    simp only [setbyhname_scan, ht]
    rw [if_neg (by simp), ih (k + 1) (fun u hu => h u (by simp [hu]))]
    simp only [List.length_cons]; push_cast; ring

theorem split_at_space (host remainder : List Char) (hhost : ' ' ∉ host) :
    (host ++ ' ' :: remainder).dropWhile (fun c => c != ' ') = ' ' :: remainder ∧
      (host ++ ' ' :: remainder).takeWhile (fun c => c != ' ') = host := by
  induction host with
  | nil => simp [List.dropWhile, List.takeWhile]
  | cons a l ih =>
    have ha : a ≠ ' ' := fun e => hhost (by simp [e])
    have hl : ' ' ∉ l := fun e => hhost (by simp [e])
    have hb : (a != ' ') = true := by simpa using ha
    rcases ih hl with ⟨h1, h2⟩
    constructor
    · show List.dropWhile (fun c => c != ' ') (a :: (l ++ ' ' :: remainder)) = _
      simp only [List.dropWhile, hb]; exact h1
    · show List.takeWhile (fun c => c != ' ') (a :: (l ++ ' ' :: remainder)) = _
      simp only [List.takeWhile, hb]; rw [h2]

theorem no_space (line : List Char) (h : ' ' ∉ line) :
    line.dropWhile (fun c => c != ' ') = [] := by
  induction line with
  | nil => rfl
  | cons a l ih =>
    have ha : a ≠ ' ' := fun e => h (by simp [e])
    have hb : (a != ' ') = true := by simpa using ha
    simp only [List.dropWhile, hb]
    exact ih (fun e => h (by simp [e]))

/-- C18: for a ping output line `<host> <remainder>`, `<host>` being the text
before the first space: when some target is being pinged (phase 1, status 0)
under that host name (compared without regard to case with the name after an
optional `user@`), the lowest-indexed such target gets status 1 if the
remainder is exactly `is alive`, and otherwise status -1 with result failure,
and no other target changes; when the host matches no target's host part, or
the line has no space, no target changes. -/
theorem parse_fping_spec (reg : Registry) (host remainder : List Char) (hhost : ' ' ∉ host) :
    (∀ (i : Nat) (t : Target), LeastPinged reg host i t →
      (remainder = IS_ALIVE → t.result ≠ CMD_ERROR) →
      ∃ reg' t', parse_fping (host ++ ' ' :: remainder) reg = some reg' ∧
        reg'.targets[i]? = some t' ∧ t'.phase = 1 ∧
        (remainder = IS_ALIVE → t'.status = 1 ∧ t'.result = t.result) ∧
        (remainder ≠ IS_ALIVE → t'.status = -1 ∧ t'.result = CMD_FAILURE) ∧
        (∀ j : Nat, j ≠ i → reg'.targets[j]? = reg.targets[j]?)) ∧
      ((∀ t ∈ reg.targets, strcasecmp_eq (hname t.name) host = false) →
        ∃ reg', parse_fping (host ++ ' ' :: remainder) reg = some reg' ∧
          reg'.targets = reg.targets) ∧
      (∀ line : List Char, ' ' ∉ line → parse_fping line reg = some reg) := by
  rcases split_at_space host remainder hhost with ⟨hd, ht⟩
  refine ⟨?_, ?_, ?_⟩
  · intro i t ⟨hget, hmatch, hleast⟩ hres
    have hlt : i < reg.targets.length := (List.getElem?_eq_some.mp hget).1
    have hscan : pong_scan (some host) reg.targets 0 = (i : Int) := by
      rcases pong_scan_spec host reg.targets 0 with ⟨k, u, hk, hu, hm, hl⟩ | ⟨_, hall⟩
      · rcases Nat.lt_trichotomy i k with h | h | h
        · exact absurd hmatch (hl i h t hget)
        · rw [hk, h]; simp
        · exact absurd hm (hleast k h u hu)
      · exact absurd hmatch (hall t (List.mem_iff_getElem?.mpr ⟨i, hget⟩))
    have hpong : target_pong (some host) reg = ({ reg with tcur := (i : Int) }, 0) := by
      simp only [target_pong, hscan, tmax]
      rw [if_neg (by omega)]
    have hcur : current { reg with tcur := (i : Int) } = some t := by
      simp [current, hget]
    have hassert : -1 ≤ t.status ∧ t.status < 4 ∧ 0 < t.phase ∧ t.phase ≤ 4 := by
      rw [hmatch.1, hmatch.2.1]; decide
    have hother : ∀ (t' : Target) (j : Nat), j ≠ i →
        (setcurrent { reg with tcur := (i : Int) } t').targets[j]? = reg.targets[j]? := by
      intro t' j hj
      have := setcurrent_other { reg with tcur := (i : Int) } t' j (by simpa using hj)
        (by simp)
      simpa using this
    have hself : ∀ t' : Target,
        (setcurrent { reg with tcur := (i : Int) } t').targets[i]? = some t' := by
      intro t'
      simp [setcurrent, List.getElem?_set_self hlt]
    by_cases hal : remainder = IS_ALIVE
    · have hne := hres hal
      refine ⟨setcurrent { reg with tcur := (i : Int) } { t with status := t.phase },
        { t with status := t.phase }, ?_, hself _, hmatch.1, fun _ => ⟨hmatch.1, rfl⟩,
        fun h => absurd hal h, hother _⟩
      simp only [parse_fping, hd, ht, hpong]
      simp [hal, target_result, hcur, hassert, hne]
    · refine ⟨setcurrent { reg with tcur := (i : Int) }
          { t with status := -1, result := CMD_FAILURE },
        { t with status := -1, result := CMD_FAILURE }, ?_, hself _, hmatch.1,
        fun h => absurd h hal, fun _ => ⟨rfl, rfl⟩, hother _⟩
      simp only [parse_fping, hd, ht, hpong]
      simp [hal, target_result, hcur, hassert]
  · intro hnone
    have hnm : ∀ u ∈ reg.targets, ¬ PongMatch host u := by
      intro u hu hm
      have := hnone u hu
      rw [hm.2.2] at this
      cases this
    have hscan : pong_scan (some host) reg.targets 0 = (reg.targets.length : Int) := by
      rcases pong_scan_spec host reg.targets 0 with ⟨k, u, _, hu, hm, _⟩ | ⟨hlen, _⟩
      · exact absurd hm (hnm u (List.mem_iff_getElem?.mpr ⟨k, hu⟩))
      · simpa using hlen
    have hpong : target_pong (some host) reg =
        ({ reg with tcur := (reg.targets.length : Int) }, -1) := by
      simp only [target_pong, hscan, tmax]
      rw [if_pos (by omega)]
    have hset : target_setbyhname host { reg with tcur := (reg.targets.length : Int) } =
        ({ reg with tcur := (reg.targets.length : Int) }, -1) := by
      simp only [target_setbyhname, setbyhname_scan_none host reg.targets 0 hnone, tmax]
      rw [if_pos (by simp)]
      simp
    refine ⟨{ reg with tcur := (reg.targets.length : Int) }, ?_, rfl⟩
    simp only [parse_fping, hd, ht, hpong]
    simp [hset]
  · intro line hline
    simp only [parse_fping, no_space line hline]

/-- C18 at a concrete registry: the answer `host is alive` for the target `u@Host`. -/
theorem parse_fping_spec_witness :
    ∃ reg' t', parse_fping (['h', 'o', 's', 't'] ++ ' ' :: IS_ALIVE) samplePing = some reg' ∧
      reg'.targets[0]? = some t' ∧ t'.phase = 1 ∧ t'.status = 1 ∧
      reg'.targets[1]? = samplePing.targets[1]? := by
  obtain ⟨reg', t', h1, h2, h3, h4, _, h6⟩ :=
    (parse_fping_spec samplePing ['h', 'o', 's', 't'] IS_ALIVE (by decide)).1 0
      ⟨['u', '@', 'H', 'o', 's', 't'], 4, 0, 1, 0, 0⟩
      ⟨rfl, by decide, fun j hj => absurd hj (Nat.not_lt_zero j)⟩ (fun _ => by decide)
  exact ⟨reg', t', h1, h2, h3, (h4 rfl).1, h6 1 (by decide)⟩

/-! ## Theorems: output files and the residue -/

/-- C13 fails on the code: for the chunk `ab\r\ncd\n` on stdout the file must
receive `ab\r\ncd\n`; `parse_child` restores the `\r` without a terminator
behind it, so the first write runs to the end of the buffer and the file
receives `ab\r\ncd\n`, a newline, and `cd\n` once more. -/
theorem file_write_bug :
    (parse_child sampleEnv 'x' ['a'] 0 0 ANALYZE_NONE sampleFiles 1
        ['a', 'b', '\r', '\n', 'c', 'd', '\n'] sampleReg []).map
        (fun r => file_bytes 7 r.2.2) =
      some ['a', 'b', '\r', '\n', 'c', 'd', '\n', '\n', 'c', 'd', '\n'] ∧
    (parse_child sampleEnv 'x' ['a'] 0 0 ANALYZE_NONE sampleFiles 1
        ['a', 'b', '\r', '\n'] sampleReg []).map (fun r => file_bytes 7 r.2.2) =
      some ['a', 'b', '\r', '\n', '\n'] ∧
    (parse_child sampleEnv 'x' ['a'] 0 0 ANALYZE_NONE sampleFiles 1
        ['a', 'b', '\n', 'c', 'd', '\n'] sampleReg []).map (fun r => file_bytes 7 r.2.2) =
      some ['a', 'b', '\n', 'c', 'd', '\n'] := by
  decide

/-- C14 fails on the code: with the residue `abc` stored and the unterminated
chunk `0123456789`, the residue must become `abc0123456789`; the copy of the
fragment is bounded by `sizeof(char *)` (8 here), so it becomes `abc0123456`.
Without a stored residue the fragment is kept whole. -/
theorem residue_append_bug :
    (parse_child sampleEnv 'x' ['a'] 0 0 ANALYZE_NONE
        { sampleKid with obuf := some ['a', 'b', 'c'] } 1
        ['0', '1', '2', '3', '4', '5', '6', '7', '8', '9'] sampleReg []).map
        (fun r => r.1.obuf) =
      some (some ['a', 'b', 'c', '0', '1', '2', '3', '4', '5', '6']) ∧
    (parse_child sampleEnv 'x' ['a'] 0 0 ANALYZE_NONE sampleKid 1
        ['0', '1', '2', '3', '4', '5', '6', '7', '8', '9'] sampleReg []).map
        (fun r => r.1.obuf) =
      some (some ['0', '1', '2', '3', '4', '5', '6', '7', '8', '9']) := by
  decide

/-! ## Theorems: `parse_child` line by line -/

theorem screen_append (a b : List Ev) : screen (a ++ b) = screen a ++ screen b := by
  simp [screen]

theorem screen_writes (out : List Ev) (l : Option (List Char)) (fd : Int) (x y : List Char) :
    screen ((match l with
        | some r => out ++ [Ev.write fd r]
        | none => out) ++ [Ev.write fd x, Ev.write fd y]) = screen out := by
  cases l <;> simp [screen, Ev.on_screen]

theorem output_tail_view (s : Parse) (name : List Char) (std : Int) (output : OutMode)
    (out1 evs : List Ev) (str : List Char) (h : screen out1 = screen s.out ++ evs) :
    ∃ s2,
      (if s.kid.ofile ≠ -1 then
        some { s with
          mem := if peek s.mem (s.nl - 1) = NUL then s.mem.set (s.nl - 1) '\r' else s.mem,
          kid := { s.kid with output := output },
          out := (match left_get s.kid std with
            | some l =>
              (if output.mixed = true ∧ output.iferr = false then
                out1 ++ [Ev.tprint name (msg_kind std) str]
              else out1) ++ [Ev.write (file_of s.kid std) l]
            | none =>
              (if output.mixed = true ∧ output.iferr = false then
                out1 ++ [Ev.tprint name (msg_kind std) str]
              else out1)) ++
            [Ev.write (file_of s.kid std)
              (cstr (if peek s.mem (s.nl - 1) = NUL then s.mem.set (s.nl - 1) '\r' else s.mem)
                s.start), Ev.write (file_of s.kid std) ['\n']] }
      else
        some { s with kid := { s.kid with output := output },
                      out := (if output.mixed = true ∧ output.iferr = false then
                        out1 ++ [Ev.tprint name (msg_kind std) str]
                      else out1) }) = some s2 ∧
      left_set s2.kid std none = left_set { s.kid with output := output } std none ∧
      screen s2.out = screen s.out ++
        (if output.mixed = true ∧ output.iferr = false then
          evs ++ [Ev.tprint name (msg_kind std) str]
        else evs) ∧
      s2.start = s.start ∧ s2.nl = s.nl ∧ s2.reg = s.reg ∧
      (s2.mem = s.mem ∨ s2.mem = s.mem.set (s.nl - 1) '\r') := by
  have hs : screen (if output.mixed = true ∧ output.iferr = false then
        out1 ++ [Ev.tprint name (msg_kind std) str] else out1) =
      screen s.out ++ (if output.mixed = true ∧ output.iferr = false then
        evs ++ [Ev.tprint name (msg_kind std) str] else evs) := by
    split
    · rw [screen_append, h]; simp [screen, Ev.on_screen]
    · exact h
  by_cases hf : s.kid.ofile ≠ -1
  · rw [if_pos hf]
    refine ⟨_, rfl, rfl, ?_, rfl, rfl, rfl, ?_⟩
    · rw [← hs]
      exact screen_writes _ _ _ _ _
    · by_cases hp : peek s.mem (s.nl - 1) = NUL
      · right; simp [hp]
      · left; simp [hp]
  · rw [if_neg hf]
    exact ⟨_, rfl, rfl, hs, rfl, rfl, rfl, Or.inl rfl⟩

theorem parse_output_view (env : Env) (name : List Char) (analyzer : Analyze) (std : Int)
    (s : Parse) :
    (line_effect env name analyzer std (cstr s.mem s.start) s.kid = none →
      parse_output env name analyzer std s = none) ∧
    (∀ k evs, line_effect env name analyzer std (cstr s.mem s.start) s.kid = some (k, evs) →
      ∃ s2, parse_output env name analyzer std s = some s2 ∧
        left_set s2.kid std none = k ∧ screen s2.out = screen s.out ++ evs ∧
        s2.start = s.start ∧ s2.nl = s.nl ∧ s2.reg = s.reg ∧
        (s2.mem = s.mem ∨ s2.mem = s.mem.set (s.nl - 1) '\r')) := by
  have hshow : screen (s.out ++
      [Ev.output_show name s.kid.ofile std, Ev.output_show name s.kid.efile std]) =
      screen s.out ++
        [Ev.output_show name s.kid.ofile std, Ev.output_show name s.kid.efile std] := by
    rw [screen_append]; simp [screen, Ev.on_screen]
  have tflip := output_tail_view s name std { s.kid.output with iferr := false, err := true }
    s.out [] ((left_get s.kid std).getD [] ++ cstr s.mem s.start) (List.append_nil _).symm
  have tshow := output_tail_view s name std { s.kid.output with iferr := false, err := true }
    _ _ ((left_get s.kid std).getD [] ++ cstr s.mem s.start) hshow
  have tsame := output_tail_view s name std s.kid.output
    s.out [] ((left_get s.kid std).getD [] ++ cstr s.mem s.start) (List.append_nil _).symm
  unfold line_effect parse_output
  by_cases h1 : s.kid.output.err = false ∧ (analyzer = ANALYZE_LNRE ∨ analyzer = ANALYZE_LNPCRE)
  · by_cases h2 : env.analyzer_lnrun analyzer std
        ((left_get s.kid std).getD [] ++ cstr s.mem s.start) ≠ 0
    · by_cases h3 : s.kid.output.iferr = true ∧ s.kid.output.mixed = true
      · by_cases h4 : s.kid.output.copy = true
        · simp only [if_pos h1, if_pos h2, if_pos h3, if_pos h4]
          refine ⟨by simp, fun k evs hk => ?_⟩
          simp only [Option.some.injEq, Prod.mk.injEq] at hk
          obtain ⟨rfl, rfl⟩ := hk
          simpa using tshow
        · simp only [if_pos h1, if_pos h2, if_pos h3, if_neg h4]
          simp
      · simp only [if_pos h1, if_pos h2, if_neg h3]
        refine ⟨by simp, fun k evs hk => ?_⟩
        simp only [Option.some.injEq, Prod.mk.injEq] at hk
        obtain ⟨rfl, rfl⟩ := hk
        simpa using tflip
    · simp only [if_pos h1, if_neg h2]
      refine ⟨by simp, fun k evs hk => ?_⟩
      simp only [Option.some.injEq, Prod.mk.injEq] at hk
      obtain ⟨rfl, rfl⟩ := hk
      simpa using tsame
  · simp only [if_neg h1]
    refine ⟨by simp, fun k evs hk => ?_⟩
    simp only [Option.some.injEq, Prod.mk.injEq] at hk
    obtain ⟨rfl, rfl⟩ := hk
    simpa using tsame

theorem peek_set_ne (mem : List Char) (i j : Nat) (x : Char) (h : i ≠ j) :
    peek (mem.set i x) j = peek mem j := by
  unfold peek
  rw [List.getD_eq_getElem?_getD, List.getD_eq_getElem?_getD, List.getElem?_set_ne h]

theorem peek_set_self (mem : List Char) (i : Nat) (x : Char) (h : i < mem.length) :
    peek (mem.set i x) i = x := by
  unfold peek
  rw [List.getD_eq_getElem?_getD, List.getElem?_set_self h]
  rfl

theorem length_of_drop (mem : List Char) (start : Nat) (cur rest : List Char) (c : Char)
    (hmem : mem.drop start = cur ++ c :: rest) : start + cur.length < mem.length := by
  have := congrArg List.length hmem
  simp at this
  omega

theorem drop_succ_of_drop (mem : List Char) (start : Nat) (cur rest : List Char) (c : Char)
    (hmem : mem.drop start = cur ++ c :: rest) :
    mem.drop (start + cur.length + 1) = rest := by
  have := congrArg (List.drop (cur.length + 1)) hmem
  rw [List.drop_drop] at this
  rw [← Nat.add_assoc] at this
  rw [this]
  have e : cur ++ c :: rest = (cur ++ [c]) ++ rest := by simp
  rw [e]
  have : cur.length + 1 = (cur ++ [c]).length := by simp
  rw [this, List.drop_left]

theorem trim_line (mem : List Char) (start : Nat) (cur rest : List Char)
    (hmem : mem.drop start = cur ++ '\n' :: rest) (hnul : NUL ∉ cur)
    (hprev : cur = [] → peek mem (start - 1) ≠ '\r') :
    cstr (if peek mem (start + cur.length - 1) = '\r'
          then mem.set (start + cur.length - 1) NUL
          else mem.set (start + cur.length) NUL) start = stripCR cur ∧
      (if peek mem (start + cur.length - 1) = '\r'
          then mem.set (start + cur.length - 1) NUL
          else mem.set (start + cur.length) NUL).drop (start + cur.length + 1) = rest ∧
      (peek (if peek mem (start + cur.length - 1) = '\r'
          then mem.set (start + cur.length - 1) NUL
          else mem.set (start + cur.length) NUL) (start + cur.length) = NUL ∨
       peek (if peek mem (start + cur.length - 1) = '\r'
          then mem.set (start + cur.length - 1) NUL
          else mem.set (start + cur.length) NUL) (start + cur.length) = '\n') := by
  have hrest := drop_succ_of_drop mem start cur rest '\n' hmem
  have hlen := length_of_drop mem start cur rest '\n' hmem
  have hpk : peek mem (start + cur.length) = '\n' := by
    have := peek_drop mem start cur ('\n' :: rest) hmem
    simpa using this
  rcases List.eq_nil_or_concat cur with rfl | ⟨L, b, rfl⟩
  · have hp := hprev rfl
    simp only [List.length_nil, Nat.add_zero, List.nil_append] at *
    rw [if_neg hp]
    refine ⟨?_, ?_, Or.inl (peek_set_self mem start NUL hlen)⟩
    · unfold cstr
      rw [List.drop_set, if_neg (by omega), hmem]
      simp [List.takeWhile, stripCR]
    · rw [List.drop_set_of_lt _ _ (by omega)]; exact hrest
  · rw [List.concat_eq_append] at *
    have hL : NUL ∉ L := fun e => hnul (by simp [e])
    have hlen' : start + (L ++ [b]).length - 1 = start + L.length := by simp
    have hpb : peek mem (start + L.length) = b := by
      have := peek_drop mem start L (b :: '\n' :: rest) (by simpa using hmem)
      simpa using this
    rw [hlen', hpb, stripCR_concat]
    by_cases hcr : b = '\r'
    · simp only [if_pos hcr]
      refine ⟨?_, ?_, Or.inr ?_⟩
      · unfold cstr
        rw [List.drop_set, if_neg (by omega), hmem]
        have : (L ++ [b] ++ '\n' :: rest).set (start + L.length - start) NUL
            = L ++ NUL :: '\n' :: rest := by
          rw [Nat.add_sub_cancel_left, List.append_assoc,
            List.set_append_right _ _ (le_refl _)]
          simp
        rw [this, takeWhile_nul L _ hL]
      · rw [List.drop_set_of_lt _ _ (by simp; omega)]; exact hrest
      · rw [peek_set_ne _ _ _ _ (by simp)]; exact hpk
    · simp only [if_neg hcr]
      refine ⟨?_, ?_, Or.inl (peek_set_self mem _ NUL hlen)⟩
      · unfold cstr
        rw [List.drop_set, if_neg (by omega), hmem]
        have : (L ++ [b] ++ '\n' :: rest).set (start + (L ++ [b]).length - start) NUL
            = (L ++ [b]) ++ NUL :: rest := by
          rw [Nat.add_sub_cancel_left, List.set_append_right _ _ (le_refl _)]
          simp
        rw [this, takeWhile_nul (L ++ [b]) _ hnul]
      · rw [List.drop_set_of_lt _ _ (by omega)]; exact hrest

theorem line_effect_fields (env : Env) (name : List Char) (analyzer : Analyze) (std : Int)
    (line : List Char) (kid k : Child) (evs : List Ev)
    (h : line_effect env name analyzer std line kid = some (k, evs)) :
    k.test = kid.test ∧ k.execstate = kid.execstate ∧ left_get k std = none ∧
      k.ofile = kid.ofile ∧ k.efile = kid.efile := by
  have key : ∀ o : OutMode,
      (left_set { kid with output := o } std none).test = kid.test ∧
      (left_set { kid with output := o } std none).execstate = kid.execstate ∧
      left_get (left_set { kid with output := o } std none) std = none ∧
      (left_set { kid with output := o } std none).ofile = kid.ofile ∧
      (left_set { kid with output := o } std none).efile = kid.efile := by
    intro o
    refine ⟨by simp [left_set_test], by simp [left_set_execstate], ?_, ?_, ?_⟩
    · unfold left_get left_set; split <;> simp [*]
    · unfold left_set; split <;> rfl
    · unfold left_set; split <;> rfl
  unfold line_effect at h
  simp only [] at h
  split_ifs at h <;> simp only [Option.some.injEq, Prod.mk.injEq, reduceCtorEq] at h <;>
    obtain ⟨rfl, -⟩ := h <;> exact key _

theorem execstate_eta (kid : Child) (he : kid.execstate = 0) :
    { kid with execstate := 0 } = kid := by
  cases kid
  simp only at he
  subst he
  rfl

theorem parse_line_eq (env : Env) (name : List Char) (analyzer : Analyze) (std : Int)
    (s : Parse) (ht : s.kid.test ≠ 1) (he : s.kid.execstate = 0) :
    parse_line env name 0 analyzer std s =
      (parse_output env name analyzer std
        { s with mem := if peek s.mem (s.nl - 1) = '\r' then s.mem.set (s.nl - 1) NUL
                        else s.mem.set s.nl NUL }).map (next_line std true) := by
  have h2 : s.kid.execstate ≠ 2 := by rw [he]; decide
  have h1 : ¬ (s.kid.execstate = 1 ∧
      cstr (if peek s.mem (s.nl - 1) = '\r' then s.mem.set (s.nl - 1) NUL
        else s.mem.set s.nl NUL) s.start = SHMUCK) := by
    rw [he]; simp
  have h0 : s.kid.execstate = 1 ∨ s.kid.execstate = 0 := Or.inr he
  simp only [parse_line, if_neg h2, if_neg h1, if_pos h0, parse_general, if_true, if_neg ht,
    execstate_eta s.kid he]

theorem parse_line_view (env : Env) (name : List Char) (analyzer : Analyze) (std : Int)
    (s : Parse) (cur rest : List Char)
    (hmem : s.mem.drop s.start = cur ++ '\n' :: rest) (hnl : s.nl = s.start + cur.length)
    (hnul : NUL ∉ cur) (hstart : 1 ≤ s.start)
    (hprev : cur = [] → peek s.mem (s.start - 1) ≠ '\r')
    (ht : s.kid.test ≠ 1) (he : s.kid.execstate = 0) :
    (line_effect env name analyzer std (stripCR cur) s.kid = none →
        parse_line env name 0 analyzer std s = none) ∧
      (∀ k evs, line_effect env name analyzer std (stripCR cur) s.kid = some (k, evs) →
        ∃ s1, parse_line env name 0 analyzer std s = some s1 ∧ s1.kid = k ∧
          screen s1.out = screen s.out ++ evs ∧ s1.mem.drop s1.start = rest ∧
          s1.nl = s1.start ∧ 1 ≤ s1.start ∧ peek s1.mem (s1.start - 1) ≠ '\r' ∧
          s1.reg = s.reg) := by
  rcases trim_line s.mem s.start cur rest hmem hnul hprev with ⟨hc, hd, hp⟩
  rw [← hnl] at hc hd hp
  rw [parse_line_eq env name analyzer std s ht he]
  generalize hm : (if peek s.mem (s.nl - 1) = '\r' then s.mem.set (s.nl - 1) NUL
    else s.mem.set s.nl NUL) = mem1 at hc hd hp
  have hv := parse_output_view env name analyzer std { s with mem := mem1 }
  simp only [hc] at hv
  refine ⟨fun hn => by rw [hv.1 hn]; rfl, fun k evs hk => ?_⟩
  rcases hv.2 k evs hk with ⟨s2, hs2, hk2, hsc, hst, hnl2, hreg, hmem2⟩
  refine ⟨next_line std true s2, by rw [hs2]; rfl, by simpa [next_line] using hk2,
    by simpa [next_line] using hsc, ?_, by simp [next_line], by simp [next_line], ?_,
    by simpa [next_line] using hreg⟩
  · simp only [next_line, hnl2]
    rcases hmem2 with e | e
    · rw [e]; exact hd
    · rw [e, List.drop_set_of_lt _ _ (by omega)]; exact hd
  · simp only [next_line, hnl2, Nat.add_sub_cancel]
    have hne : peek mem1 s.nl ≠ '\r' := by
      rcases hp with e | e <;> rw [e] <;> decide
    rcases hmem2 with e | e
    · rw [e]; exact hne
    · rw [e, peek_set_ne _ _ _ _ (by omega)]; exact hne


theorem parse_lines_view (env : Env) (name : List Char) (analyzer : Analyze) (std : Int)
    (rest : List Char) :
    ∀ (cur : List Char) (s : Parse) (fuel : Nat),
      s.mem.drop s.start = cur ++ rest → s.nl = s.start + cur.length → NUL ∉ cur →
      1 ≤ s.start →
      (cur = [] → rest.head? = some '\n' → peek s.mem (s.start - 1) ≠ '\r') →
      s.kid.test ≠ 1 → s.kid.execstate = 0 → NUL ∈ rest → rest.length ≤ fuel →
      (lines_effect env name analyzer std (chunk_lines cur rest) s.kid = none →
        parse_lines env name 0 analyzer std fuel s = none) ∧
      (∀ k evs, lines_effect env name analyzer std (chunk_lines cur rest) s.kid = some (k, evs) →
        ∃ s', parse_lines env name 0 analyzer std fuel s = some s' ∧ s'.kid = k ∧
          screen s'.out = screen s.out ++ evs ∧ s'.reg = s.reg ∧
          s'.nl = s'.start + (chunk_rest cur rest).length ∧
          cstr s'.mem s'.start = chunk_rest cur rest) := by
  induction rest with
  | nil =>
    intro cur s fuel _ _ _ _ _ _ _ hin
    simp at hin
  | cons c rest ih =>
    intro cur s fuel hmem hnl hnul hstart hprev ht he hin hfuel
    have hp : peek s.mem s.nl = c := by
      rw [hnl, peek_drop s.mem s.start cur (c :: rest) hmem]; rfl
    cases fuel with
    | zero => simp at hfuel
    | succ f =>
      have hf : rest.length ≤ f := by simpa using hfuel
      by_cases hc0 : c = NUL
      · subst hc0
        have hl : chunk_lines cur (NUL :: rest) = [] := by simp [chunk_lines]
        have hr : chunk_rest cur (NUL :: rest) = cur := by simp [chunk_rest]
        rw [hl, hr]
        refine ⟨fun h => by simp [lines_effect] at h, fun k evs hk => ?_⟩
        simp only [lines_effect, Option.some.injEq, Prod.mk.injEq] at hk
        obtain ⟨rfl, rfl⟩ := hk
        refine ⟨s, by simp [parse_lines, hp], rfl, by simp, rfl, hnl, ?_⟩
        unfold cstr
        rw [hmem, takeWhile_nul cur rest hnul]
      · have hin' : NUL ∈ rest := by
          rcases List.mem_cons.mp hin with h | h
          · exact absurd h.symm hc0
          · exact h
        by_cases hcn : c = '\n'
        · subst hcn
          have hl : chunk_lines cur ('\n' :: rest) = stripCR cur :: chunk_lines [] rest := by
            simp [chunk_lines, hc0]
          have hr : chunk_rest cur ('\n' :: rest) = chunk_rest [] rest := by
            simp [chunk_rest, hc0]
          have hpl : parse_lines env name 0 analyzer std (f + 1) s =
              match parse_line env name 0 analyzer std s with
              | none => none
              | some s1 => parse_lines env name 0 analyzer std f s1 := by
            simp only [parse_lines, hp, if_neg hc0]
            simp
          rcases parse_line_view env name analyzer std s cur rest hmem hnl hnul hstart
              (fun h => hprev h rfl) ht he with ⟨hv1, hv2⟩
          rw [hl, hr, hpl]
          cases hle : line_effect env name analyzer std (stripCR cur) s.kid with
          | none =>
            rw [hv1 hle]
            exact ⟨fun _ => rfl, fun k evs hk => by simp [lines_effect, hle] at hk⟩
          | some r =>
            obtain ⟨k1, e1⟩ := r
            rcases hv2 k1 e1 hle with ⟨s1, hs1, hk1, hsc1, hm1, hn1, hst1, hpk1, hr1⟩
            rcases line_effect_fields env name analyzer std (stripCR cur) s.kid k1 e1 hle with
              ⟨hf1, hf2, -, -, -⟩
            rcases ih [] s1 f (by simpa using hm1) (by simpa using hn1) (by simp) hst1
                (fun _ _ => hpk1) (by rw [hk1, hf1]; exact ht) (by rw [hk1, hf2]; exact he)
                hin' hf with ⟨hi1, hi2⟩
            rw [hs1]
            simp only [lines_effect, hle]
            rw [hk1] at hi1 hi2
            cases hls : lines_effect env name analyzer std (chunk_lines [] rest) k1 with
            | none =>
              exact ⟨fun _ => hi1 hls, fun k evs hk => by simp at hk⟩
            | some r2 =>
              obtain ⟨k2, e2⟩ := r2
              refine ⟨fun h => by simp at h, fun k evs hk => ?_⟩
              simp only [Option.some.injEq, Prod.mk.injEq] at hk
              obtain ⟨rfl, rfl⟩ := hk
              rcases hi2 k2 e2 hls with ⟨s', hs', hk', hsc', hr', hn', hc'⟩
              exact ⟨s', hs', hk', by rw [hsc', hsc1, List.append_assoc], hr'.trans hr1, hn', hc'⟩
        · have hl : chunk_lines cur (c :: rest) = chunk_lines (cur ++ [c]) rest := by
            simp [chunk_lines, hc0, hcn]
          have hr : chunk_rest cur (c :: rest) = chunk_rest (cur ++ [c]) rest := by
            simp [chunk_rest, hc0, hcn]
          have hpl : parse_lines env name 0 analyzer std (f + 1) s =
              parse_lines env name 0 analyzer std f { s with nl := s.nl + 1 } := by
            simp only [parse_lines, hp, if_neg hc0]
            simp [hcn]
          have hI : ({ s with nl := s.nl + 1 } : Parse).mem.drop
              ({ s with nl := s.nl + 1 } : Parse).start = (cur ++ [c]) ++ rest := by
            simpa using hmem
          have hnul' : NUL ∉ cur ++ [c] := by
            intro h
            rcases List.mem_append.mp h with h | h
            · exact hnul h
            · simp at h; exact hc0 h.symm
          rw [hl, hr, hpl]
          exact ih (cur ++ [c]) { s with nl := s.nl + 1 } f hI (by simp [hnl]; omega) hnul'
            hstart (fun h => absurd h (by simp)) ht he hin' hf

theorem parse_rest_view (env : Env) (name : List Char) (analyzer : Analyze) (std : Int)
    (s : Parse) (frag : List Char) (hnl : s.nl = s.start + frag.length)
    (hfrag : cstr s.mem s.start = frag) :
    ∃ s', parse_rest env name 0 analyzer std s = some s' ∧
      s'.kid = (rest_effect env name analyzer std frag s.kid).1 ∧
      screen s'.out = screen s.out ++ (rest_effect env name analyzer std frag s.kid).2 ∧
      s'.reg = s.reg := by
  unfold parse_rest rest_effect
  by_cases hf : frag = []
  · subst hf
    have : ¬ s.start ≠ s.nl := by simp [hnl]
    simp only [if_neg this, if_true]
    exact ⟨s, rfl, rfl, by simp, rfl⟩
  · have hpos : 0 < frag.length := List.length_pos.mpr hf
    have hne : s.start ≠ s.nl := by omega
    have hlt : s.start < s.nl := by omega
    simp only [if_pos hne, not_not, hlt, not_true_eq_false, if_false, if_true, if_neg hf, hfrag]
    cases hl : left_get s.kid std with
    | none => exact ⟨_, rfl, rfl, by simp, rfl⟩
    | some l =>
      by_cases hlen : l.length > 1024
      · simp only [if_pos hlen]
        refine ⟨_, rfl, rfl, ?_, rfl⟩
        simp only []
        split_ifs <;> simp [screen, Ev.on_screen]
      · simp only [if_neg hlen]
        exact ⟨_, rfl, rfl, by simp, rfl⟩

theorem chunk_rest_nul (buf : List Char) :
    ∀ cur, chunk_rest cur (buf ++ [NUL]) = chunk_rest cur buf := by
  induction buf with
  | nil => intro cur; simp [chunk_rest]
  | cons c rest ih =>
    intro cur
    show chunk_rest cur (c :: (rest ++ [NUL])) = chunk_rest cur (c :: rest)
    simp only [chunk_rest, ih]

theorem parse_child_view (env : Env) (guard : Char) (name : List Char) (verbose_tests : Int)
    (analyzer : Analyze) (kid : Child) (std : Int) (buffer : List Char)
    (reg : Registry) (out : List Ev)
    (hstd : std = 1 ∨ std = 2) (ht : kid.test ≠ 1) (he : kid.execstate = 0)
    (hg : buffer.head? = some '\n' → guard ≠ '\r') :
    (chunk_effect env name analyzer std buffer kid = none →
      parse_child env guard name 0 verbose_tests analyzer kid std buffer reg out = none) ∧
    (∀ k evs, chunk_effect env name analyzer std buffer kid = some (k, evs) →
      ∃ out', parse_child env guard name 0 verbose_tests analyzer kid std buffer reg out =
          some (k, reg, out') ∧ screen out' = screen out ++ evs) := by
  have hg' : (buffer ++ [NUL]).head? = some '\n' → guard ≠ '\r' := by
    intro h
    cases buffer with
    | nil => simp [NUL] at h
    | cons c r => exact hg (by simpa using h)
  rcases parse_lines_view env name analyzer std (buffer ++ [NUL]) []
      { mem := guard :: buffer ++ [NUL], start := 1, nl := 1, kid := kid, reg := reg,
        out := out } (buffer.length + 1) (by simp) (by simp) (by simp) (by simp)
      (fun _ h => by simpa [peek] using hg' h) ht he (by simp) (by simp) with ⟨h1, h2⟩
  simp only [chunk_lines_nul, chunk_rest_nul] at h1 h2
  unfold chunk_effect
  cases hls : lines_effect env name analyzer std (chunk_lines [] buffer) kid with
  | none =>
    refine ⟨fun _ => ?_, fun k evs hk => by simp at hk⟩
    simp only [parse_child, if_pos hstd, h1 hls]
  | some r =>
    obtain ⟨k1, e1⟩ := r
    rcases h2 k1 e1 hls with ⟨s1, hs1, hk1, hsc1, hr1, hn1, hc1⟩
    rcases parse_rest_view env name analyzer std s1 (chunk_rest [] buffer) hn1 hc1 with
      ⟨s2, hs2, hk2, hsc2, hr2⟩
    refine ⟨fun h => by simp at h, fun k evs hk => ?_⟩
    simp only [Option.some.injEq, Prod.mk.injEq] at hk
    obtain ⟨rfl, rfl⟩ := hk
    refine ⟨s2.out, ?_, ?_⟩
    · simp only [parse_child, if_pos hstd, hs1, hs2, Option.map_some']
      rw [hk2, hk1, hr2, hr1]
    · rw [hsc2, hsc1, hk1, List.append_assoc]


/-! ## Theorems: the sticky error flag -/

theorem nl_ne_nul : ¬ ('\n' = NUL) := by decide

theorem with_residue_nil (ls : List (List Char)) : with_residue [] ls = ls := by
  cases ls <;> simp [with_residue]

theorem chunk_lines_append (c rest : List Char) (h : NUL ∉ c) :
    ∀ cur, chunk_lines cur (c ++ rest) = chunk_lines cur c ++ chunk_lines (chunk_rest cur c) rest := by
  induction c with
  | nil => intro cur; simp [chunk_lines, chunk_rest]
  | cons x c ih =>
    intro cur
    have hx : x ≠ NUL := fun e => h (by simp [e])
    have hc : NUL ∉ c := fun e => h (by simp [e])
    show chunk_lines cur (x :: (c ++ rest)) = _
    by_cases hn : x = '\n'
    · subst hn
      simp [chunk_lines, chunk_rest, nl_ne_nul, ih hc]
    · simp [chunk_lines, chunk_rest, hx, hn, ih hc]

theorem stripCR_append (a b : List Char) (hb : b ≠ []) : stripCR (a ++ b) = a ++ stripCR b := by
  rcases List.eq_nil_or_concat b with rfl | ⟨L, x, rfl⟩
  · exact absurd rfl hb
  · rw [List.concat_eq_append, ← List.append_assoc, stripCR_concat, stripCR_concat]
    split <;> simp

theorem chunk_lines_residue (c : List Char) :
    ∀ r cur, cur ≠ [] → chunk_lines (r ++ cur) c = with_residue r (chunk_lines cur c) := by
  induction c with
  | nil => intro r cur _; simp [chunk_lines, with_residue]
  | cons x c ih =>
    intro r cur hcur
    by_cases hx : x = NUL
    · simp [chunk_lines, hx, with_residue]
    · by_cases hn : x = '\n'
      · subst hn
        simp [chunk_lines, nl_ne_nul, with_residue, stripCR_append r cur hcur]
      · simp only [chunk_lines, if_neg hx, if_neg hn]
        rw [List.append_assoc]
        exact ih r (cur ++ [x]) (by simp)

theorem chunk_lines_joined (c r : List Char)
    (h : ¬ (r.getLast? = some '\r' ∧ c.head? = some '\n')) :
    chunk_lines r c = with_residue r (chunk_lines [] c) := by
  cases c with
  | nil => simp [chunk_lines, with_residue]
  | cons x c =>
    by_cases hx : x = NUL
    · simp [chunk_lines, hx, with_residue]
    · by_cases hn : x = '\n'
      · subst hn
        have hr : r.getLast? ≠ some '\r' := fun e => h ⟨e, rfl⟩
        simp [chunk_lines, hx, with_residue, stripCR, hr]
      · simp only [chunk_lines, if_neg hx, if_neg hn]
        have := chunk_lines_residue c r ([] ++ [x]) (by simp)
        simpa using this

theorem chunk_rest_completed (c : List Char) :
    ∀ cur cur2, chunk_lines cur c ≠ [] → chunk_rest cur c = chunk_rest cur2 c := by
  induction c with
  | nil => intro cur cur2 h; simp [chunk_lines] at h
  | cons x c ih =>
    intro cur cur2 h
    by_cases hx : x = NUL
    · simp [chunk_lines, hx] at h
    · by_cases hn : x = '\n'
      · subst hn
        simp [chunk_rest, nl_ne_nul]
      · simp only [chunk_lines, if_neg hx, if_neg hn] at h
        simp only [chunk_rest, if_neg hx, if_neg hn]
        exact ih (cur ++ [x]) (cur2 ++ [x]) h

theorem chunk_lines_empty (c : List Char) :
    ∀ cur cur2, chunk_lines cur c = [] → chunk_lines cur2 c = [] := by
  induction c with
  | nil => intro cur cur2 _; simp [chunk_lines]
  | cons x c ih =>
    intro cur cur2 h
    by_cases hx : x = NUL
    · simp [chunk_lines, hx]
    · by_cases hn : x = '\n'
      · subst hn
        simp [chunk_lines, nl_ne_nul] at h
      · simp only [chunk_lines, if_neg hx, if_neg hn] at h
        simp only [chunk_lines, if_neg hx, if_neg hn]
        exact ih _ _ h

theorem chunk_rest_plain (c : List Char) (h0 : NUL ∉ c) :
    ∀ cur, chunk_lines cur c = [] → chunk_rest cur c = cur ++ c := by
  induction c with
  | nil => intro cur _; simp [chunk_rest]
  | cons x c ih =>
    intro cur h
    have hx : x ≠ NUL := fun e => h0 (by simp [e])
    have hc : NUL ∉ c := fun e => h0 (by simp [e])
    by_cases hn : x = '\n'
    · subst hn
      simp [chunk_lines, nl_ne_nul] at h
    · simp only [chunk_lines, if_neg hx, if_neg hn] at h
      simp only [chunk_rest, if_neg hx, if_neg hn]
      rw [ih hc _ h]; simp

theorem chunk_lines_plain (c : List Char) (hn : '\n' ∉ c) :
    ∀ cur, chunk_lines cur c = [] := by
  induction c with
  | nil => intro cur; simp [chunk_lines]
  | cons x c ih =>
    intro cur
    have hx : x ≠ '\n' := fun e => hn (by simp [e])
    have hc : '\n' ∉ c := fun e => hn (by simp [e])
    by_cases h0 : x = NUL
    · simp [chunk_lines, h0]
    · simp only [chunk_lines, if_neg h0, if_neg hx]
      exact ih hc _


/-! ## Theorems: the line analyzer -/

theorem left_set_output (k : Child) (std : Int) (v : Option (List Char)) :
    (left_set k std v).output = k.output := by
  unfold left_set; split <;> rfl

theorem rest_effect_fields (env : Env) (name : List Char) (analyzer : Analyze) (std : Int)
    (frag : List Char) (kid : Child) :
    (rest_effect env name analyzer std frag kid).1.test = kid.test ∧
      (rest_effect env name analyzer std frag kid).1.execstate = kid.execstate ∧
      (kid.output.iferr = false →
        (rest_effect env name analyzer std frag kid).1.output = kid.output) ∧
      (kid.output.err = true →
        (rest_effect env name analyzer std frag kid).1.output.err = true) := by
  unfold rest_effect
  by_cases hf : frag = []
  · rw [if_pos hf]
    exact ⟨rfl, rfl, fun _ => rfl, fun h => h⟩
  · simp only [if_neg hf]
    cases hl : left_get kid std with
    | none =>
      refine ⟨?_, ?_, ?_, ?_⟩ <;> simp [left_set_test, left_set_execstate, left_set_output]
    | some l =>
      by_cases hlen : l.length > 1024
      · simp only [if_pos hlen]
        refine ⟨?_, ?_, ?_, ?_⟩
        · simp [left_set_test]
        · simp [left_set_execstate]
        · intro h
          simp [left_set_output, h]
        · intro h
          simp only [left_set_output]
          split
          · rfl
          · exact h
      · simp only [if_neg hlen]
        refine ⟨?_, ?_, ?_, ?_⟩ <;> simp [left_set_test, left_set_execstate, left_set_output]

theorem chunk_effect_eq (env : Env) (name : List Char) (analyzer : Analyze) (std : Int)
    (buffer : List Char) (kid k1 : Child) (e1 : List Ev)
    (h : lines_effect env name analyzer std (chunk_lines [] buffer) kid = some (k1, e1)) :
    chunk_effect env name analyzer std buffer kid =
      some ((rest_effect env name analyzer std (chunk_rest [] buffer) k1).1,
        e1 ++ (rest_effect env name analyzer std (chunk_rest [] buffer) k1).2) := by
  simp only [chunk_effect, h]

theorem left_get_set (k : Child) (std : Int) (v : Option (List Char)) :
    left_get (left_set k std v) std = v := by
  unfold left_get left_set
  split <;> simp [*]

theorem chunk_effect_plain (env : Env) (name : List Char) (analyzer : Analyze) (std : Int)
    (buffer : List Char) (kid : Child) (hn : '\n' ∉ buffer) (h0 : NUL ∉ buffer) :
    chunk_effect env name analyzer std buffer kid =
      some ((rest_effect env name analyzer std buffer kid).1,
        (rest_effect env name analyzer std buffer kid).2) := by
  have h1 := chunk_lines_plain buffer hn []
  have h2 := chunk_rest_plain buffer h0 [] h1
  simp only [List.nil_append] at h2
  simp only [chunk_effect, h1, h2, lines_effect, List.nil_append]

theorem replicate_plain (n : Nat) (a : Char) (hn : a ≠ '\n') (h0 : a ≠ NUL) :
    '\n' ∉ List.replicate n a ∧ NUL ∉ List.replicate n a :=
  ⟨fun h => hn (List.eq_of_mem_replicate h).symm, fun h => h0 (List.eq_of_mem_replicate h).symm⟩

theorem replicate_ne_nil (n : Nat) (a : Char) (hn : n ≠ 0) : List.replicate n a ≠ [] := by
  intro h
  have := congrArg List.length h
  rw [List.length_replicate] at this
  exact hn this

theorem single_read_eof (A : List Char) (hn : '\n' ∉ A) (h0 : NUL ∉ A) (hA : A ≠ []) :
    (slot_steps sampleEnv ['a'] 0 0 ANALYZE_LNRE [SlotStep.chunk 'x' 1 A, SlotStep.eof 1]
        ⟨sampleIferr, sampleReg, [], []⟩).map (fun s => (s.kid, screen s.out)) =
      some (sampleIferr, [Ev.tprint ['a'] MSG_STDOUTTRUNC A]) := by
  have hc := chunk_effect_plain sampleEnv ['a'] ANALYZE_LNRE 1 A sampleIferr hn h0
  have hr : rest_effect sampleEnv ['a'] ANALYZE_LNRE 1 A sampleIferr =
      (left_set sampleIferr 1 (some A), []) := by
    have hl : left_get sampleIferr 1 = none := by decide
    simp only [rest_effect, if_neg hA, hl]
  rw [hr] at hc
  rcases (parse_child_view sampleEnv 'x' ['a'] 0 ANALYZE_LNRE sampleIferr 1 A sampleReg []
    (by decide) (by decide) (by decide)
    (fun _ => by decide)).2 _ _ hc with ⟨o1, hp1, hs1⟩
  simp only [slot_steps, SlotStep.run, hp1, Option.map_some', read_eof, left_get_set]
  simp only [screen_append, hs1]
  have e : left_set (left_set sampleIferr 1 (some A)) 1 none = sampleIferr := rfl
  rw [e]
  rfl

/-- C15 fails on the code: a run child in the mode `IFERR` with a streaming
line analyzer writes 2000 bytes without a newline in one read and exits 0.
The read is stored whole as the residue (no length test on a first
unterminated read), the end of the stream prints it as a truncated line, and
the slot is as it was before: `ERR` is clear, `IFERR` is set, and the verdict
is success, although the line went to the screen truncated and unanalysed. -/
theorem truncation_bug :
    1024 < (List.replicate 2000 'a').length ∧
    (slot_steps sampleEnv ['a'] 0 0 ANALYZE_LNRE
        [SlotStep.chunk 'x' 1 (List.replicate 2000 'a'), SlotStep.eof 1]
        ⟨sampleIferr, sampleReg, [], []⟩).map (fun s => (s.kid, screen s.out)) =
      some (sampleIferr, [Ev.tprint ['a'] MSG_STDOUTTRUNC (List.replicate 2000 'a')]) ∧
    sampleIferr.output.err = false ∧ sampleIferr.output.iferr = true ∧
    exit_verdict sampleEnv ['a'] sampleIferr.output (some ['d']) ANALYZE_LNRE 1 sampleIferr
        (.exited 0) = some (some CMD_SUCCESS, sampleIferr, []) := by
  exact ⟨by rw [List.length_replicate]; decide,
    single_read_eof _ (replicate_plain 2000 'a' (by decide) (by decide)).1
      (replicate_plain 2000 'a' (by decide) (by decide)).2
      (replicate_ne_nil 2000 'a' (by decide)),
    by decide, by decide, by decide⟩


/-! ## Theorems: lines on the screen -/

theorem line_effect_print (env : Env) (name : List Char) (analyzer : Analyze) (std : Int)
    (line : List Char) (kid : Child) (hm : kid.output.mixed = true)
    (hi : kid.output.iferr = false) :
    ∃ k, line_effect env name analyzer std line kid =
        some (k, [Ev.tprint name (msg_kind std) ((left_get kid std).getD [] ++ line)]) ∧
      k.output.mixed = true ∧ k.output.iferr = false := by
  have h4 : ¬ (kid.output.iferr = true ∧ kid.output.mixed = true) := by simp [hi]
  by_cases h1 : kid.output.err = false ∧ (analyzer = ANALYZE_LNRE ∨ analyzer = ANALYZE_LNPCRE)
  · by_cases h2 : env.analyzer_lnrun analyzer std ((left_get kid std).getD [] ++ line) ≠ 0
    · refine ⟨left_set { kid with output := { kid.output with iferr := false, err := true } }
        std none, ?_, ?_, ?_⟩
      · simp only [line_effect, if_pos h1, if_pos h2, if_neg h4]
        simp [hm]
      · simp [left_set_output, hm]
      · simp [left_set_output]
    · refine ⟨left_set { kid with output := kid.output } std none, ?_, ?_, ?_⟩
      · simp only [line_effect, if_pos h1, if_neg h2]
        simp [hm, hi]
      · simp [left_set_output, hm]
      · simp [left_set_output, hi]
  · refine ⟨left_set { kid with output := kid.output } std none, ?_, ?_, ?_⟩
    · simp only [line_effect, if_neg h1]
      simp [hm, hi]
    · simp [left_set_output, hm]
    · simp [left_set_output, hi]

theorem lines_effect_print (env : Env) (name : List Char) (analyzer : Analyze) (std : Int)
    (ls : List (List Char)) :
    ∀ kid : Child, kid.output.mixed = true → kid.output.iferr = false →
      ∃ k, lines_effect env name analyzer std ls kid =
          some (k, (with_residue ((left_get kid std).getD []) ls).map
            (Ev.tprint name (msg_kind std))) ∧
        k.output.mixed = true ∧ k.output.iferr = false ∧ k.test = kid.test ∧
        k.execstate = kid.execstate ∧ (ls ≠ [] → left_get k std = none) ∧
        (ls = [] → k = kid) := by
  induction ls with
  | nil =>
    intro kid hm hi
    exact ⟨kid, by simp [lines_effect, with_residue], hm, hi, rfl, rfl, fun h => absurd rfl h,
      fun _ => rfl⟩
  | cons l ls ih =>
    intro kid hm hi
    rcases line_effect_print env name analyzer std l kid hm hi with ⟨k1, h1, hm1, hi1⟩
    rcases line_effect_fields env name analyzer std l kid k1 _ h1 with ⟨ht1, he1, hl1, -, -⟩
    rcases ih k1 hm1 hi1 with ⟨k2, h2, hm2, hi2, ht2, he2, hl2, hk2⟩
    refine ⟨k2, ?_, hm2, hi2, ht2.trans ht1, he2.trans he1, fun _ => ?_, fun h => by simp at h⟩
    · have h2' : lines_effect env name analyzer std ls k1 =
          some (k2, ls.map (Ev.tprint name (msg_kind std))) := by
        rw [h2, hl1]
        simp only [Option.getD_none, with_residue_nil]
      simp only [lines_effect, h1, h2']
      simp [with_residue]
    · by_cases hls : ls = []
      · rw [hk2 hls]; exact hl1
      · exact hl2 hls

theorem rest_effect_none (env : Env) (name : List Char) (analyzer : Analyze) (std : Int)
    (frag : List Char) (kid : Child) (hl : left_get kid std = none) :
    (rest_effect env name analyzer std frag kid).2 = [] ∧
      left_get (rest_effect env name analyzer std frag kid).1 std =
        (if frag = [] then none else some frag) ∧
      (rest_effect env name analyzer std frag kid).1.output = kid.output := by
  unfold rest_effect
  by_cases hf : frag = []
  · simp only [if_pos hf]
    exact ⟨trivial, hl, trivial⟩
  · simp only [if_neg hf, hl, left_get_set, left_set_output]
    exact ⟨trivial, trivial, trivial⟩

theorem chunk_effect_print (env : Env) (name : List Char) (analyzer : Analyze) (std : Int)
    (c r : List Char) (kid : Child)
    (hrep : left_get kid std = (if r = [] then none else some r))
    (hm : kid.output.mixed = true) (hi : kid.output.iferr = false)
    (h2 : r = [] ∨ chunk_lines [] c ≠ [])
    (h3 : ¬ (r.getLast? = some '\r' ∧ c.head? = some '\n')) :
    ∃ k, chunk_effect env name analyzer std c kid =
        some (k, (chunk_lines r c).map (Ev.tprint name (msg_kind std))) ∧
      k.output.mixed = true ∧ k.output.iferr = false ∧ k.test = kid.test ∧
      k.execstate = kid.execstate ∧
      left_get k std = (if chunk_rest [] c = [] then none else some (chunk_rest [] c)) ∧
      chunk_rest r c = chunk_rest [] c := by
  rcases lines_effect_print env name analyzer std (chunk_lines [] c) kid hm hi with
    ⟨k1, h1, hm1, hi1, ht1, he1, hl1, hk1⟩
  have hr : (left_get kid std).getD [] = r := by
    rw [hrep]; split
    · rename_i e; rw [e]; rfl
    · rfl
  rw [hr, ← chunk_lines_joined c r h3] at h1
  have hnone : left_get k1 std = none := by
    by_cases hls : chunk_lines [] c = []
    · rw [hk1 hls, hrep]
      rcases h2 with e | e
      · rw [if_pos e]
      · exact absurd hls e
    · exact hl1 hls
  have hrest : chunk_rest r c = chunk_rest [] c := by
    rcases h2 with e | e
    · rw [e]
    · exact (chunk_rest_completed c [] r e).symm
  rcases rest_effect_none env name analyzer std (chunk_rest [] c) k1 hnone with ⟨e1, e2, e3⟩
  rcases rest_effect_fields env name analyzer std (chunk_rest [] c) k1 with ⟨ht2, he2, -, -⟩
  refine ⟨_, ?_, by rw [e3]; exact hm1, by rw [e3]; exact hi1, ht2.trans ht1, he2.trans he1,
    e2, hrest⟩
  rw [chunk_effect_eq env name analyzer std c kid k1 _ h1, e1, List.append_nil]

theorem parse_chunks_print (env : Env) (guard : Char) (name : List Char)
    (verbose_tests : Int) (analyzer : Analyze) (std : Int) (reg : Registry)
    (hstd : std = 1 ∨ std = 2) (hg : guard ≠ '\r') (cs : List (List Char)) :
    ∀ (p : List Char) (kid : Child) (out : List Ev),
      left_get kid std = (if chunk_rest [] p = [] then none else some (chunk_rest [] p)) →
      kid.output.mixed = true → kid.output.iferr = false → kid.test ≠ 1 →
      kid.execstate = 0 → (∀ c ∈ cs, NUL ∉ c) →
      TwoReads (p :: cs) → WholeCRLF (p :: cs) →
      ∃ kid2 out2,
        parse_chunks env guard name 0 verbose_tests analyzer (cs.map (fun c => (std, c)))
          kid reg out = some (kid2, reg, out2) ∧
        screen out2 = screen out ++
          (chunk_lines (chunk_rest [] p) cs.flatten).map (Ev.tprint name (msg_kind std)) := by
  induction cs with
  | nil =>
    intro p kid out _ _ _ _ _ _ _ _
    exact ⟨kid, out, rfl, by simp [chunk_lines]⟩
  | cons c cs ih =>
    intro p kid out hrep hm hi ht he h0 h2 h3
    simp only [TwoReads, WholeCRLF] at h2 h3
    rcases chunk_effect_print env name analyzer std c (chunk_rest [] p) kid hrep hm hi h2.1
        h3.1 with ⟨k1, h1, hm1, hi1, ht1, he1, hl1, hr1⟩
    rcases (parse_child_view env guard name verbose_tests analyzer kid std c reg out
      hstd ht he (fun _ => hg)).2 _ _ h1 with ⟨o1, hp1, hs1⟩
    rcases ih c k1 o1 hl1 hm1 hi1 (by rw [ht1]; exact ht) (by rw [he1]; exact he)
        (fun x hx => h0 x (by simp [hx])) h2.2 h3.2 with ⟨k2, o2, hp2, hs2⟩
    refine ⟨k2, o2, ?_, ?_⟩
    · simp only [List.map_cons, parse_chunks, hp1, hp2]
    · rw [hs2, hs1, List.flatten_cons, chunk_lines_append c _ (h0 c (by simp)), hr1,
        List.map_append, List.append_assoc]


theorem long_line_split (A : List Char) (hn : '\n' ∉ A) (h0 : NUL ∉ A)
    (hlen : 1024 < A.length) :
    chunk_lines [] [A, ['b'], ['\n']].flatten = [A ++ ['b']] ∧
    (parse_chunks sampleEnv 'x' ['a'] 0 0 ANALYZE_NONE [(1, A), (1, ['b']), (1, ['\n'])]
        sampleKid sampleReg []).map (fun r => screen r.2.2) =
      some [Ev.tprint ['a'] MSG_STDOUTTRUNC A, Ev.tprint ['a'] MSG_STDOUT ['b']] := by
  have hA : A ≠ [] := by
    intro e; rw [e] at hlen; simp at hlen
  constructor
  · show chunk_lines [] (A ++ ['b', '\n']) = _
    rw [chunk_lines_append A _ h0, chunk_lines_plain A hn,
      chunk_rest_plain A h0 [] (chunk_lines_plain A hn [])]
    have hb : ¬ ('b' = NUL) := by decide
    have hb2 : ¬ ('b' = '\n') := by decide
    simp only [List.nil_append, chunk_lines, if_neg hb, if_neg hb2, if_neg nl_ne_nul, if_true,
      stripCR_append A ['b'] (by simp)]
    rfl
  · have hc1 := chunk_effect_plain sampleEnv ['a'] ANALYZE_NONE 1 A sampleKid hn h0
    have hr1 : rest_effect sampleEnv ['a'] ANALYZE_NONE 1 A sampleKid =
        (left_set sampleKid 1 (some A), []) := by
      have hl : left_get sampleKid 1 = none := by decide
      simp only [rest_effect, if_neg hA, hl]
    rw [hr1] at hc1
    rcases (parse_child_view sampleEnv 'x' ['a'] 0 ANALYZE_NONE sampleKid 1 A sampleReg []
      (by decide) (by decide) (by decide) (fun _ => by decide)).2 _ _ hc1 with ⟨o1, hp1, hs1⟩
    have hc2 := chunk_effect_plain sampleEnv ['a'] ANALYZE_NONE 1 ['b']
      (left_set sampleKid 1 (some A)) (by decide) (by decide)
    have hr2 : rest_effect sampleEnv ['a'] ANALYZE_NONE 1 ['b'] (left_set sampleKid 1 (some A)) =
        ({ sampleKid with obuf := some ['b'] }, [Ev.tprint ['a'] MSG_STDOUTTRUNC A]) := by
      have hl : left_get (left_set sampleKid 1 (some A)) 1 = some A := left_get_set _ _ _
      have hlen' : A.length > 1024 := hlen
      have hb : ¬ (['b'] = ([] : List Char)) := by decide
      simp only [rest_effect, if_neg hb, hl, if_pos hlen']
      rfl
    rw [hr2] at hc2
    rcases (parse_child_view sampleEnv 'x' ['a'] 0 ANALYZE_NONE (left_set sampleKid 1 (some A))
      1 ['b'] sampleReg o1 (by decide) (by rw [left_set_test]; decide)
      (by rw [left_set_execstate]; decide) (fun _ => by decide)).2 _ _ hc2 with ⟨o2, hp2, hs2⟩
    have hc3 : chunk_effect sampleEnv ['a'] ANALYZE_NONE 1 ['\n']
        { sampleKid with obuf := some ['b'] } =
        some (sampleKid, [Ev.tprint ['a'] MSG_STDOUT ['b']]) := by decide
    rcases (parse_child_view sampleEnv 'x' ['a'] 0 ANALYZE_NONE
      { sampleKid with obuf := some ['b'] } 1 ['\n'] sampleReg o2 (by decide) (by decide)
      (by decide) (fun _ => by decide)).2 _ _ hc3 with ⟨o3, hp3, hs3⟩
    simp only [parse_chunks, hp1, hp2, hp3, Option.map_some', hs3, hs2, hs1]
    rfl

theorem parse_output_mem (env : Env) (name : List Char) (analyzer : Analyze) (std : Int)
    (s s2 : Parse) (h : parse_output env name analyzer std s = some s2) :
    s2.nl = s.nl ∧
      (s2.mem = s.mem ∨
        (s.kid.ofile ≠ -1 ∧ peek s.mem (s.nl - 1) = NUL ∧ s2.mem = s.mem.set (s.nl - 1) '\r')) := by
  unfold parse_output at h
  simp only at h
  split at h
  · cases h
  · by_cases hf : s.kid.ofile ≠ -1
    · rw [if_pos hf] at h
      simp only [Option.some.injEq] at h
      rw [← h]
      refine ⟨rfl, ?_⟩
      by_cases hp : peek s.mem (s.nl - 1) = NUL
      · right
        exact ⟨hf, hp, by simp only [if_pos hp]⟩
      · left
        simp only [if_neg hp]
    · rw [if_neg hf] at h
      simp only [Option.some.injEq] at h
      rw [← h]
      exact ⟨rfl, Or.inl rfl⟩

theorem parse_general_mem (env : Env) (name : List Char) (isfping : Int)
    (analyzer : Analyze) (std : Int) (s s2 : Parse)
    (h : parse_general env name isfping analyzer std s = some s2) :
    s2.nl = s.nl ∧
      (s2.mem = s.mem ∨
        (s.kid.ofile ≠ -1 ∧ peek s.mem (s.nl - 1) = NUL ∧ s2.mem = s.mem.set (s.nl - 1) '\r')) := by
  unfold parse_general at h
  split at h
  · split at h
    · simp at h; rw [← h]; exact ⟨rfl, Or.inl rfl⟩
    · exact parse_output_mem env name analyzer std s s2 h
  · cases hp : parse_fping (cstr s.mem s.start) s.reg with
    | none => simp [hp] at h
    | some r => simp [hp] at h; rw [← h]; exact ⟨rfl, Or.inl rfl⟩

/-- The byte in front of the buffer survives one pass of the line loop when it
is not `\r` and, with output files open, not NUL. -/
theorem parse_line_guard (env : Env) (name : List Char) (isfping : Int)
    (analyzer : Analyze) (std : Int) (s s2 : Parse) (g : Char)
    (hnl : 1 ≤ s.nl) (hpk : peek s.mem 0 = g) (hg : g ≠ '\r')
    (hf : s.kid.ofile = -1 ∨ g ≠ NUL)
    (h : parse_line env name isfping analyzer std s = some s2) :
    1 ≤ s2.nl ∧ peek s2.mem 0 = g := by
  have hmem1 : peek (if peek s.mem (s.nl - 1) = '\r' then s.mem.set (s.nl - 1) NUL
      else s.mem.set s.nl NUL) 0 = g := by
    by_cases hc : peek s.mem (s.nl - 1) = '\r'
    · rw [if_pos hc]
      have hne : s.nl - 1 ≠ 0 := by
        intro e
        rw [e, hpk] at hc
        exact hg hc
      rw [peek_set_ne _ _ _ _ hne, hpk]
    · rw [if_neg hc, peek_set_ne _ _ _ _ (by omega), hpk]
  unfold parse_line at h
  simp only at h
  generalize (if peek s.mem (s.nl - 1) = '\r' then s.mem.set (s.nl - 1) NUL
    else s.mem.set s.nl NUL) = mem1 at h hmem1
  by_cases h2 : s.kid.execstate = 2
  · rw [if_pos h2] at h
    simp at h; rw [← h]
    exact ⟨by simp [next_line], by simpa [next_line] using hmem1⟩
  · rw [if_neg h2] at h
    by_cases h1 : s.kid.execstate = 1 ∧ cstr mem1 s.start = SHMUCK
    · rw [if_pos h1] at h
      simp at h; rw [← h]
      exact ⟨by simp [next_line], by simpa [next_line] using hmem1⟩
    · rw [if_neg h1] at h
      by_cases h0 : s.kid.execstate = 1 ∨ s.kid.execstate = 0
      · rw [if_pos h0, Option.map_eq_some'] at h
        obtain ⟨s1, h3, h4⟩ := h
        rcases parse_general_mem env name isfping analyzer std _ s1 h3 with ⟨e1, e2⟩
        rw [← h4]
        refine ⟨by simp [next_line], ?_⟩
        show peek s1.mem 0 = g
        rcases e2 with e | ⟨hof, hz, e⟩
        · rw [e]; exact hmem1
        · simp only at hof hz e
          rw [e]
          have hne : s.nl - 1 ≠ 0 := by
            intro e0
            rw [e0, hmem1] at hz
            rcases hf with hf | hf
            · exact hof hf
            · exact hf hz
          rw [peek_set_ne _ _ _ _ hne]
          exact hmem1
      · rw [if_neg h0] at h
        cases h

theorem parse_lines_guard (env : Env) (name : List Char) (isfping : Int)
    (analyzer : Analyze) (std : Int) (g : Char) (f : Int) (hg : g ≠ '\r')
    (hf : f = -1 ∨ g ≠ NUL) (fuel : Nat) :
    ∀ (s s2 : Parse), 1 ≤ s.nl → peek s.mem 0 = g → s.kid.ofile = f →
      parse_lines env name isfping analyzer std fuel s = some s2 →
      peek s2.mem 0 = g := by
  induction fuel with
  | zero => intro s s2 _ _ _ h; simp [parse_lines] at h
  | succ n ih =>
    intro s s2 hnl hpk hof h
    simp only [parse_lines] at h
    by_cases hz : peek s.mem s.nl = NUL
    · rw [if_pos hz] at h
      simp at h; rw [← h]; exact hpk
    · rw [if_neg hz] at h
      by_cases hn : peek s.mem s.nl ≠ '\n'
      · rw [if_pos hn] at h
        exact ih { s with nl := s.nl + 1 } s2 (by simp) hpk hof h
      · rw [if_neg hn] at h
        cases h1 : parse_line env name isfping analyzer std s with
        | none => simp [h1] at h
        | some s1 =>
          simp only [h1] at h
          rcases parse_line_guard env name isfping analyzer std s s1 g hnl hpk hg
            (by rw [hof]; exact hf) h1 with ⟨e1, e2⟩
          have hfr := parse_line_frame env name isfping analyzer std s s1 h1
          have hof1 : s1.kid.ofile = f := by
            have := congrArg (fun t => t.2.2.2.2.2.2.2.2.1) hfr
            simp only [slot_fields] at this
            rw [this, hof]
          exact ih s1 s2 e1 e2 hof1 h

theorem parse_rest_mem (env : Env) (name : List Char) (isfping : Int)
    (analyzer : Analyze) (std : Int) (s s2 : Parse)
    (h : parse_rest env name isfping analyzer std s = some s2) : s2.mem = s.mem := by
  unfold parse_rest at h
  split at h
  · split at h
    · cases h
    · split at h
      · simp only at h
        split at h
        · simp at h; rw [← h]
        · split at h
          · simp at h; rw [← h]
          · simp at h; rw [← h]
      · split at h
        · simp at h; rw [h]
        · cases h
  · simp at h; rw [h]

theorem parse_child_mem_fst (env : Env) (guard : Char) (name : List Char)
    (isfping verbose_tests : Int) (analyzer : Analyze) (kid : Child) (std : Int)
    (buffer : List Char) (reg : Registry) (out : List Ev) :
    (parse_child_mem env guard name isfping verbose_tests analyzer kid std buffer reg
      out).map (fun r => r.1) =
      parse_child env guard name isfping verbose_tests analyzer kid std buffer reg out := by
  unfold parse_child_mem parse_child
  split
  · simp only
    cases parse_lines env name isfping analyzer std (buffer.length + 1)
        { mem := guard :: buffer ++ [NUL], start := 1, nl := 1, kid := kid, reg := reg,
          out := out } with
    | none => rfl
    | some s1 =>
      simp only [Option.map_map]
      rfl
  · rfl

/-- A call of `parse_child` leaves the byte in front of the buffer as it was
when that byte is not `\r` and, with output files open, not NUL. -/
theorem parse_child_mem_guard (env : Env) (guard : Char) (name : List Char)
    (isfping verbose_tests : Int) (analyzer : Analyze) (kid : Child) (std : Int)
    (buffer : List Char) (reg : Registry) (out : List Ev)
    (hg : guard ≠ '\r') (hf : kid.ofile = -1 ∨ guard ≠ NUL) :
    parse_child_mem env guard name isfping verbose_tests analyzer kid std buffer reg out =
      (parse_child env guard name isfping verbose_tests analyzer kid std buffer reg out).map
        (fun r => (r, guard)) := by
  unfold parse_child_mem parse_child
  split
  · simp only
    cases h1 : parse_lines env name isfping analyzer std (buffer.length + 1)
        { mem := guard :: buffer ++ [NUL], start := 1, nl := 1, kid := kid, reg := reg,
          out := out } with
    | none => rfl
    | some s1 =>
      simp only [Option.map_map]
      have e1 := parse_lines_guard env name isfping analyzer std guard kid.ofile hg hf _ _ s1
        (by simp) (by simp [peek]) rfl h1
      cases h2 : parse_rest env name isfping analyzer std s1 with
      | none => rfl
      | some s2 =>
        simp only [Option.map_some', Function.comp]
        rw [parse_rest_mem env name isfping analyzer std s1 s2 h2, e1]
  · rfl

theorem parse_reads_eq (env : Env) (name : List Char) (isfping verbose_tests : Int)
    (analyzer : Analyze) (guard : Char) (hg : guard ≠ '\r') (cs : Chunks) :
    ∀ (kid : Child) (reg : Registry) (out : List Ev), kid.ofile = -1 ∨ guard ≠ NUL →
      parse_reads env name isfping verbose_tests analyzer cs guard kid reg out =
        (parse_chunks env guard name isfping verbose_tests analyzer cs kid reg out).map
          (fun r => (r, guard)) := by
  induction cs with
  | nil => intro kid reg out _; rfl
  | cons c cs ih =>
    intro kid reg out hf
    obtain ⟨std, buffer⟩ := c
    simp only [parse_reads, parse_chunks]
    rw [parse_child_mem_guard env guard name isfping verbose_tests analyzer kid std buffer
      reg out hg hf]
    cases hp : parse_child env guard name isfping verbose_tests analyzer kid std buffer reg
        out with
    | none => rfl
    | some r =>
      obtain ⟨kid1, reg1, out1⟩ := r
      simp only [Option.map_some']
      have hfr := parse_child_frame env guard name isfping verbose_tests analyzer kid std
        buffer reg out _ hp
      have hof1 : kid1.ofile = kid.ofile := by
        have := congrArg (fun t => t.2.2.2.2.2.2.2.2.1) hfr
        simpa [slot_fields] using this
      exact ih kid1 reg1 out1 (by rw [hof1]; exact hf)

theorem long_line_reads (A : List Char) (hn : '\n' ∉ A) (h0 : NUL ∉ A)
    (hlen : 1024 < A.length) :
    (parse_reads sampleEnv ['a'] 0 0 ANALYZE_NONE [(1, A), (1, ['b']), (1, ['\n'])] 'x'
        sampleKid sampleReg []).map (fun r => screen r.1.2.2) =
      some [Ev.tprint ['a'] MSG_STDOUTTRUNC A, Ev.tprint ['a'] MSG_STDOUT ['b']] := by
  rw [parse_reads_eq sampleEnv ['a'] 0 0 ANALYZE_NONE 'x' (by decide) _ sampleKid sampleReg []
    (Or.inl (by decide)), Option.map_map]
  exact (long_line_split A hn h0 hlen).2

/-- C12 as stated fails: a run child in the mode `MIXED` without `IFERR` and
without analyzer writes a line of 1026 bytes that arrives in the three reads
`a…a` (1025 bytes), `b` and `\n`.  The concatenation holds the one line
`a…ab`; the screen gets the first 1025 bytes as a truncated line and then the
line `b`.  Further: a line end `\r\n` split between two reads keeps its `\r`
(`a\r` is printed for the line `a`); a chunk with a NUL byte is cut there (of
`a`, NUL, `b\n` nothing is printed); a line spread over the three reads `a`,
`01234567`, `\n` loses its last byte (the bounded copy of the residue); and
with output files open and a NUL byte in front of the buffer, the reads `\n`
and `\nx\n` print an empty line, `\nx\n` and `x` (the first read leaves a `\r`
in front of the buffer); with a `\r` in front of the buffer the read `\nx\n`
alone prints `\nx\n` and `x`. -/
theorem screen_lines_counterexample :
    sampleKid.test = 0 ∧ sampleKid.execstate = 0 ∧ sampleKid.output.mixed = true ∧
    sampleKid.output.iferr = false ∧
    chunk_lines [] [List.replicate 1025 'a', ['b'], ['\n']].flatten =
      [List.replicate 1025 'a' ++ ['b']] ∧
    (parse_reads sampleEnv ['a'] 0 0 ANALYZE_NONE
        [(1, List.replicate 1025 'a'), (1, ['b']), (1, ['\n'])] 'x'
        sampleKid sampleReg []).map (fun r => screen r.1.2.2) =
      some [Ev.tprint ['a'] MSG_STDOUTTRUNC (List.replicate 1025 'a'),
        Ev.tprint ['a'] MSG_STDOUT ['b']] ∧
    (chunk_lines [] [['a', '\r'], ['\n', 'b', '\n']].flatten = [['a'], ['b']] ∧
      (parse_reads sampleEnv ['a'] 0 0 ANALYZE_NONE [(1, ['a', '\r']), (1, ['\n', 'b', '\n'])]
          'x' sampleKid sampleReg []).map (fun r => screen r.1.2.2) =
        some [Ev.tprint ['a'] MSG_STDOUT ['a', '\r'], Ev.tprint ['a'] MSG_STDOUT ['b']]) ∧
    (parse_reads sampleEnv ['a'] 0 0 ANALYZE_NONE [(1, ['a', NUL, 'b', '\n'])] 'x' sampleKid
        sampleReg []).map (fun r => screen r.1.2.2) = some [] ∧
    (chunk_lines [] [['a'], ['0', '1', '2', '3', '4', '5', '6', '7'], ['\n']].flatten =
        [['a', '0', '1', '2', '3', '4', '5', '6', '7']] ∧
      (parse_reads sampleEnv ['a'] 0 0 ANALYZE_NONE
          [(1, ['a']), (1, ['0', '1', '2', '3', '4', '5', '6', '7']), (1, ['\n'])] 'x'
          sampleKid sampleReg []).map (fun r => screen r.1.2.2) =
        some [Ev.tprint ['a'] MSG_STDOUT ['a', '0', '1', '2', '3', '4', '5', '6']]) ∧
    (sampleFiles.ofile ≠ -1 ∧
      chunk_lines [] [['\n'], ['\n', 'x', '\n']].flatten = [[], [], ['x']] ∧
      (parse_reads sampleEnv ['a'] 0 0 ANALYZE_NONE [(1, ['\n']), (1, ['\n', 'x', '\n'])] NUL
          sampleFiles sampleReg []).map (fun r => screen r.1.2.2) =
        some [Ev.tprint ['a'] MSG_STDOUT [], Ev.tprint ['a'] MSG_STDOUT ['\n', 'x', '\n'],
          Ev.tprint ['a'] MSG_STDOUT ['x']]) ∧
    (chunk_lines [] ['\n', 'x', '\n'] = [[], ['x']] ∧
      (parse_reads sampleEnv ['a'] 0 0 ANALYZE_NONE [(1, ['\n', 'x', '\n'])] '\r'
          sampleKid sampleReg []).map (fun r => screen r.1.2.2) =
        some [Ev.tprint ['a'] MSG_STDOUT ['\n', 'x', '\n'],
          Ev.tprint ['a'] MSG_STDOUT ['x']]) :=
  ⟨by decide, by decide, by decide, by decide,
    (long_line_split _ (replicate_plain 1025 'a' (by decide) (by decide)).1
      (replicate_plain 1025 'a' (by decide) (by decide)).2
      (by rw [List.length_replicate]; decide)).1,
    long_line_reads _ (replicate_plain 1025 'a' (by decide) (by decide)).1
      (replicate_plain 1025 'a' (by decide) (by decide)).2
      (by rw [List.length_replicate]; decide),
    by decide, by decide, by decide, by decide, by decide⟩

/-- C12, amended: for a run child in the mode `MIXED` without `IFERR` (exec
state ok, not a test, any analyzer) whose stream has no residue, fed a sequence
of reads on one stream such that no chunk holds a NUL byte, no line is spread
over more than two reads, no line end `\r\n` is split between two reads, and
the byte in front of the read buffer is not `\r` and, when the output files
are open, not NUL: the calls of `parse_child` return, leave that byte as it
was, and what they add to the screen is, in order, exactly one line (kind
STDOUT or STDERR) for each newline-terminated line of the concatenation of the
chunks, without its `\n` and one trailing `\r`.  A line spread over more reads
is not delivered whole by design: when a chunk without newline arrives while
the residue `l` holds more than 1024 bytes, `l` is printed as a truncated line
and the chunk becomes the residue. -/
theorem screen_lines (env : Env) (guard : Char) (name : List Char) (verbose_tests : Int)
    (analyzer : Analyze) (kid : Child) (std : Int) (cs : List (List Char))
    (reg : Registry) (out : List Ev) (kidL : Child) (l b : List Char)
    (hstd : std = 1 ∨ std = 2) (ht : kid.test ≠ 1) (he : kid.execstate = 0)
    (hm : kid.output.mixed = true) (hi : kid.output.iferr = false)
    (hl : left_get kid std = none) (hg : guard ≠ '\r')
    (hf : kid.ofile = -1 ∨ guard ≠ NUL)
    (h0 : ∀ c ∈ cs, NUL ∉ c) (h2 : TwoReads cs) (h3 : WholeCRLF cs) :
    (∃ kid2 out2,
      parse_reads env name 0 verbose_tests analyzer (cs.map (fun c => (std, c))) guard
        kid reg out = some ((kid2, reg, out2), guard) ∧
      screen out2 = screen out ++
        (chunk_lines [] cs.flatten).map (Ev.tprint name (msg_kind std))) ∧
    (kidL.test ≠ 1 → kidL.execstate = 0 → kidL.output.mixed = true →
      kidL.output.iferr = false → left_get kidL std = some l → 1024 < l.length →
      '\n' ∉ b → NUL ∉ b → b ≠ [] →
      ∃ kid1 out1,
        parse_child env guard name 0 verbose_tests analyzer kidL std b reg out =
          some (kid1, reg, out1) ∧
        left_get kid1 std = some b ∧
        screen out1 = screen out ++ [Ev.tprint name (msg_trunc std) l]) := by
  constructor
  · have hrep : left_get kid std =
        (if chunk_rest [] ([] : List Char) = [] then none else some (chunk_rest [] [])) := by
      rw [hl]; rfl
    have hc2 : TwoReads ([] :: cs) := by
      cases cs with
      | nil => simp [TwoReads]
      | cons c cs => exact ⟨Or.inl rfl, h2⟩
    have hc3 : WholeCRLF ([] :: cs) := by
      cases cs with
      | nil => simp [WholeCRLF]
      | cons c cs => exact ⟨fun h => by simp [chunk_rest] at h, h3⟩
    rcases parse_chunks_print env guard name verbose_tests analyzer std reg hstd hg cs [] kid
      out hrep hm hi ht he h0 hc2 hc3 with ⟨kid2, out2, hp, hs⟩
    refine ⟨kid2, out2, ?_, hs⟩
    rw [parse_reads_eq env name 0 verbose_tests analyzer guard hg _ kid reg out hf, hp]
    rfl
  · intro htL heL hmL hiL hlL hlen hn hb0 hb
    have hc := chunk_effect_plain env name analyzer std b kidL hn hb0
    have hhead : b.head? = some '\n' → guard ≠ '\r' := by
      intro h
      cases b with
      | nil => simp at h
      | cons x r => simp at h; exact absurd (by simp [h]) hn
    rcases (parse_child_view env guard name verbose_tests analyzer kidL std b reg out
      hstd htL heL hhead).2 _ _ hc with ⟨o1, hp1, hs1⟩
    have hlen' : l.length > 1024 := hlen
    refine ⟨_, o1, hp1, ?_, ?_⟩
    · simp only [rest_effect, if_neg hb, hlL, if_pos hlen', left_get_set]
    · rw [hs1]
      simp [rest_effect, hb, hlL, hlen', hiL, hmL]

/-- C12 amended, at a concrete child: the reads `ab` and `c\r\nd\n` on stdout
put the lines `abc` and `d` on the screen; a residue of 1025 bytes followed by
the read `b` is printed as a truncated line. -/
theorem screen_lines_witness :
    (∃ kid2 out2,
      parse_reads sampleEnv ['a'] 0 0 ANALYZE_NONE
        [(1, ['a', 'b']), (1, ['c', '\r', '\n', 'd', '\n'])] 'x' sampleKid sampleReg [] =
        some ((kid2, sampleReg, out2), 'x') ∧
      screen out2 =
        [Ev.tprint ['a'] MSG_STDOUT ['a', 'b', 'c'], Ev.tprint ['a'] MSG_STDOUT ['d']]) ∧
    (∃ kid1 out1,
      parse_child sampleEnv 'x' ['a'] 0 0 ANALYZE_NONE sampleLongMixed 1 ['b'] sampleReg [] =
        some (kid1, sampleReg, out1) ∧
      left_get kid1 1 = some ['b'] ∧
      screen out1 = [Ev.tprint ['a'] MSG_STDOUTTRUNC (List.replicate 1025 'a')]) :=
  have h := screen_lines sampleEnv 'x' ['a'] 0 ANALYZE_NONE sampleKid 1
    [['a', 'b'], ['c', '\r', '\n', 'd', '\n']] sampleReg [] sampleLongMixed
    (List.replicate 1025 'a') ['b'] (by decide) (by decide) (by decide) (by decide)
    (by decide) (by decide) (by decide) (Or.inl (by decide)) (by decide) (by decide)
    (by decide)
  ⟨h.1, h.2 (by decide) (by decide) (by decide) (by decide) rfl
    (by rw [List.length_replicate]; decide) (by decide) (by decide) (by decide)⟩


/-! ## Theorems: registering targets -/

/-- C21: for every string `s`, `target_add(s)` appends exactly one target with
status 0, phase 0 and result 0 and leaves the existing targets, the default
method and the current pointer alone; when `s` begins with `sh:`, `rsh:`,
`ssh1:`, `ssh2:` or `ssh:` the method is 0, 1, 2, 3 or 4 and the stored name is
`s` without that prefix, otherwise the stored name is `s` and the method is
the default one; the value returned is the length of the stored name. -/
theorem target_add_spec (s : List Char) (r : Registry) :
    ∃ t : Target, (target_add s r).1.targets = r.targets ++ [t] ∧
      (target_add s r).1.type = r.type ∧ (target_add s r).1.tcur = r.tcur ∧
      t.status = 0 ∧ t.phase = 0 ∧ t.result = 0 ∧
      (target_add s r).2 = (t.name.length : Int) ∧
      (∀ rest, s = ['s', 'h', ':'] ++ rest → t.name = rest ∧ t.type = 0) ∧
      (∀ rest, s = ['r', 's', 'h', ':'] ++ rest → t.name = rest ∧ t.type = 1) ∧
      (∀ rest, s = ['s', 's', 'h', '1', ':'] ++ rest → t.name = rest ∧ t.type = 2) ∧
      (∀ rest, s = ['s', 's', 'h', '2', ':'] ++ rest → t.name = rest ∧ t.type = 3) ∧
      (∀ rest, s = ['s', 's', 'h', ':'] ++ rest → t.name = rest ∧ t.type = 4) ∧
      ((∀ rest, s ≠ ['s', 'h', ':'] ++ rest ∧ s ≠ ['r', 's', 'h', ':'] ++ rest ∧
          s ≠ ['s', 's', 'h', '1', ':'] ++ rest ∧ s ≠ ['s', 's', 'h', '2', ':'] ++ rest ∧
          s ≠ ['s', 's', 'h', ':'] ++ rest) →
        t.name = s ∧ t.type = r.type) := by
  refine ⟨_, rfl, rfl, rfl, rfl, rfl, rfl, rfl, ?_, ?_, ?_, ?_, ?_, ?_⟩
  · rintro rest rfl
    simp [hasPrefix]
  · rintro rest rfl
    simp [hasPrefix]
  · rintro rest rfl
    simp [hasPrefix]
  · rintro rest rfl
    simp [hasPrefix]
  · rintro rest rfl
    simp [hasPrefix]
  · intro h
    have hp : ∀ pfx : List Char, hasPrefix pfx s = true → s = pfx ++ s.drop pfx.length := by
      intro pfx hpfx
      simp only [hasPrefix, beq_iff_eq] at hpfx
      conv_lhs => rw [← List.take_append_drop pfx.length s]
      rw [hpfx]
    have h1 : hasPrefix ['s', 'h', ':'] s = false := by
      cases e : hasPrefix ['s', 'h', ':'] s with
      | false => rfl
      | true => exact absurd (hp _ e) (h _).1
    have h2 : hasPrefix ['r', 's', 'h', ':'] s = false := by
      cases e : hasPrefix ['r', 's', 'h', ':'] s with
      | false => rfl
      | true => exact absurd (hp _ e) (h _).2.1
    have h3 : hasPrefix ['s', 's', 'h', '1', ':'] s = false := by
      cases e : hasPrefix ['s', 's', 'h', '1', ':'] s with
      | false => rfl
      | true => exact absurd (hp _ e) (h _).2.2.1
    have h4 : hasPrefix ['s', 's', 'h', '2', ':'] s = false := by
      cases e : hasPrefix ['s', 's', 'h', '2', ':'] s with
      | false => rfl
      | true => exact absurd (hp _ e) (h _).2.2.2.1
    have h5 : hasPrefix ['s', 's', 'h', ':'] s = false := by
      cases e : hasPrefix ['s', 's', 'h', ':'] s with
      | false => rfl
      | true => exact absurd (hp _ e) (h _).2.2.2.2
    simp [target_add, h1, h2, h3, h4, h5]

/-- C21 at a concrete name: `ssh:u@host` added to the sample registry. -/
theorem target_add_spec_witness :
    ∃ t : Target,
      (target_add ['s', 's', 'h', ':', 'u', '@', 'h'] sampleReg).1.targets =
        sampleReg.targets ++ [t] ∧
      t.status = 0 ∧ t.phase = 0 ∧ t.result = 0 ∧ t.name = ['u', '@', 'h'] ∧ t.type = 4 ∧
      (target_add ['s', 's', 'h', ':', 'u', '@', 'h'] sampleReg).2 = 3 := by
  obtain ⟨t, h1, _, _, h4, h5, h6, h7, _, _, _, _, h12, _⟩ :=
    target_add_spec ['s', 's', 'h', ':', 'u', '@', 'h'] sampleReg
  have hn := h12 ['u', '@', 'h'] rfl
  exact ⟨t, h1, h4, h5, h6, hn.1, hn.2, by rw [h7, hn.1]; rfl⟩


/-! ## Theorems: the descriptor budget, the exit file, the test residue, the mode `ONE` -/

/-- C24 fails on the code: with factor 3, `max = 100` and an open-file limit
of 64 that cannot be raised, the largest parallelism that fits is 15
(`(15 + 3) * 3 + 10 <= 64 < (16 + 3) * 3 + 10`), and `setup_fdlimit` computes
and announces 15; but it changes its own copy of `max` and returns nothing, so
`loop` goes on with 101 slots, as for `max = 100`. -/
theorem fdlimit_bug :
    setup_fdlimit 3 100 64 64 = (64, 15) ∧
    fd_budget 3 15 ≤ 64 ∧ 64 < fd_budget 3 16 ∧ 64 < fd_budget 3 100 ∧
    loop_slots none 100 64 64 = 100 + 1 ∧ loop_slots none 100 64 64 ≠ 15 + 1 := by
  decide

/-- C25: for every exit status `c` in 0..255 the text written to the `.exit`
file is the whole decimal representation of `c` (at most 3 digits, which the
4-byte buffer holds with its NUL), and reading it as a decimal number gives
`c` back. -/
theorem exit_text_spec (c : Nat) (hc : c ≤ 255) :
    exit_text c = fmt_u c ∧ (exit_text c).length ≤ 3 ∧ NUL ∉ exit_text c ∧
      parse_decimal (exit_text c) = c := by
  interval_cases c <;> exact ⟨rfl, by decide, by decide, rfl⟩

/-- C25 at a concrete status: 255 is written as `255`. -/
theorem exit_text_spec_witness :
    exit_text 255 = fmt_u 255 ∧ (exit_text 255).length ≤ 3 ∧ NUL ∉ exit_text 255 ∧
      parse_decimal (exit_text 255) = 255 :=
  exit_text_spec 255 (by decide)

/-- C26 fails on the code: a test child writes `x` and then, in a second
write, `SHMUX.\n`; its only line on stdout is `xSHMUX.`, bytes were received
before the sentinel, yet `parse_child` compares only the part of the line that
lies in the second read with `SHMUX.` and the test is passed (`passed == 1`,
and the finalization calls `target_result(1)`). -/
theorem test_residue_bug :
    sampleTest.test = 1 ∧ sampleTest.passed = 0 ∧
    stream_lines [] [] [(1, ['x']), (1, SHMUX_DOT ++ ['\n'])] = [(1, 'x' :: SHMUX_DOT)] ∧
    (parse_chunks sampleEnv 'x' ['a'] 0 0 ANALYZE_NONE [(1, ['x'])] sampleTest sampleReg []).map
        (fun r => (r.1.passed, r.1.obuf)) = some (0, some ['x']) ∧
    (parse_chunks sampleEnv 'x' ['a'] 0 0 ANALYZE_NONE
        [(1, ['x']), (1, SHMUX_DOT ++ ['\n'])] sampleTest sampleReg []).map
        (fun r => (r.1.passed, result_arg r.1)) = some (1, 1) := by
  decide

/-- C27 fails on the code: in spawn mode `CHECK` two run children are
spawned; the operator presses `1`, which sets the mode `ONE`; the scan then
reaches the slot of the first child, which has exited with status 0, before
any free slot spawns a run child (there is no target left to spawn), and
`set_cmdstatus(CMD_SUCCESS)` is entered in mode `ONE`: its assertion fails.
Without the key the same finalization succeeds. -/
theorem spawn_one_assert_bug :
    (loop_steps [.free_slot 10, .free_slot 10] sampleEngine).map
        (fun e => (e.spawn_mode, e.reg.targets.map (fun t => (t.phase, t.status)))) =
      some (SPAWN_CHECK, [(3, 2), (3, 2)]) ∧
    (loop_steps [.free_slot 10, .free_slot 10, .key '1', .free_slot 11] sampleEngine).map
        (fun e => e.spawn_mode) = some SPAWN_ONE ∧
    exit_verdict sampleEnv ['a'] sampleKid.output none ANALYZE_NONE 1 sampleKid (.exited 0) =
      some (some CMD_SUCCESS, sampleKid, []) ∧
    loop_steps [.free_slot 10, .free_slot 10, .key '1', .free_slot 11, .reap 0 CMD_SUCCESS]
        sampleEngine = none ∧
    (loop_steps [.free_slot 10, .free_slot 10, .reap 0 CMD_SUCCESS] sampleEngine).map
        (fun e => e.spawn_mode) = some SPAWN_CHECK := by
  decide


/-! ## Theorems: `split_argv` -/

theorem deref_cons (c : Char) (rest : List Char) : deref (c :: rest) = c := rfl

theorem copy_arg_succ (fuel : Nat) (q : Char) (opts buf : List Char) :
    copy_arg (fuel + 1) q opts buf =
      if deref opts ≠ NUL ∧ (q ≠ NUL ∨ isspace (deref opts) = false) then
        if q ≠ NUL then
          if q = deref opts then
            if q ≠ deref opts.tail then copy_arg fuel NUL opts.tail buf
            else copy_arg fuel q opts.tail.tail (buf ++ [deref opts.tail])
          else copy_arg fuel q opts.tail (buf ++ [deref opts])
        else if deref opts = '"' ∨ deref opts = '\\' then
          copy_arg fuel (deref opts) opts.tail buf
        else copy_arg fuel q opts.tail (buf ++ [deref opts])
      else some (opts, buf) := by
  rw [copy_arg]

theorem copy_span (a : List Char) :
    ∀ (fuel : Nat) (q : Char) (rest buf : List Char), q ≠ NUL → NUL ∉ a → q ∉ a →
      copy_arg (fuel + a.length) q (a ++ rest) buf = copy_arg fuel q rest (buf ++ a) := by
  induction a with
  | nil => intro fuel q rest buf _ _ _; simp
  | cons c a ih =>
    intro fuel q rest buf hq h0 hqa
    have hc0 : c ≠ NUL := fun e => h0 (by simp [e])
    have hqc : q ≠ c := fun e => hqa (by simp [e])
    have h0' : NUL ∉ a := fun e => h0 (by simp [e])
    have hqa' : q ∉ a := fun e => hqa (by simp [e])
    show copy_arg (fuel + a.length + 1) q (c :: (a ++ rest)) buf = _
    rw [copy_arg_succ]
    simp only [deref_cons, List.tail_cons]
    rw [if_pos ⟨hc0, Or.inl hq⟩, if_pos hq, if_neg hqc]
    rw [ih fuel q rest (buf ++ [c]) hq h0' hqa']
    simp

theorem copy_open (fuel : Nat) (q : Char) (rest buf : List Char)
    (hq : q = '"' ∨ q = '\\') :
    copy_arg (fuel + 1) NUL (q :: rest) buf = copy_arg fuel q rest buf := by
  have hq0 : q ≠ NUL := by rcases hq with e | e <;> rw [e] <;> decide
  have hsp : isspace q = false := by rcases hq with e | e <;> rw [e] <;> decide
  rw [copy_arg_succ]
  simp only [deref_cons, List.tail_cons]
  rw [if_pos ⟨hq0, Or.inr hsp⟩, if_neg (fun h => h rfl), if_pos hq]

theorem copy_doubled (fuel : Nat) (q : Char) (rest buf : List Char) (hq : q ≠ NUL) :
    copy_arg (fuel + 1) q (q :: q :: rest) buf = copy_arg fuel q rest (buf ++ [q]) := by
  rw [copy_arg_succ]
  simp only [deref_cons, List.tail_cons]
  rw [if_pos ⟨hq, Or.inl hq⟩, if_pos hq, if_pos trivial, if_neg (fun h => h rfl)]

theorem copy_close (fuel : Nat) (q : Char) (rest buf : List Char) (hq : q ≠ NUL)
    (hd : deref rest ≠ q) :
    copy_arg (fuel + 1) q (q :: rest) buf = copy_arg fuel NUL rest buf := by
  rw [copy_arg_succ]
  simp only [deref_cons, List.tail_cons]
  rw [if_pos ⟨hq, Or.inl hq⟩, if_pos hq, if_pos trivial, if_pos (fun e => hd e.symm)]

theorem copy_plain (fuel : Nat) (c : Char) (rest buf : List Char) (hc : c ≠ NUL)
    (hs : isspace c = false) (hq : ¬ (c = '"' ∨ c = '\\')) :
    copy_arg (fuel + 1) NUL (c :: rest) buf = copy_arg fuel NUL rest (buf ++ [c]) := by
  rw [copy_arg_succ]
  simp only [deref_cons, List.tail_cons]
  rw [if_pos ⟨hc, Or.inr hs⟩, if_neg (fun h => h rfl), if_neg hq]

theorem copy_stop (fuel : Nat) (q : Char) (opts buf : List Char)
    (h : deref opts = NUL ∨ (q = NUL ∧ isspace (deref opts) = true)) :
    copy_arg (fuel + 1) q opts buf = some (opts, buf) := by
  have hcond : ¬ (deref opts ≠ NUL ∧ (q ≠ NUL ∨ isspace (deref opts) = false)) := by
    rcases h with e | ⟨e1, e2⟩
    · simp [e]
    · simp [e1, e2]
  rw [copy_arg_succ, if_neg hcond]


theorem deref_nul_of_nil : deref [] = NUL := rfl

theorem dropWhile_nonspace (c : Char) (rest : List Char) (hs : isspace c = false) :
    (c :: rest).dropWhile (fun c => c != NUL && isspace c) = c :: rest := by
  simp [List.dropWhile, hs]

theorem split_single (s w : List Char) (maxargs : Int) (hmax : 0 < maxargs)
    (h0 : deref s ≠ NUL) (hs : isspace (deref s) = false) (hw : NUL ∉ w)
    (hcopy : copy_arg (s.length + 1) NUL s [] = some ([], w)) :
    split_argv (some s) maxargs = some ⟨1, [0], w ++ [NUL]⟩ ∧
      arg_strings ⟨1, [0], w ++ [NUL]⟩ = [w] := by
  constructor
  · cases s with
    | nil => exact absurd rfl h0
    | cons c rest =>
      rw [deref_cons] at h0 hs
      have hna : ¬ (((([] : List Nat).length : Nat) : Int) ≥ maxargs) := by
        simp only [List.length_nil]; push_cast; omega
      simp only [split_argv, gt_iff_lt, if_pos hmax, deref_cons, if_neg h0]
      show split_loop maxargs ((c :: rest).length + 1) (c :: rest) [] [] = _
      rw [split_loop]
      simp only [deref_cons, if_neg h0, if_neg hna, dropWhile_nonspace c rest hs, hcopy]
      simp only [List.length_cons]
      rw [split_loop]
      simp [deref, NUL]
  · unfold arg_strings cstr
    simp only [List.map_cons, List.map_nil, List.drop_zero]
    rw [takeWhile_nul w [] hw]

theorem doubled_copy (q : Char) (a b : List Char) (hq : q = '"' ∨ q = '\\')
    (ha : NUL ∉ a ∧ q ∉ a) (hb : NUL ∉ b ∧ q ∉ b) :
    copy_arg ((q :: (a ++ q :: q :: (b ++ [q]))).length + 1) NUL
      (q :: (a ++ q :: q :: (b ++ [q]))) [] = some ([], a ++ q :: b) := by
  have hq0 : q ≠ NUL := by rcases hq with e | e <;> rw [e] <;> decide
  have hlen : (q :: (a ++ q :: q :: (b ++ [q]))).length + 1 =
      (((2 + 1) + b.length) + 1 + a.length) + 1 := by
    simp only [List.length_cons, List.length_append, List.length_nil]; omega
  rw [hlen, copy_open _ q _ _ hq, copy_span a _ q _ _ hq0 ha.1 ha.2,
    copy_doubled _ q _ _ hq0, copy_span b _ q _ _ hq0 hb.1 hb.2,
    copy_close _ q [] _ hq0 (fun e => hq0 e.symm), copy_stop _ NUL [] _ (Or.inl rfl)]
  simp

theorem dangling_copy (q : Char) (a : List Char) (hq : q = '"' ∨ q = '\\')
    (ha : NUL ∉ a ∧ q ∉ a) :
    copy_arg ((q :: a).length + 1) NUL (q :: a) [] = some ([], a) := by
  have hq0 : q ≠ NUL := by rcases hq with e | e <;> rw [e] <;> decide
  have hlen : (q :: a).length + 1 = (0 + 1 + a.length) + 1 := by
    simp only [List.length_cons]; omega
  have h := copy_span a (0 + 1) q [] [] hq0 ha.1 ha.2
  rw [List.append_nil] at h
  rw [hlen, copy_open _ q _ _ hq, h, copy_stop _ q [] _ (Or.inl rfl)]
  simp

/-- C22 (counterexample): for the option string `"a"" b"` the call
`split_argv` returns one argument, `a" b`: the doubled quote has put a quote
into the argument but has not ended the quoted span, so the blank after it does
not separate two arguments. -/
theorem doubled_quote_counterexample :
    (split_argv (some ['"', 'a', '"', '"', ' ', 'b', '"']) 8).map
      (fun r => (r.ret, arg_strings r)) = some (1, [['a', '"', ' ', 'b']]) := by
  decide

/-- C22 (amended): within a span opened by the quote `q` (`"` or `\`), a
doubled `q` puts one `q` into the current argument and the span stays open:
whatever follows up to the next single `q`, whitespace included, stays in the
same argument, so `q a q q b q` is the one argument `a q b`; a span still open
at the end of the string is closed there, so `q a` is the one argument `a`. -/
theorem doubled_quote_spec (q : Char) (a b : List Char) (maxargs : Int)
    (hq : q = '"' ∨ q = '\\') (hmax : 0 < maxargs)
    (ha : NUL ∉ a ∧ q ∉ a) (hb : NUL ∉ b ∧ q ∉ b) :
    (split_argv (some (q :: (a ++ q :: q :: (b ++ [q])))) maxargs).map
        (fun r => (r.ret, arg_strings r)) = some (1, [a ++ q :: b]) ∧
      (split_argv (some (q :: a)) maxargs).map
        (fun r => (r.ret, arg_strings r)) = some (1, [a]) := by
  have hq0 : q ≠ NUL := by rcases hq with e | e <;> rw [e] <;> decide
  have hsp : isspace q = false := by rcases hq with e | e <;> rw [e] <;> decide
  have hw : NUL ∉ a ++ q :: b := by
    intro h
    rcases List.mem_append.mp h with h | h
    · exact ha.1 h
    · rcases List.mem_cons.mp h with h | h
      · exact hq0 h.symm
      · exact hb.1 h
  have h1 := split_single (q :: (a ++ q :: q :: (b ++ [q]))) (a ++ q :: b) maxargs hmax
    hq0 hsp hw (doubled_copy q a b hq ha hb)
  have h2 := split_single (q :: a) a maxargs hmax hq0 hsp ha.1 (dangling_copy q a hq ha)
  constructor
  · rw [h1.1, Option.map_some', h1.2]
  · rw [h2.1, Option.map_some', h2.2]

theorem doubled_quote_spec_witness :
    (split_argv (some ('"' :: (['a'] ++ '"' :: '"' :: ([' ', 'b'] ++ ['"'])))) 8).map
        (fun r => (r.ret, arg_strings r)) = some (1, [['a'] ++ '"' :: [' ', 'b']]) ∧
      (split_argv (some ('"' :: ['a'])) 8).map
        (fun r => (r.ret, arg_strings r)) = some (1, [['a']]) :=
  doubled_quote_spec '"' ['a'] [' ', 'b'] 8 (Or.inl rfl) (by decide) (by decide) (by decide)

/-- C23 fails on the code: the option string `a ` (one argument, then a blank) with
`maxargs = 1`: `split_argv` returns `-1` although the string holds one argument
only, as the same call with `maxargs = 2` (which returns 1) shows; the test
`i >= maxargs` comes before the trailing whitespace is skipped. -/
theorem split_argv_spurious :
    (split_argv (some ['a', ' ']) 1).map (fun r => (r.ret, arg_strings r)) =
        some (-1, [['a']]) ∧
      (split_argv (some ['a', ' ']) 2).map (fun r => (r.ret, arg_strings r)) =
        some (1, [['a']]) ∧
      (split_argv (some ['a']) 1).map (fun r => (r.ret, arg_strings r)) =
        some (1, [['a']]) := by
  decide

/-- C29 fails on the code: for the option string `a` the buffer is allocated with
`strlen(opts) = 1` byte, and `split_argv` stores two bytes into it, the
character `a` and the terminating NUL. -/
theorem split_argv_overflow :
    strlen ['a'] = 1 ∧
      (split_argv (some ['a']) 1).map (fun r => (r.ret, r.buf)) = some (1, ['a', NUL]) ∧
      (split_argv (some ['a']) 1).map (fun r => decide (r.buf.length ≤ strlen ['a'])) =
        some false := by
  decide

/-! ## Theorems: `target_getcmd` -/

theorem setbyhname_scan_spec (host : List Char) (ts : List Target) (k : Int) :
    (∃ (i : Nat) (t : Target), setbyhname_scan host ts k = k + (i : Int) ∧
        ts[i]? = some t ∧ HostMatch host t ∧
        ∀ j : Nat, j < i → ∀ u, ts[j]? = some u → ¬ HostMatch host u) ∨
    (setbyhname_scan host ts k = k + (ts.length : Int) ∧ ∀ u ∈ ts, ¬ HostMatch host u) := by
  induction ts generalizing k with
  | nil => right; simp [setbyhname_scan]
  | cons t rest ih =>
    by_cases h : HostMatch host t
    · left
      refine ⟨0, t, ?_, by simp, h, fun j hj => by omega⟩
      have h' : strcasecmp_eq (hname t.name) host = true := h
      simp only [setbyhname_scan, h', if_true]
      simp
    · have h' : ¬ strcasecmp_eq (hname t.name) host = true := h
      have e : setbyhname_scan host (t :: rest) k = setbyhname_scan host rest (k + 1) := by
        simp only [setbyhname_scan]
        rw [if_neg h']
      rw [e]
      rcases ih (k + 1) with ⟨i, u, hi, hu, hm, hl⟩ | ⟨hlen, hall⟩
      · left
        refine ⟨i + 1, u, ?_, by simpa using hu, hm, ?_⟩
        · rw [hi]; push_cast; ring
        · intro j hj v hv
          cases j with
          | zero => simp at hv; subst hv; exact h
          | succ j => exact hl j (by omega) v (by simpa using hv)
      · right
        refine ⟨?_, ?_⟩
        · rw [hlen]; simp only [List.length_cons]; push_cast; ring
        · intro v hv
          rcases List.mem_cons.mp hv with rfl | hv
          · exact h
          · exact hall v hv

theorem result_at (reg reg' : Registry) (i : Nat) (ok : Int)
    (h : target_result ok { reg with tcur := (i : Int) } = some reg') :
    ∀ (j : Nat) (u : Target), reg.targets[j]? = some u → reg'.targets[j]? ≠ some u → j = i := by
  intro j u hj hne
  by_contra hji
  have hother : ∀ t' : Target,
      (setcurrent { reg with tcur := (i : Int) } t').targets[j]? = reg.targets[j]? := by
    intro t'
    have := setcurrent_other { reg with tcur := (i : Int) } t' j (by simpa using hji)
      (by simp)
    simpa using this
  unfold target_result at h
  split at h
  · cases h
  · split_ifs at h <;> simp only [Option.some.injEq] at h <;>
      exact hne (by rw [← h, hother, hj])

theorem fping_at (reg : Registry) (i : Nat) (t : Target) (remainder : List Char)
    (hget : reg.targets[i]? = some t)
    (hassert : -1 ≤ t.status ∧ t.status < 4 ∧ 0 < t.phase ∧ t.phase ≤ 4)
    (hres : remainder = IS_ALIVE → t.result ≠ CMD_ERROR) :
    ∃ reg' t',
      (if remainder = IS_ALIVE then target_result 1 { reg with tcur := (i : Int) }
        else target_result 0 { reg with tcur := (i : Int) }) = some reg' ∧
      reg'.targets[i]? = some t' ∧
      (remainder = IS_ALIVE → t' = { t with status := t.phase }) ∧
      (remainder ≠ IS_ALIVE → t' = { t with status := -1, result := CMD_FAILURE }) ∧
      ∀ j : Nat, j ≠ i → reg'.targets[j]? = reg.targets[j]? := by
  have hlt : i < reg.targets.length := (List.getElem?_eq_some.mp hget).1
  have hcur : current { reg with tcur := (i : Int) } = some t := by
    simp [current, hget]
  have hother : ∀ (t' : Target) (j : Nat), j ≠ i →
      (setcurrent { reg with tcur := (i : Int) } t').targets[j]? = reg.targets[j]? := by
    intro t' j hj
    have := setcurrent_other { reg with tcur := (i : Int) } t' j (by simpa using hj)
      (by simp)
    simpa using this
  have hself : ∀ t' : Target,
      (setcurrent { reg with tcur := (i : Int) } t').targets[i]? = some t' := by
    intro t'
    simp [setcurrent, List.getElem?_set_self hlt]
  by_cases hal : remainder = IS_ALIVE
  · have hne := hres hal
    refine ⟨setcurrent { reg with tcur := (i : Int) } { t with status := t.phase },
      { t with status := t.phase }, ?_, hself _, fun _ => rfl, fun h => absurd hal h, hother _⟩
    simp [hal, target_result, hcur, hassert, hne]
  · refine ⟨setcurrent { reg with tcur := (i : Int) }
        { t with status := -1, result := CMD_FAILURE },
      { t with status := -1, result := CMD_FAILURE }, ?_, hself _,
      fun h => absurd h hal, fun _ => rfl, hother _⟩
    simp [hal, target_result, hcur, hassert]

/-- C28 (counterexample): the target `h` has answered its ping (phase 1,
status 1) and no target is being pinged under that name; the line
`h is unreachable` makes `parse_fping` rewrite it to status -1 with result
failure, through the fallback `target_setbyhname`. -/
theorem fping_frame_counterexample :
    (parse_fping (['h'] ++ ' ' :: IS_UNREACHABLE) sampleAlive).map (fun r => r.targets) =
      some [⟨['h'], 4, -1, 1, 0, CMD_FAILURE⟩, ⟨['b'], 4, 0, 1, 0, 0⟩] := by
  decide

/-- C28 (amended): for a ping output line `<host> <remainder>`, `parse_fping`
changes at most one target: the lowest-indexed target being pinged (phase 1,
status 0) under that host name, or, when no target is being pinged under it,
the lowest-indexed target with that host name whatever its phase and status.
In that second case, when the assertions of `target_result` hold for the
target, it gets status = phase for the remainder `is alive` and otherwise
status -1 with result failure, and no other target changes.  A line without a
space changes nothing. -/
theorem fping_frame (reg : Registry) (host remainder : List Char) (hhost : ' ' ∉ host) :
    (∀ reg', parse_fping (host ++ ' ' :: remainder) reg = some reg' →
      ∀ (j : Nat) (u : Target), reg.targets[j]? = some u → reg'.targets[j]? ≠ some u →
        LeastPinged reg host j u ∨
          ((∀ v ∈ reg.targets, ¬ PongMatch host v) ∧ LeastHost reg host j u)) ∧
      (∀ (i : Nat) (t : Target), LeastHost reg host i t →
        (∀ v ∈ reg.targets, ¬ PongMatch host v) →
        (-1 ≤ t.status ∧ t.status < 4 ∧ 0 < t.phase ∧ t.phase ≤ 4) →
        (remainder = IS_ALIVE → t.result ≠ CMD_ERROR) →
        ∃ reg' t', parse_fping (host ++ ' ' :: remainder) reg = some reg' ∧
          reg'.targets[i]? = some t' ∧
          (remainder = IS_ALIVE → t' = { t with status := t.phase }) ∧
          (remainder ≠ IS_ALIVE → t' = { t with status := -1, result := CMD_FAILURE }) ∧
          ∀ j : Nat, j ≠ i → reg'.targets[j]? = reg.targets[j]?) ∧
      (∀ line : List Char, ' ' ∉ line → parse_fping line reg = some reg) := by
  rcases split_at_space host remainder hhost with ⟨hd, ht⟩
  have hfall : (∀ v ∈ reg.targets, ¬ PongMatch host v) →
      target_pong (some host) reg = ({ reg with tcur := (reg.targets.length : Int) }, -1) := by
    intro hnm
    have hscan : pong_scan (some host) reg.targets 0 = (reg.targets.length : Int) := by
      rcases pong_scan_spec host reg.targets 0 with ⟨k, u, _, hu, hm, _⟩ | ⟨hlen, _⟩
      · exact absurd hm (hnm u (List.mem_iff_getElem?.mpr ⟨k, hu⟩))
      · simpa using hlen
    simp only [target_pong, hscan, tmax]
    rw [if_pos (by omega)]
  have hhit : ∀ (i : Nat) (t : Target), LeastHost reg host i t →
      target_setbyhname host { reg with tcur := (reg.targets.length : Int) } =
        ({ reg with tcur := (i : Int) }, 0) := by
    intro i t ⟨hget, hmatch, hleast⟩
    have hlt : i < reg.targets.length := (List.getElem?_eq_some.mp hget).1
    have hscan : setbyhname_scan host reg.targets 0 = (i : Int) := by
      rcases setbyhname_scan_spec host reg.targets 0 with ⟨k, u, hk, hu, hm, hl⟩ | ⟨_, hall⟩
      · rcases Nat.lt_trichotomy i k with h | h | h
        · exact absurd hmatch (hl i h t hget)
        · rw [hk, h]; simp
        · exact absurd hm (hleast k h u hu)
      · exact absurd hmatch (hall t (List.mem_iff_getElem?.mpr ⟨i, hget⟩))
    simp only [target_setbyhname, hscan, tmax]
    rw [if_neg (by simp only [gt_iff_lt, not_lt]; omega)]
  refine ⟨?_, ?_, ?_⟩
  · intro reg' h j u hj hne
    simp only [parse_fping, hd, ht] at h
    rcases pong_scan_spec host reg.targets 0 with ⟨i, t, hi, hget, hm, hl⟩ | ⟨_, hnm⟩
    · have hlt : i < reg.targets.length := (List.getElem?_eq_some.mp hget).1
      have hpong : target_pong (some host) reg = ({ reg with tcur := (i : Int) }, 0) := by
        simp only [target_pong, hi, tmax]
        rw [if_neg (by omega)]
        simp
      simp only [hpong] at h
      simp only [ne_eq, not_true_eq_false, if_false, false_and] at h
      have hji : j = i := by
        by_cases hal : remainder = IS_ALIVE
        · rw [if_pos hal] at h
          exact result_at reg reg' i 1 h j u hj hne
        · rw [if_neg hal] at h
          exact result_at reg reg' i 0 h j u hj hne
      subst hji
      rw [hget] at hj
      simp only [Option.some.injEq] at hj
      subst hj
      exact Or.inl ⟨hget, hm, hl⟩
    · right
      refine ⟨hnm, ?_⟩
      rw [hfall hnm] at h
      rcases setbyhname_scan_spec host reg.targets 0 with ⟨i, t, hi, hget, hm, hl⟩ | ⟨hlen, hall⟩
      · rw [hhit i t ⟨hget, hm, hl⟩] at h
        simp at h
        have hji : j = i := by
          by_cases hal : remainder = IS_ALIVE
          · rw [if_pos hal] at h
            exact result_at reg reg' i 1 h j u hj hne
          · rw [if_neg hal] at h
            exact result_at reg reg' i 0 h j u hj hne
        subst hji
        rw [hget] at hj
        simp only [Option.some.injEq] at hj
        subst hj
        exact ⟨hget, hm, hl⟩
      · exfalso
        have hset : target_setbyhname host { reg with tcur := (reg.targets.length : Int) } =
            ({ reg with tcur := (reg.targets.length : Int) }, -1) := by
          have hscan : setbyhname_scan host reg.targets 0 = (reg.targets.length : Int) := by
            simpa using hlen
          simp only [target_setbyhname, hscan, tmax]
          rw [if_pos (by simp)]
        rw [hset] at h
        simp at h
        rw [← h] at hne
        exact hne hj
  · intro i t hleast hnm hassert hres
    rcases fping_at reg i t remainder hleast.1 hassert hres with ⟨reg', t', e, h1, h2, h3, h4⟩
    refine ⟨reg', t', ?_, h1, h2, h3, h4⟩
    simp only [parse_fping, hd, ht]
    rw [hfall hnm, hhit i t hleast]
    simpa using e
  · intro line hline
    simp only [parse_fping, no_space line hline]

/-- C28 (amended) at a concrete registry: the line `h is unreachable` while the
target `h` has already answered and `b` is being pinged. -/
theorem fping_frame_witness :
    ∃ reg' t', parse_fping (['h'] ++ ' ' :: IS_UNREACHABLE) sampleAlive = some reg' ∧
      reg'.targets[0]? = some t' ∧
      t' = { (⟨['h'], 4, 1, 1, 0, 0⟩ : Target) with status := -1, result := CMD_FAILURE } ∧
      reg'.targets[1]? = sampleAlive.targets[1]? := by
  obtain ⟨reg', t', h1, h2, _, h4, h5⟩ :=
    (fping_frame sampleAlive ['h'] IS_UNREACHABLE (by decide)).2.1 0 ⟨['h'], 4, 1, 1, 0, 0⟩
      ⟨rfl, by decide, fun j hj => absurd hj (Nat.not_lt_zero j)⟩ (by decide) (by decide)
      (fun _ => by decide)
  exact ⟨reg', t', h1, h2, h4 (by decide), h5 1 (by decide)⟩

/-! ## Theorems: the verdict of a run child that exited -/

theorem parse_output_outmode (env : Env) (name : List Char) (analyzer : Analyze) (std : Int)
    (s s2 : Parse) (hla : ¬ (analyzer = ANALYZE_LNRE ∨ analyzer = ANALYZE_LNPCRE))
    (h : parse_output env name analyzer std s = some s2) :
    s2.kid.output = s.kid.output := by
  have hc : ¬ (s.kid.output.err = false ∧
      (analyzer = ANALYZE_LNRE ∨ analyzer = ANALYZE_LNPCRE)) := fun h => hla h.2
  unfold parse_output at h
  simp only [if_neg hc] at h
  split at h <;> (simp at h; rw [← h])

theorem parse_general_outmode (env : Env) (name : List Char) (isfping : Int)
    (analyzer : Analyze) (std : Int) (s s2 : Parse)
    (hla : ¬ (analyzer = ANALYZE_LNRE ∨ analyzer = ANALYZE_LNPCRE))
    (h : parse_general env name isfping analyzer std s = some s2) :
    s2.kid.output = s.kid.output := by
  unfold parse_general at h
  split at h
  · split at h
    · simp at h; rw [← h]
    · exact parse_output_outmode env name analyzer std s s2 hla h
  · cases hp : parse_fping (cstr s.mem s.start) s.reg with
    | none => simp [hp] at h
    | some r => simp [hp] at h; rw [← h]

theorem parse_line_outmode (env : Env) (name : List Char) (isfping : Int)
    (analyzer : Analyze) (std : Int) (s s2 : Parse)
    (hla : ¬ (analyzer = ANALYZE_LNRE ∨ analyzer = ANALYZE_LNPCRE))
    (h : parse_line env name isfping analyzer std s = some s2) :
    s2.kid.output = s.kid.output := by
  unfold parse_line at h
  simp only at h
  generalize (if peek s.mem (s.nl - 1) = '\r' then s.mem.set (s.nl - 1) NUL
    else s.mem.set s.nl NUL) = mem1 at h
  by_cases h2 : s.kid.execstate = 2
  · rw [if_pos h2] at h
    simp at h; rw [← h]; rfl
  · rw [if_neg h2] at h
    by_cases h1 : s.kid.execstate = 1 ∧ cstr mem1 s.start = SHMUCK
    · rw [if_pos h1] at h
      simp at h; rw [← h]; rfl
    · rw [if_neg h1] at h
      by_cases h0 : s.kid.execstate = 1 ∨ s.kid.execstate = 0
      · rw [if_pos h0, Option.map_eq_some'] at h
        obtain ⟨s1, h3, h4⟩ := h
        have := parse_general_outmode env name isfping analyzer std _ s1 hla h3
        rw [← h4]
        simp only [next_line, if_true, left_set_output]
        rw [this]
      · rw [if_neg h0] at h
        cases h

theorem parse_lines_outmode (env : Env) (name : List Char) (isfping : Int)
    (analyzer : Analyze) (std : Int)
    (hla : ¬ (analyzer = ANALYZE_LNRE ∨ analyzer = ANALYZE_LNPCRE)) (fuel : Nat) :
    ∀ (s s2 : Parse), parse_lines env name isfping analyzer std fuel s = some s2 →
      s2.kid.output = s.kid.output := by
  induction fuel with
  | zero => intro s s2 h; simp [parse_lines] at h
  | succ f ih =>
    intro s s2 h
    simp only [parse_lines] at h
    by_cases hz : peek s.mem s.nl = NUL
    · rw [if_pos hz] at h
      simp at h; rw [h]
    · rw [if_neg hz] at h
      by_cases hn : peek s.mem s.nl ≠ '\n'
      · rw [if_pos hn] at h
        exact ih { s with nl := s.nl + 1 } s2 h
      · rw [if_neg hn] at h
        cases h1 : parse_line env name isfping analyzer std s with
        | none => simp [h1] at h
        | some s1 =>
          simp only [h1] at h
          rw [ih _ _ h, parse_line_outmode env name isfping analyzer std s s1 hla h1]

theorem parse_rest_outmode (env : Env) (name : List Char) (isfping : Int)
    (analyzer : Analyze) (std : Int) (s s2 : Parse)
    (hla : ¬ (analyzer = ANALYZE_LNRE ∨ analyzer = ANALYZE_LNPCRE))
    (h : parse_rest env name isfping analyzer std s = some s2) :
    s2.kid.output = s.kid.output := by
  have hb : (analyzer == ANALYZE_LNRE || analyzer == ANALYZE_LNPCRE) = false := by
    cases hq : (analyzer == ANALYZE_LNRE || analyzer == ANALYZE_LNPCRE) with
    | false => rfl
    | true =>
      simp only [Bool.or_eq_true, beq_iff_eq] at hq
      exact absurd hq hla
  unfold parse_rest at h
  split at h
  · split at h
    · cases h
    · split at h
      · simp only at h
        split at h
        · simp at h; rw [← h]; exact left_set_output _ _ _
        · split at h
          · simp at h; rw [← h]
            simp only [left_set_output, hb, Bool.and_false]
            simp
            intro _ hq
            exact absurd hq hla
          · simp at h; rw [← h]; exact left_set_output _ _ _
      · split at h
        · simp at h; rw [h]
        · cases h
  · simp at h; rw [h]

theorem parse_child_outmode (env : Env) (guard : Char) (name : List Char)
    (isfping verbose_tests : Int) (analyzer : Analyze) (kid : Child) (std : Int)
    (buffer : List Char) (reg : Registry) (out : List Ev)
    (r : Child × Registry × List Ev)
    (hla : ¬ (analyzer = ANALYZE_LNRE ∨ analyzer = ANALYZE_LNPCRE))
    (h : parse_child env guard name isfping verbose_tests analyzer kid std buffer reg out =
      some r) :
    r.1.output = kid.output := by
  unfold parse_child at h
  split at h
  · simp only at h
    split at h
    · cases h
    · rename_i s1 h1
      rw [Option.map_eq_some'] at h
      obtain ⟨s2, h2, h3⟩ := h
      rw [← h3]
      show s2.kid.output = kid.output
      rw [parse_rest_outmode env name isfping analyzer std s1 s2 hla h2,
        parse_lines_outmode env name isfping analyzer std hla _ _ s1 h1]
  · cases h

theorem slot_step_outmode (env : Env) (name : List Char) (isfping verbose_tests : Int)
    (analyzer : Analyze) (st : SlotStep) (s s1 : Slot)
    (hla : ¬ (analyzer = ANALYZE_LNRE ∨ analyzer = ANALYZE_LNPCRE))
    (h : st.run env name isfping verbose_tests analyzer s = some s1) :
    s1.kid.output = s.kid.output := by
  cases st with
  | check now now2 =>
    simp only [SlotStep.run, Option.map_eq_some'] at h
    obtain ⟨r, hr, h⟩ := h
    rw [← h]
    show r.1.output = s.kid.output
    unfold timeout_check at hr
    split_ifs at hr <;> simp only [Option.some.injEq] at hr <;> rw [← hr]
  | chunk guard std buffer =>
    simp only [SlotStep.run, Option.map_eq_some'] at h
    obtain ⟨r, hr, h⟩ := h
    rw [← h]
    exact parse_child_outmode env guard name isfping verbose_tests analyzer s.kid std buffer
      s.reg s.out r hla hr
  | eof std =>
    simp only [SlotStep.run, Option.some.injEq] at h
    rw [← h]
    show (read_eof name std s.kid s.out).1.output = s.kid.output
    unfold read_eof
    split
    · rfl
    · exact left_set_output _ _ _
  | stopped =>
    simp only [SlotStep.run, Option.some.injEq] at h
    rw [← h]
  | save status =>
    simp only [SlotStep.run, Option.some.injEq] at h
    rw [← h]
  | orphan status now now2 =>
    simp only [SlotStep.run] at h
    split_ifs at h <;> simp only [Option.some.injEq] at h <;> rw [← h]

theorem slot_steps_outmode (env : Env) (name : List Char) (isfping verbose_tests : Int)
    (analyzer : Analyze) (hla : ¬ (analyzer = ANALYZE_LNRE ∨ analyzer = ANALYZE_LNPCRE))
    (steps : List SlotStep) :
    ∀ s s1 : Slot, slot_steps env name isfping verbose_tests analyzer steps s = some s1 →
      s1.kid.output = s.kid.output := by
  induction steps with
  | nil =>
    intro s s1 h
    simp only [slot_steps, Option.some.injEq] at h
    rw [h]
  | cons st rest ih =>
    intro s s1 h
    simp only [slot_steps] at h
    cases hr : st.run env name isfping verbose_tests analyzer s with
    | none => simp [hr] at h
    | some s' =>
      simp only [hr] at h
      rw [ih s' s1 h, slot_step_outmode env name isfping verbose_tests analyzer st s s' hla hr]

theorem spawn_output_err (outmode : OutMode) (mode : Int) :
    (spawn_output outmode mode).err = outmode.err := by
  unfold spawn_output; split <;> rfl

/-- C9: a run child (slot `idx >= 1`, not a test, not an analyzer) is spawned
with the output mode of `loop`, which does not carry the flag `ERR`, and goes
through any history of reads, deadline tests and stops; when it then exits
with code `c` and exec state ok, the verdict handed to `set_cmdstatus` is
error when `byteset_test(BSET_ERROR, c)` is 0; otherwise, with no analyzer, the
external script or a streaming line analyzer, success if the `ERR` flag of the
slot is clear and error if it is set (without a line analyzer the flag is
never set); otherwise success iff `analyzer_run` returns 0.  With exec state
not ok the verdict is failure.  (In copy mode the output directory is set: the
assertion on `odir`.) -/
theorem exit_verdict_spec (env : Env) (name : List Char) (verbose_tests : Int)
    (outmode : OutMode) (odir : Option (List Char)) (utest : Analyze) (idx : Nat)
    (mode : Int) (steps : List SlotStep) (s0 s : Slot) (c : Nat)
    (hidx : 1 ≤ idx) (herr : outmode.err = false)
    (hout : s0.kid.output = spawn_output outmode mode)
    (hrun : slot_steps env name 0 verbose_tests utest steps s0 = some s)
    (htest : s.kid.test ≠ 1) (hana : s.kid.analyzer ≠ 1)
    (hdir : outmode.copy = true → odir ≠ none) :
    ((utest = ANALYZE_NONE ∨ utest = ANALYZE_RUN) → s.kid.output.err = false) ∧
    ∃ evs, exit_verdict env name outmode odir utest idx s.kid (.exited c) =
      some (some
        (if s.kid.execstate = 0 then
          (if env.bset_error c = 0 then CMD_ERROR
           else if utest = ANALYZE_NONE ∨ utest = ANALYZE_RUN ∨ utest = ANALYZE_LNRE ∨
               utest = ANALYZE_LNPCRE then
             (if s.kid.output.err = false then CMD_SUCCESS else CMD_ERROR)
           else if env.analyzer_run utest s.kid.ofile s.kid.ofname s.kid.efile s.kid.efname = 0
             then CMD_SUCCESS
           else CMD_ERROR)
         else CMD_FAILURE), s.kid, evs) := by
  have hclear : (utest = ANALYZE_NONE ∨ utest = ANALYZE_RUN) → s.kid.output.err = false := by
    intro hu
    have hla : ¬ (utest = ANALYZE_LNRE ∨ utest = ANALYZE_LNPCRE) := by
      rcases hu with e | e <;> rw [e] <;> decide
    rw [slot_steps_outmode env name 0 verbose_tests utest hla steps s0 s hrun, hout,
      spawn_output_err, herr]
  refine ⟨hclear, ?_⟩
  rcases exit_verdict_exited env name outmode odir utest idx s.kid c hidx htest hana hdir with
    ⟨evs, he⟩
  refine ⟨evs, ?_⟩
  rw [he]
  by_cases h1 : s.kid.execstate = 0
  · simp only [if_pos h1]
    by_cases h2 : env.bset_error c = 0
    · simp only [if_pos h2]
    · simp only [if_neg h2]
      by_cases h3 : utest = ANALYZE_NONE ∨ utest = ANALYZE_RUN
      · have h3' : utest = ANALYZE_NONE ∨ utest = ANALYZE_RUN ∨ utest = ANALYZE_LNRE ∨
            utest = ANALYZE_LNPCRE := by
          rcases h3 with e | e
          · exact Or.inl e
          · exact Or.inr (Or.inl e)
        simp only [if_pos h3, if_pos h3', if_pos (hclear h3)]
      · simp only [if_neg h3]
        by_cases h4 : utest = ANALYZE_LNRE ∨ utest = ANALYZE_LNPCRE
        · have h4' : utest = ANALYZE_NONE ∨ utest = ANALYZE_RUN ∨ utest = ANALYZE_LNRE ∨
              utest = ANALYZE_LNPCRE := Or.inr (Or.inr h4)
          simp only [if_pos h4, if_pos h4']
        · have h4' : ¬ (utest = ANALYZE_NONE ∨ utest = ANALYZE_RUN ∨ utest = ANALYZE_LNRE ∨
              utest = ANALYZE_LNPCRE) := by
            intro h
            rcases h with e | e | e | e
            · exact h3 (Or.inl e)
            · exact h3 (Or.inr e)
            · exact h4 (Or.inl e)
            · exact h4 (Or.inr e)
          simp only [if_neg h4, if_neg h4']
  · simp only [if_neg h1]

/-- C9 at a concrete child: spawned in mode `CHECK` with the output mode
`MIXED` and no analyzer, it writes the line `hi` and exits with code 0. -/
theorem exit_verdict_spec_witness :
    slot_steps sampleEnv ['a'] 0 0 ANALYZE_NONE [SlotStep.chunk 'x' 1 ['h', 'i', '\n']]
        ⟨sampleKid, sampleReg, [], []⟩ =
      some ⟨sampleKid, sampleReg, [Ev.tprint ['a'] MSG_STDOUT ['h', 'i']], []⟩ ∧
    sampleKid.output.err = false ∧
    ∃ evs, exit_verdict sampleEnv ['a'] sampleKid.output none ANALYZE_NONE 1 sampleKid
        (.exited 0) = some (some CMD_SUCCESS, sampleKid, evs) :=
  have hrun : slot_steps sampleEnv ['a'] 0 0 ANALYZE_NONE
      [SlotStep.chunk 'x' 1 ['h', 'i', '\n']] ⟨sampleKid, sampleReg, [], []⟩ =
      some ⟨sampleKid, sampleReg, [Ev.tprint ['a'] MSG_STDOUT ['h', 'i']], []⟩ := by decide
  have h := exit_verdict_spec sampleEnv ['a'] 0 sampleKid.output none ANALYZE_NONE 1
    SPAWN_CHECK [SlotStep.chunk 'x' 1 ['h', 'i', '\n']] ⟨sampleKid, sampleReg, [], []⟩ _ 0
    (by decide) (by decide) (by decide) hrun (by decide) (by decide) (by decide)
  ⟨hrun, h.1 (Or.inl rfl), h.2⟩

end Shmux
